import Mathlib

/-!
# The VM two-level scheduler of Akaros (`user/vmm/sched.c`)

A shallow embedding of the scheduler's process-wide state and of the functions
that act on it, followed by theorems about them.

Conventions of the embedding.

* A thread object is named by its address, a natural number; a nullable
  pointer is an `Option Nat`.  The fields of the thread objects live in the
  heap `thr` of the state.
* A `TAILQ` of threads is the list of the addresses it links, head first:
  `TAILQ_FIRST` is the head, `TAILQ_INSERT_TAIL` appends, and removing the
  first element leaves the tail.
* `atomic_t` counters are mathematical integers: their width is declared in
  a header, and their values are bounded by the number of live thread objects.
  The `int` that `desired_nr_vcores` returns is their sum converted by
  `to_int`.
* `assert` aborts the process: a function whose assertion fails, or that
  dereferences a null pointer, returns `none`.
* What the external runtime answers (`num_vcores()`, what `register_evq`
  returns, the address an allocation yields, whether the tick fired) is an
  input of the function that asks for it, or a field of the state that only
  the environment writes.
-/

namespace Vmm

/-- The class tag of a thread: `VMM_THREAD_GUEST`, `VMM_THREAD_CTLR` and
`VMM_THREAD_TASK` of `vmm/sched.h`. -/
inductive ThreadType where
  | GUEST
  | CTLR
  | TASK
  deriving DecidableEq, Repr

open ThreadType

/-- The fields of `struct vmm_thread` (the union of `guest_thread`,
`ctlr_thread` and `task_thread`) that the scheduler reads or writes.  `sysc`
is `uthread.sysc`, the system call the thread is blocked on. -/
structure vmm_thread where
  type : ThreadType
  vm : Option Nat
  buddy : Option Nat
  gpc_id : Nat
  stacktop : Option Nat
  stacksize : Nat
  func : Option Nat
  arg : Option Nat
  sysc : Option Nat
  deriving DecidableEq, Repr

/-- The process-wide state of the scheduler: the file-scope variables of
`sched.c`, the heap of thread objects and of `struct syscall` objects, and the
record of what was asked of the external runtime.

* `thr a` is the thread object at address `a`;
* `u_data c` is the field `u_data` of the `struct syscall` at address `c`;
* `next_class` is the function-local `static int next_class` of
  `pick_a_thread_degraded`;
* `num_vcores` is what `num_vcores()` answers, written by the environment only;
* `tick` is the state of the calling vcore's tick: `none` when disabled,
  `some p` when enabled with period `p` microseconds;
* `requests` lists the arguments of the calls of `vcore_request_total`, oldest
  first. -/
structure sched_state where
  thr : Nat → vmm_thread
  u_data : Nat → Option Nat
  rnbl_tasks : List Nat
  rnbl_guests : List Nat
  nr_unblk_tasks : Int
  nr_unblk_guests : Int
  next_class : ThreadType
  vmm_sched_period_usec : Int
  current_vm : Option Nat
  num_vcores : Int
  tick : Option Int
  requests : List Int

/-- A thread object as `memset(vth, 0, sizeof(struct vmm_thread))` leaves it,
with the two fields `alloc_vmm_thread` then writes. -/
def zeroed_thread (vm : Option Nat) (type : ThreadType) : vmm_thread :=
  { type := type, vm := vm, buddy := none, gpc_id := 0, stacktop := none,
    stacksize := 0, func := none, arg := none, sysc := none }

/-- The state the static initialisers of `sched.c` give: empty queues, zero
counters, cursor on the guest class, period 1000, no session; no tick and no
request yet.  The heap content and the vcore count are parameters. -/
def static_init (thr : Nat → vmm_thread) (nv : Int) : sched_state :=
  { thr := thr, u_data := fun _ => none, rnbl_tasks := [], rnbl_guests := [],
    nr_unblk_tasks := 0, nr_unblk_guests := 0, next_class := GUEST,
    vmm_sched_period_usec := 1000, current_vm := none, num_vcores := nv,
    tick := none, requests := [] }

/-- Conversion of a value to a C `int`, the return type of
`desired_nr_vcores`: the value modulo 2^32 in the range from -2^31 to
2^31 - 1. -/
def to_int (x : Int) : Int := (x + 2147483648) % 4294967296 - 2147483648

/-- `desired_nr_vcores`: the two sanity assertions, then the sum, returned as
an `int`. -/
def desired_nr_vcores (s : sched_state) : Option Int :=
  if 0 ≤ s.nr_unblk_guests then
    if 0 ≤ s.nr_unblk_tasks then
      some (to_int (s.nr_unblk_guests + s.nr_unblk_tasks))
    else none
  else none

/-- `__pop_first`: the head of the queue, removed from it, or null. -/
def __pop_first (tq : List Nat) : Option Nat × List Nat :=
  match tq with
  | [] => (none, [])
  | vth :: rest => (some vth, rest)

/-- `pick_a_thread_degraded`: the class the cursor names is tried first, then
the other one, and the cursor moves to the other class. -/
def pick_a_thread_degraded (s : sched_state) : Option Nat × sched_state :=
  let vth : Option Nat := none
  if s.next_class = GUEST then
    let r1 := if vth.isNone then
        ((__pop_first s.rnbl_guests).1,
          { s with rnbl_guests := (__pop_first s.rnbl_guests).2 })
      else (vth, s)
    let r2 := if r1.1.isNone then
        ((__pop_first r1.2.rnbl_tasks).1,
          { r1.2 with rnbl_tasks := (__pop_first r1.2.rnbl_tasks).2 })
      else r1
    (r2.1, { r2.2 with next_class := TASK })
  else
    let r1 := if vth.isNone then
        ((__pop_first s.rnbl_tasks).1,
          { s with rnbl_tasks := (__pop_first s.rnbl_tasks).2 })
      else (vth, s)
    let r2 := if r1.1.isNone then
        ((__pop_first r1.2.rnbl_guests).1,
          { r1.2 with rnbl_guests := (__pop_first r1.2.rnbl_guests).2 })
      else r1
    (r2.1, { r2.2 with next_class := GUEST })

/-- `pick_a_thread_plenty`: tasks first, then guests. -/
def pick_a_thread_plenty (s : sched_state) : Option Nat × sched_state :=
  let vth : Option Nat := none
  let r1 := if vth.isNone then
      ((__pop_first s.rnbl_tasks).1,
        { s with rnbl_tasks := (__pop_first s.rnbl_tasks).2 })
    else (vth, s)
  let r2 := if r1.1.isNone then
      ((__pop_first r1.2.rnbl_guests).1,
        { r1.2 with rnbl_guests := (__pop_first r1.2.rnbl_guests).2 })
    else r1
  r2

/-- `try_to_get_vcores`: `TRUE` with the tick disabled when the vcores granted
cover the wish; otherwise the tick is enabled with the configured period, the
wished total is requested and the answer is `FALSE`. -/
def try_to_get_vcores (s : sched_state) : Option (Bool × sched_state) :=
  match desired_nr_vcores s with
  | none => none
  | some nr_vcores_wanted =>
    if nr_vcores_wanted ≤ s.num_vcores then
      some (true, { s with tick := none })
    else
      some (false, { s with tick := some s.vmm_sched_period_usec,
                            requests := s.requests ++ [nr_vcores_wanted] })

/-- `acct_thread_blocked`: one less unblocked thread in the class of `vth`. -/
def acct_thread_blocked (s : sched_state) (vth : Nat) : sched_state :=
  match (s.thr vth).type with
  | GUEST => { s with nr_unblk_guests := s.nr_unblk_guests - 1 }
  | CTLR => { s with nr_unblk_guests := s.nr_unblk_guests - 1 }
  | TASK => { s with nr_unblk_tasks := s.nr_unblk_tasks - 1 }

/-- `acct_thread_unblocked`: one more unblocked thread in the class of `vth`. -/
def acct_thread_unblocked (s : sched_state) (vth : Nat) : sched_state :=
  match (s.thr vth).type with
  | GUEST => { s with nr_unblk_guests := s.nr_unblk_guests + 1 }
  | CTLR => { s with nr_unblk_guests := s.nr_unblk_guests + 1 }
  | TASK => { s with nr_unblk_tasks := s.nr_unblk_tasks + 1 }

/-- The queue insertion of `enqueue_vmm_thread`, the part under the lock. -/
def insert_tail (s : sched_state) (vth : Nat) : sched_state :=
  match (s.thr vth).type with
  | GUEST => { s with rnbl_guests := s.rnbl_guests ++ [vth] }
  | CTLR => { s with rnbl_guests := s.rnbl_guests ++ [vth] }
  | TASK => { s with rnbl_tasks := s.rnbl_tasks ++ [vth] }

/-- `enqueue_vmm_thread`: append to the queue of the thread's class, then
re-evaluate the vcore request (the answer is dropped). -/
def enqueue_vmm_thread (s : sched_state) (vth : Nat) : Option sched_state :=
  (try_to_get_vcores (insert_tail s vth)).map Prod.snd

/-- `vmm_thread_runnable`: a blocked thread becomes unblocked and is queued. -/
def vmm_thread_runnable (s : sched_state) (uth : Nat) : Option sched_state :=
  enqueue_vmm_thread (acct_thread_unblocked s uth) uth

/-- `vmm_thread_paused`: the thread is queued again, it never was blocked. -/
def vmm_thread_paused (s : sched_state) (uth : Nat) : Option sched_state :=
  enqueue_vmm_thread s uth

/-- `restart_thread`: the thread attached to the call is detached from it and
made runnable; both assertions abort. -/
def restart_thread (s : sched_state) (sysc : Nat) : Option sched_state :=
  match s.u_data sysc with
  | none => none
  | some ut_restartee =>
    if (s.thr ut_restartee).sysc = some sysc then
      vmm_thread_runnable
        { s with thr := Function.update s.thr ut_restartee
                          { s.thr ut_restartee with sysc := none } }
        ut_restartee
    else none

/-- `vmm_thread_blockon_sysc`; `registered` is what `register_evq` answers:
`false` when the call had already completed. -/
def vmm_thread_blockon_sysc (s : sched_state) (uth : Nat) (sysc : Nat)
    (registered : Bool) : Option sched_state :=
  let s1 := acct_thread_blocked s uth
  let s2 := { s1 with u_data := Function.update s1.u_data sysc (some uth) }
  if !registered then restart_thread s2 sysc else some s2

/-- `vmm_thread_has_blocked`: only the accounting changes. -/
def vmm_thread_has_blocked (s : sched_state) (uth : Nat) (_flags : Int) :
    sched_state :=
  acct_thread_blocked s uth

/-- `alloc_vmm_thread`; `mem` is what `posix_memalign` yields, `none` when it
fails.  The object is zeroed, then its class and session are written. -/
def alloc_vmm_thread (s : sched_state) (vm : Option Nat) (type : ThreadType)
    (mem : Option Nat) : Option Nat × sched_state :=
  match mem with
  | none => (none, s)
  | some vth =>
    (some vth, { s with thr := Function.update s.thr vth (zeroed_thread vm type) })

/-- `vmm_lib_init`, the constructor: thread0 is allocated as a task thread of
no session, counted as unblocked and given the process stack.  `ustack_size`
is `USTACK_NUM_PAGES * PGSIZE` and `ustacktop` is `USTACKTOP`. -/
def vmm_lib_init (ustack_size ustacktop : Nat) (s : sched_state)
    (mem : Option Nat) : Option sched_state :=
  match alloc_vmm_thread s none TASK mem with
  | (none, _) => none
  | (some thread0, s1) =>
    let s2 := acct_thread_unblocked s1 thread0
    some { s2 with thr := Function.update s2.thr thread0
                     { s2.thr thread0 with stacksize := ustack_size,
                                           stacktop := some ustacktop } }

/-- `yield_current_uth`: the current thread, when there is one, is stopped and
queued.  The result carries the new value of `current_uthread`. -/
def yield_current_uth (s : sched_state) (current_uthread : Option Nat) :
    Option (Option Nat × sched_state) :=
  match current_uthread with
  | none => some (none, s)
  | some vth => (enqueue_vmm_thread s vth).map (fun s1 => (none, s1))

/-- How `vmm_sched_entry` leaves: through `run_current_uthread`, through
`run_uthread` on the thread it picked, or through `vcore_yield_or_restart`. -/
inductive sched_exit where
  | run_current (uth : Nat)
  | run (vth : Nat)
  | vcore_yield
  deriving DecidableEq, Repr

/-- `vmm_sched_entry` on a vcore whose `current_uthread` is given;
`tick_fired` is what `vcore_tick_poll` answers when it is asked. -/
def vmm_sched_entry (s : sched_state) (current_uthread : Option Nat)
    (tick_fired : Bool) : Option (sched_exit × sched_state) :=
  match try_to_get_vcores s with
  | none => none
  | some (have_enough, s1) =>
    match (if !have_enough && tick_fired then yield_current_uth s1 current_uthread
           else some (current_uthread, s1)) with
    | none => none
    | some (some uth, s2) => some (sched_exit.run_current uth, s2)
    | some (none, s2) =>
      let r := if have_enough then pick_a_thread_plenty s2
               else pick_a_thread_degraded s2
      match r.1 with
      | none => some (sched_exit.vcore_yield, r.2)
      | some vth => some (sched_exit.run vth, r.2)

/-- `__swap_to_gth`: the thread handed to `run_uthread`, the buddy of the
controller; the queues and counters are not touched. -/
def __swap_to_gth (s : sched_state) (uth : Nat) : Option Nat × sched_state :=
  ((s.thr uth).buddy, s)

/-- `vmm_thread_refl_vm_fault`: the controller, the buddy of the guest, is
handed to `run_uthread`.  Its context is reset to `__ctlr_entry` on its own
stack, which the embedding does not represent.  A guest without buddy is a
null dereference. -/
def vmm_thread_refl_vm_fault (s : sched_state) (uth : Nat) :
    Option (Nat × sched_state) :=
  match (s.thr uth).buddy with
  | none => none
  | some cth => some (cth, s)

/-- `create_guest_thread`; `memg` and `memc` are what the two allocations
yield and `stack` what `__alloc_stack` yields.  `stksz` stands for
`VMM_THR_STACKSIZE`. -/
def create_guest_thread (stksz : Nat) (s : sched_state) (vm : Option Nat)
    (gpcoreid : Nat) (memg memc stack : Option Nat) : Option Nat × sched_state :=
  let rg := alloc_vmm_thread s vm GUEST memg
  let rc := alloc_vmm_thread rg.2 vm CTLR memc
  match rg.1, rc.1 with
  | some gth, some cth =>
    let s1 := rc.2
    let s2 := { s1 with thr := Function.update s1.thr gth
                          { s1.thr gth with buddy := some cth } }
    let s3 := { s2 with thr := Function.update s2.thr cth
                          { s2.thr cth with buddy := some gth } }
    let s4 := { s3 with thr := Function.update s3.thr gth
                          { s3.thr gth with gpc_id := gpcoreid } }
    let s5 := { s4 with thr := Function.update s4.thr cth
                          { s4.thr cth with stacksize := stksz } }
    let s6 := { s5 with thr := Function.update s5.thr cth
                          { s5.thr cth with stacktop := stack } }
    match stack with
    | none => (none, s6)
    | some _ => (some gth, s6)
  | _, _ => (none, rc.2)

/-- `start_guest_thread`: the guest is counted as unblocked and queued. -/
def start_guest_thread (s : sched_state) (gth : Nat) : Option sched_state :=
  enqueue_vmm_thread (acct_thread_unblocked s gth) gth

/-- `__tth_exit_cb`: the exiting task is accounted as blocked; its stack and
its object are then released, which leaves the scheduler state as it is. -/
def __tth_exit_cb (s : sched_state) (uthread : Nat) : sched_state :=
  acct_thread_blocked s uthread

/-- `vmm_run_task`; `mem` is what the allocation of the thread object yields
and `stack` what `__alloc_stack` yields.  The result is the new thread, or
null.  `stksz` stands for `VMM_THR_STACKSIZE`. -/
def vmm_run_task (stksz : Nat) (s : sched_state) (vm func arg : Option Nat)
    (mem stack : Option Nat) : Option (Option Nat × sched_state) :=
  match alloc_vmm_thread s vm TASK mem with
  | (none, s1) => some (none, s1)
  | (some tth, s1) =>
    let s2 := { s1 with thr := Function.update s1.thr tth
                          { s1.thr tth with stacksize := stksz } }
    let s3 := { s2 with thr := Function.update s2.thr tth
                          { s2.thr tth with stacktop := stack } }
    match stack with
    | none => some (none, s3)
    | some _ =>
      let s4 := { s3 with thr := Function.update s3.thr tth
                            { s3.thr tth with func := func } }
      let s5 := { s4 with thr := Function.update s4.thr tth
                            { s4.thr tth with arg := arg } }
      (enqueue_vmm_thread (acct_thread_unblocked s5 tth) tth).map
        (fun s6 => (some tth, s6))

/-- `vmm_handle_syscall`: the completion event of a system call restarts the
thread attached to it; `ev_arg3` is the call the event message names. -/
def vmm_handle_syscall (s : sched_state) (ev_arg3 : Option Nat) :
    Option sched_state :=
  match ev_arg3 with
  | none => none
  | some sysc => restart_thread s sysc

/-- The results of `n` successive calls of `pick_a_thread_degraded`, first call
first, and the state they leave. -/
def degraded_picks : Nat → sched_state → List (Option Nat) × sched_state
  | 0, s => ([], s)
  | n + 1, s =>
    let r := pick_a_thread_degraded s
    let rest := degraded_picks n r.2
    (r.1 :: rest.1, rest.2)

/-- Successive calls of `enqueue_vmm_thread`, one per thread of the list. -/
def enqueue_all : sched_state → List Nat → Option sched_state
  | s, [] => some s
  | s, vth :: rest =>
    match enqueue_vmm_thread s vth with
    | none => none
    | some s1 => enqueue_all s1 rest

/-- The strict alternation `g1, t1, g2, t2, ...` of two lists. -/
def alternate : List Nat → List Nat → List Nat
  | g :: gs, t :: ts => g :: t :: alternate gs ts
  | _, _ => []

/-- The cursor after a call of `pick_a_thread_degraded` on cursor `c`. -/
def flip_class (c : ThreadType) : ThreadType :=
  if c = GUEST then TASK else GUEST

/-- Two calls of `try_to_get_vcores` in a row, nothing in between: the two
answers and the state after the second call. -/
def try_to_get_vcores_twice (s : sched_state) : Option (Bool × Bool × sched_state) :=
  match try_to_get_vcores s with
  | none => none
  | some (b1, s1) =>
    match try_to_get_vcores s1 with
    | none => none
    | some (b2, s2) => some (b1, b2, s2)

/-! ### The scheduler among its threads

The scheduler's variables do not record which threads are running or blocked:
the uthread runtime knows.  A `world` adds this to the scheduler state, and an
`op` is one call of the runtime or of the application into the scheduler. -/

/-- The scheduler state together with what the runtime knows of the threads.

* `running`: the threads that are the `current_uthread` of some vcore;
* `blocked`: the threads that blocked and have not been made runnable since;
* `unstarted`: the guest threads created and not yet started;
* `gths`: the guest threads created and not destroyed, one per pair;
* `allocated`: the addresses of the thread objects allocated and not freed. -/
structure world where
  sched : sched_state
  running : List Nat
  blocked : List Nat
  unstarted : List Nat
  gths : List Nat
  allocated : List Nat

/-- The calls into the scheduler, with what the environment answers during
the call.

* `run_task`: `vmm_run_task`;
* `create_guest`: `create_guest_thread`, as `vmm_init` calls it;
* `destroy_guest`: `destroy_guest_thread`, as `vmm_init` calls it to roll back;
* `start_guest`: `start_guest_thread`;
* `thread_runnable`, `thread_paused`, `thread_has_blocked`,
  `thread_blockon_sysc`: the callbacks of `vmm_sched_ops`; before
  `thread_blockon_sysc` the runtime has set `uth->sysc`;
* `handle_syscall`: `vmm_handle_syscall` on the completion event of a call;
* `task_exit`: `__tth_exit_cb`, the yield callback of `__task_thread_run`;
* `refl_vm_fault`: `vmm_thread_refl_vm_fault`, a VM exit of a running guest;
* `swap_to_gth`: `__swap_to_gth`, the yield callback of `__ctlr_entry`;
* `sched_entry`: `vmm_sched_entry` on a vcore with the given current thread;
* `grant`: the kernel changes the number of vcores granted. -/
inductive op where
  | run_task (vm func arg mem stack : Option Nat)
  | create_guest (vm : Option Nat) (gpcoreid : Nat) (memg memc stack : Option Nat)
  | destroy_guest (gth : Nat)
  | start_guest (gth : Nat)
  | thread_runnable (uth : Nat)
  | handle_syscall (sysc : Nat)
  | thread_paused (uth : Nat)
  | thread_has_blocked (uth : Nat) (flags : Int)
  | thread_blockon_sysc (uth sysc : Nat) (registered : Bool)
  | task_exit (uth : Nat)
  | refl_vm_fault (uth : Nat)
  | swap_to_gth (uth : Nat)
  | sched_entry (current_uthread : Option Nat) (tick_fired : Bool)
  | grant (nv : Int)

/-- The running threads once the vcore's current thread, if any, has left. -/
def drop_current (running : List Nat) (current_uthread : Option Nat) : List Nat :=
  match current_uthread with
  | none => running
  | some uth => running.erase uth

/-- One call: the scheduler function runs on the scheduler state, and the
record of the threads follows what the function did with the thread.  The
result is `none` when the call aborts. -/
def exec (stksz : Nat) (w : world) : op → Option world
  | op.run_task vm func arg mem stack =>
    match vmm_run_task stksz w.sched vm func arg mem stack with
    | none => none
    | some (none, s1) => some { w with sched := s1 }
    | some (some tth, s1) =>
      some { w with sched := s1, allocated := tth :: w.allocated }
  | op.create_guest vm gpcoreid memg memc stack =>
    match create_guest_thread stksz w.sched vm gpcoreid memg memc stack, memc with
    | (some gth, s1), some cth =>
      some { w with sched := s1, gths := gth :: w.gths,
                    unstarted := gth :: w.unstarted,
                    allocated := gth :: cth :: w.allocated }
    | (_, s1), _ => some { w with sched := s1 }
  | op.destroy_guest gth =>
    match (w.sched.thr gth).buddy with
    | none => none
    | some cth =>
      some { w with unstarted := w.unstarted.erase gth, gths := w.gths.erase gth,
                    allocated := w.allocated.filter
                      (fun a => decide (a ≠ gth ∧ a ≠ cth)) }
  | op.start_guest gth =>
    match start_guest_thread w.sched gth with
    | none => none
    | some s1 => some { w with sched := s1, unstarted := w.unstarted.erase gth }
  | op.thread_runnable uth =>
    match vmm_thread_runnable w.sched uth with
    | none => none
    | some s1 => some { w with sched := s1, blocked := w.blocked.erase uth }
  | op.handle_syscall sysc =>
    match w.sched.u_data sysc, vmm_handle_syscall w.sched (some sysc) with
    | some uth, some s1 =>
      some { w with sched := s1, blocked := w.blocked.erase uth }
    | _, _ => none
  | op.thread_paused uth =>
    match vmm_thread_paused w.sched uth with
    | none => none
    | some s1 => some { w with sched := s1, running := w.running.erase uth }
  | op.thread_has_blocked uth flags =>
    some { w with sched := vmm_thread_has_blocked w.sched uth flags,
                  running := w.running.erase uth, blocked := uth :: w.blocked }
  | op.thread_blockon_sysc uth sysc registered =>
    match vmm_thread_blockon_sysc
        { w.sched with thr := Function.update w.sched.thr uth
                                { w.sched.thr uth with sysc := some sysc } }
        uth sysc registered with
    | none => none
    | some s1 =>
      some { w with sched := s1, running := w.running.erase uth,
                    blocked := if registered then uth :: w.blocked else w.blocked }
  | op.task_exit uth =>
    some { w with sched := __tth_exit_cb w.sched uth,
                  running := w.running.erase uth,
                  allocated := w.allocated.filter (fun a => decide (a ≠ uth)) }
  | op.refl_vm_fault uth =>
    match vmm_thread_refl_vm_fault w.sched uth with
    | none => none
    | some (cth, s1) =>
      some { w with sched := s1, running := cth :: w.running.erase uth }
  | op.swap_to_gth uth =>
    match __swap_to_gth w.sched uth with
    | (none, _) => none
    | (some gth, s1) =>
      some { w with sched := s1, running := gth :: w.running.erase uth }
  | op.sched_entry current_uthread tick_fired =>
    match vmm_sched_entry w.sched current_uthread tick_fired with
    | none => none
    | some (sched_exit.run_current _, s1) => some { w with sched := s1 }
    | some (sched_exit.run vth, s1) =>
      some { w with sched := s1,
                    running := vth :: drop_current w.running current_uthread }
    | some (sched_exit.vcore_yield, s1) =>
      some { w with sched := s1,
                    running := drop_current w.running current_uthread }
  | op.grant nv => some { w with sched := { w.sched with num_vcores := nv } }

/-- An allocation yields null or the address of no allocated thread object. -/
def fresh (w : world) (mem : Option Nat) : Prop :=
  match mem with
  | none => True
  | some a => a ∉ w.allocated

/-- The runtime protocol: when a call may happen.  A thread is made runnable
only while blocked, a guest is started (or destroyed) only while unstarted,
and the callbacks about a running thread (pause, block, exit, VM exit, swap)
concern a thread that is running; an exiting thread is a task, a VM exit is
taken by a guest and the swap back is done by a controller; a completion
event names a call on which a blocked thread waits. -/
def enabled (w : world) : op → Prop
  | op.run_task _ _ _ mem _ => fresh w mem
  | op.create_guest _ _ memg memc _ =>
    fresh w memg ∧ fresh w memc ∧ (memg = none ∨ memg ≠ memc)
  | op.destroy_guest gth => gth ∈ w.unstarted
  | op.start_guest gth => gth ∈ w.unstarted
  | op.thread_runnable uth => uth ∈ w.blocked
  | op.handle_syscall sysc =>
    match w.sched.u_data sysc with
    | none => False
    | some uth => uth ∈ w.blocked ∧ (w.sched.thr uth).sysc = some sysc
  | op.thread_paused uth => uth ∈ w.running
  | op.thread_has_blocked uth _ => uth ∈ w.running
  | op.thread_blockon_sysc uth _ _ => uth ∈ w.running
  | op.task_exit uth => uth ∈ w.running ∧ (w.sched.thr uth).type = TASK
  | op.refl_vm_fault uth => uth ∈ w.running ∧ (w.sched.thr uth).type = GUEST
  | op.swap_to_gth uth => uth ∈ w.running ∧ (w.sched.thr uth).type = CTLR
  | op.sched_entry current_uthread _ =>
    match current_uthread with
    | none => True
    | some uth => uth ∈ w.running
  | op.grant _ => True

/-- Freshness of an allocation result can be checked. -/
instance fresh.decidable (w : world) (mem : Option Nat) : Decidable (fresh w mem) :=
  match mem with
  | none => isTrue trivial
  | some a => inferInstanceAs (Decidable (a ∉ w.allocated))

/-- Whether the protocol allows a call can be checked. -/
instance enabled.decidable (w : world) (o : op) : Decidable (enabled w o) :=
  match o with
  | op.run_task _ _ _ mem _ => inferInstanceAs (Decidable (fresh w mem))
  | op.create_guest _ _ memg memc _ =>
    inferInstanceAs (Decidable (fresh w memg ∧ fresh w memc ∧ (memg = none ∨ memg ≠ memc)))
  | op.destroy_guest gth => inferInstanceAs (Decidable (gth ∈ w.unstarted))
  | op.start_guest gth => inferInstanceAs (Decidable (gth ∈ w.unstarted))
  | op.thread_runnable uth => inferInstanceAs (Decidable (uth ∈ w.blocked))
  | op.handle_syscall sysc =>
    match h : w.sched.u_data sysc with
    | none => isFalse (by simp [enabled, h])
    | some uth =>
      if h1 : uth ∈ w.blocked ∧ (w.sched.thr uth).sysc = some sysc then
        isTrue (by simpa [enabled, h] using h1)
      else isFalse (by simpa [enabled, h] using h1)
  | op.thread_paused uth => inferInstanceAs (Decidable (uth ∈ w.running))
  | op.thread_has_blocked uth _ => inferInstanceAs (Decidable (uth ∈ w.running))
  | op.thread_blockon_sysc uth _ _ => inferInstanceAs (Decidable (uth ∈ w.running))
  | op.task_exit uth =>
    inferInstanceAs (Decidable (uth ∈ w.running ∧ (w.sched.thr uth).type = TASK))
  | op.refl_vm_fault uth =>
    inferInstanceAs (Decidable (uth ∈ w.running ∧ (w.sched.thr uth).type = GUEST))
  | op.swap_to_gth uth =>
    inferInstanceAs (Decidable (uth ∈ w.running ∧ (w.sched.thr uth).type = CTLR))
  | op.sched_entry none _ => isTrue trivial
  | op.sched_entry (some uth) _ => inferInstanceAs (Decidable (uth ∈ w.running))
  | op.grant _ => isTrue trivial

/-- The state after `vmm_lib_init`: thread0 is running and counted, and
nothing else exists. -/
def world_init (ustack_size ustacktop : Nat) (thr : Nat → vmm_thread) (nv : Int)
    (thread0 : Nat) : Option world :=
  match vmm_lib_init ustack_size ustacktop (static_init thr nv) (some thread0) with
  | none => none
  | some s =>
    some { sched := s, running := [thread0], blocked := [], unstarted := [],
           gths := [], allocated := [thread0] }

/-- The states the scheduler reaches from its initial state through calls that
follow the protocol. -/
inductive reachable (stksz : Nat) : world → Prop where
  | init (ustack_size ustacktop : Nat) (thr : Nat → vmm_thread) (nv : Int)
      (thread0 : Nat) (w : world)
      (h : world_init ustack_size ustacktop thr nv thread0 = some w) :
      reachable stksz w
  | step (w w1 : world) (o : op) (hw : reachable stksz w) (he : enabled w o)
      (hx : exec stksz w o = some w1) : reachable stksz w1

/-- Whether the pair of guest `g`, that is `g` and its buddy, has a member
running or in `rnbl_guests`. -/
def pair_unblocked (w : world) (g : Nat) : Bool :=
  decide (g ∈ w.running ++ w.sched.rnbl_guests) ||
    match (w.sched.thr g).buddy with
    | none => false
    | some c => decide (c ∈ w.running ++ w.sched.rnbl_guests)

/-- A world to start examples from: `vmm_lib_init` with thread0 at address 1 on
one vcore, every other object zeroed. -/
def demo_init : world :=
  (world_init 0 0 (fun _ => zeroed_thread none TASK) 1 1).getD
    { sched := static_init (fun _ => zeroed_thread none TASK) 1, running := [],
      blocked := [], unstarted := [], gths := [], allocated := [] }

/-- One call on an example world (the world itself should the call abort). -/
def demo_step (w : world) (o : op) : world :=
  (exec 4096 w o).getD w

/-- Example: after initialisation the pair of guest 10 and controller 11 is
created. -/
def demo_created : world :=
  demo_step demo_init (op.create_guest none 0 (some 10) (some 11) (some 500))

/-- Example, continued: guest 10 is started. -/
def demo_started : world :=
  demo_step demo_created (op.start_guest 10)

/-- Example, continued: a task is created at address 2. -/
def demo_tasked : world :=
  demo_step demo_started (op.run_task none (some 7) none (some 2) (some 600))

/-- Example, continued: a second vcore enters the scheduler and picks guest
10, the cursor being on the guest class. -/
def demo_picked : world :=
  demo_step demo_tasked (op.sched_entry none false)

/-- Example, continued: guest 10 takes a VM exit and its controller 11 runs. -/
def demo_world : world :=
  demo_step demo_picked (op.refl_vm_fault 10)

/-- What the accounting invariant reads of a world: the class and the buddy of
every thread, the queues, runners and other thread sets up to order, the
counters and the allocated addresses. -/
structure core where
  ty : Nat → ThreadType
  bud : Nat → Option Nat
  qt : Multiset Nat
  qg : Multiset Nat
  nt : Int
  ng : Int
  run : Multiset Nat
  blk : Multiset Nat
  uns : Multiset Nat
  gths : Multiset Nat
  alloc : List Nat

/-- The threads that are running, queued, blocked or unstarted. -/
def core.live (c : core) : Multiset Nat := c.run + c.qt + c.qg + c.blk + c.uns

/-- The invariant of the scheduler among its threads: no thread is twice among
the live ones, the live ones are allocated, each queue holds its class, every
pair is wired both ways with at most one member live, every live guest-class
thread belongs to a pair, and each counter is the number of running or queued
threads of its class. -/
structure core.wf (c : core) : Prop where
  nodup : c.live.Nodup
  alloc : ∀ p ∈ c.live, p ∈ c.alloc
  q_tasks : ∀ p ∈ c.qt, c.ty p = TASK
  q_guests : ∀ p ∈ c.qg, c.ty p ≠ TASK
  gths_nodup : c.gths.Nodup
  pair : ∀ g ∈ c.gths, c.ty g = GUEST ∧ g ∈ c.alloc ∧
    ∃ b, c.bud g = some b ∧ c.ty b = CTLR ∧ c.bud b = some g ∧ b ∈ c.alloc ∧
      ¬ (g ∈ c.live ∧ b ∈ c.live)
  member : ∀ p ∈ c.live, c.ty p ≠ TASK → p ∈ c.gths ∨ ∃ g ∈ c.gths, c.bud g = some p
  unstarted : ∀ g ∈ c.uns, g ∈ c.gths
  cnt_tasks : c.nt = (c.run + c.qt).countP (fun p => c.ty p = TASK)
  cnt_guests : c.ng = (c.run + c.qg).countP (fun p => c.ty p ≠ TASK)

/-- A thread joins the queue of its class. -/
def core.enq (c : core) (t : Nat) : core :=
  if c.ty t = TASK then { c with qt := c.qt + {t} } else { c with qg := c.qg + {t} }

/-- A thread is counted as unblocked. -/
def core.inc (c : core) (t : Nat) : core :=
  if c.ty t = TASK then { c with nt := c.nt + 1 } else { c with ng := c.ng + 1 }

/-- A thread is counted as blocked. -/
def core.dec (c : core) (t : Nat) : core :=
  if c.ty t = TASK then { c with nt := c.nt - 1 } else { c with ng := c.ng - 1 }

/-- The core of a world. -/
def core_of (w : world) : core :=
  { ty := fun p => (w.sched.thr p).type,
    bud := fun p => (w.sched.thr p).buddy,
    qt := (w.sched.rnbl_tasks : Multiset Nat),
    qg := (w.sched.rnbl_guests : Multiset Nat),
    nt := w.sched.nr_unblk_tasks,
    ng := w.sched.nr_unblk_guests,
    run := (w.running : Multiset Nat),
    blk := (w.blocked : Multiset Nat),
    uns := (w.unstarted : Multiset Nat),
    gths := (w.gths : Multiset Nat),
    alloc := w.allocated }

/-! ### Faults, sessions and task bodies -/

/-- How `__ctlr_entry` leaves: `exit` with a status, or, through the yield
callback `__swap_to_gth`, `run_uthread` on a thread (null when the controller
has no buddy). -/
inductive ctlr_exit where
  | exit (status : Int)
  | run (uth : Option Nat)
  deriving DecidableEq, Repr

/-- `__ctlr_entry` on the controller that is the current thread; `handled` is
what `handle_vmexit` answers.  A failed exit handling ends the process with
status 0, after the diagnostics; otherwise the controller yields and the
callback `__swap_to_gth` runs. -/
def __ctlr_entry (s : sched_state) (current_uthread : Nat) (handled : Bool) :
    ctlr_exit × sched_state :=
  if !handled then (ctlr_exit.exit 0, s)
  else (ctlr_exit.run (__swap_to_gth s current_uthread).1,
        (__swap_to_gth s current_uthread).2)

/-- Modelled from the spec: `__block_uthread_on_async_sysc` of the uthread
library, which is not among the sources.  The thread is blocked on the call
"exactly as in the syscall path": the call is attached to the thread and the
scheduler's `thread_blockon_sysc` runs.  `local_sysc` is the address of
`uth->local_sysc` and `registered` is what `register_evq` answers. -/
def __block_uthread_on_async_sysc (s : sched_state) (uth local_sysc : Nat)
    (registered : Bool) : Option sched_state :=
  vmm_thread_blockon_sysc
    { s with thr := Function.update s.thr uth
                      { s.thr uth with sysc := some local_sysc } }
    uth local_sysc registered

/-- The call `syscall_async(&uth->local_sysc, SYS_populate_va, va, nr_pages)`. -/
structure populate_call where
  va : Nat
  nr_pages : Nat
  deriving DecidableEq, Repr

/-- What `refl_error` prints before `exit`, and the exit status. -/
structure fatal_report where
  trap_nr : Nat
  err : Nat
  aux : Nat
  status : Int
  deriving DecidableEq, Repr

/-- `refl_error`: the fault is printed and the process exits with status -1. -/
def refl_error (trap_nr err aux : Nat) : fatal_report :=
  { trap_nr := trap_nr, err := err, aux := aux, status := -1 }

/-- `handle_page_fault`; `pf_vmr_backed` stands for `PF_VMR_BACKED` and
`block_on` for what `__block_uthread_on_async_sysc` does with the thread.
Without the bit in `err` the answer is `FALSE` and nothing is done; with it the
populate call is issued for `aux` and one page, the thread blocks on it and the
answer is `TRUE`.  The result lists the populate calls issued. -/
def handle_page_fault (pf_vmr_backed : Nat)
    (block_on : sched_state → Nat → Option sched_state)
    (s : sched_state) (uth err aux : Nat) :
    Option (Bool × List populate_call × sched_state) :=
  if err &&& pf_vmr_backed = 0 then some (false, [], s)
  else
    match block_on s uth with
    | none => none
    | some s1 => some (true, [{ va := aux, nr_pages := 1 }], s1)

/-- How `vmm_thread_refl_hw_fault` ends: it returns, with the populate calls
issued and the scheduler state it leaves, or the process exits through
`refl_error`, with the populate calls issued and the scheduler state before
the exit. -/
inductive hw_fault_exit where
  | returned (calls : List populate_call) (s : sched_state)
  | fatal (report : fatal_report) (calls : List populate_call) (s : sched_state)

/-- `vmm_thread_refl_hw_fault`; `hw_trap_page_fault` stands for
`HW_TRAP_PAGE_FAULT`, `pf_vmr_backed` for `PF_VMR_BACKED` and `block_on` for
what `__block_uthread_on_async_sysc` does with the thread. -/
def vmm_thread_refl_hw_fault (hw_trap_page_fault pf_vmr_backed : Nat)
    (block_on : sched_state → Nat → Option sched_state)
    (s : sched_state) (uth trap_nr err aux : Nat) : Option hw_fault_exit :=
  if trap_nr = hw_trap_page_fault then
    match handle_page_fault pf_vmr_backed block_on s uth err aux with
    | none => none
    | some (handled, calls, s1) =>
      if !handled then some (hw_fault_exit.fatal (refl_error trap_nr err aux) calls s1)
      else some (hw_fault_exit.returned calls s1)
  else some (hw_fault_exit.fatal (refl_error trap_nr err aux) [] s)

/-- `destroy_guest_thread`: the controller's stack and the two objects are
released, which leaves the scheduler state as it is.  A guest without buddy is
a null dereference. -/
def destroy_guest_thread (s : sched_state) (gth : Nat) : Option sched_state :=
  match (s.thr gth).buddy with
  | none => none
  | some _ => some s

/-- The roll-back loop of `vmm_init`: `destroy_guest_thread` on the guests
created so far, in the order of their creation. -/
def destroy_guest_threads : sched_state → List Nat → Option sched_state
  | s, [] => some s
  | s, gth :: rest =>
    match destroy_guest_thread s gth with
    | none => none
    | some s1 => destroy_guest_threads s1 rest

/-- One call `vmm_init(vm, flags)` with what the environment answers during
it: `nr_gpcs` is `vm->nr_gpcs`, `sysret` is what the `SYS_vmm_setup` call
returns, `gths_mem` what `malloc` yields for the array, and `allocs i` what the
three allocations of `create_guest_thread(vm, i)` yield. -/
structure vmm_init_call where
  vm : Nat
  nr_gpcs : Nat
  flags : Int
  sysret : Int
  gths_mem : Option Nat
  allocs : Nat → Option Nat × Option Nat × Option Nat

/-- What a call of `vmm_init` leaves: its return value, the scheduler state,
and the array written to `vm->gths` (`none` when the field is not written). -/
structure vmm_init_result where
  ret : Int
  s : sched_state
  gths : Option (List Nat)

/-- The creation loop of `vmm_init`, `k` iterations from index `i`, `gths`
holding the guests created so far.  The result is the filled array, or null
after the roll-back when a creation fails. -/
def vmm_init_loop (stksz : Nat) (vm : Nat)
    (allocs : Nat → Option Nat × Option Nat × Option Nat) :
    Nat → Nat → sched_state → List Nat → Option (Option (List Nat) × sched_state)
  | 0, _, s, gths => some (some gths, s)
  | k + 1, i, s, gths =>
    match create_guest_thread stksz s (some vm) i
        (allocs i).1 (allocs i).2.1 (allocs i).2.2 with
    | (none, s1) =>
      match destroy_guest_threads s1 gths with
      | none => none
      | some s2 => some (none, s2)
    | (some gth, s1) => vmm_init_loop stksz vm allocs k (i + 1) s1 (gths ++ [gth])

/-- `vmm_init`.  The result is `none` when the call crashes. -/
def vmm_init (stksz : Nat) (s : sched_state) (c : vmm_init_call) :
    Option vmm_init_result :=
  match s.current_vm with
  | some _ => some { ret := -1, s := s, gths := none }
  | none =>
    if c.sysret ≠ (c.nr_gpcs : Int) then
      some { ret := -1, s := { s with current_vm := some c.vm }, gths := none }
    else
      match c.gths_mem with
      | none =>
        some { ret := -1, s := { s with current_vm := some c.vm }, gths := none }
      | some _ =>
        match vmm_init_loop stksz c.vm c.allocs c.nr_gpcs 0
            { s with current_vm := some c.vm } [] with
        | none => none
        | some (none, s2) => some { ret := -1, s := s2, gths := none }
        | some (some gths, s2) => some { ret := 0, s := s2, gths := some gths }

/-- Successive calls of `vmm_init`, each preceded by whatever else the process
does to the scheduler state; the return values of the calls, up to a crash. -/
def vmm_init_seq (stksz : Nat) :
    sched_state → List ((sched_state → sched_state) × vmm_init_call) → List Int
  | _, [] => []
  | s, (before, c) :: rest =>
    match vmm_init stksz (before s) c with
    | none => []
    | some r => r.ret :: vmm_init_seq stksz r.s rest

/-- `__task_thread_run` on the task that is the current thread: the task's
function is called on its argument, then the task yields with `__tth_exit_cb`
as callback.  `body func arg` is what that call does to the scheduler state;
the result lists the calls of task functions made, with their arguments. -/
def __task_thread_run (body : Option Nat → Option Nat → sched_state → sched_state)
    (s : sched_state) (current_uthread : Nat) :
    List (Option Nat × Option Nat) × sched_state :=
  let func := (s.thr current_uthread).func
  let arg := (s.thr current_uthread).arg
  ([(func, arg)], __tth_exit_cb (body func arg s) current_uthread)

/-- An example call of `vmm_init`: the session at 77 with one guest core,
every allocation succeeding. -/
def demo_vmm_init_call : vmm_init_call :=
  { vm := 77, nr_gpcs := 1, flags := 0, sysret := 1, gths_mem := some 300,
    allocs := fun i => (some (10 + 2 * i), some (11 + 2 * i), some 500) }

/-- The example call of `vmm_init` with the `SYS_vmm_setup` call answering 0
guest cores instead of 1. -/
def demo_vmm_init_refused : vmm_init_call :=
  { demo_vmm_init_call with sysret := 0 }

/-- The example call of `vmm_init` with no memory for the `gths` array. -/
def demo_vmm_init_no_array : vmm_init_call :=
  { demo_vmm_init_call with gths_mem := none }

/-- The example call of `vmm_init` with no memory for the controller's stack. -/
def demo_vmm_init_no_stack : vmm_init_call :=
  { demo_vmm_init_call with
    allocs := fun i => (some (10 + 2 * i), some (11 + 2 * i), none) }

/-! ### convD2M.c

The buffer is a memory of bytes indexed by the offset from `buf`; a pointer
into the buffer is its offset.  A string is the list of its bytes before the
terminating zero, a null string pointer is `none`.  The variables `ns`,
`nsv[i]` and `ss` are C `int`s: a length or sum that does not fit an `int`
has no defined value, and the functions then give `none`. -/

/-- Largest value of a C `int`. -/
def INT_MAX : Nat := 2 ^ 31 - 1

/-- Modelled from the spec: the constant `BIT8SZ` of the header `fcall.h`,
which is not among the sources; a wire byte. -/
def BIT8SZ : Nat := 1

/-- Modelled from the spec: the constant `BIT16SZ` of the header `fcall.h`,
which is not among the sources; the size of a 16-bit wire integer. -/
def BIT16SZ : Nat := 2

/-- Modelled from the spec: the constant `BIT32SZ` of the header `fcall.h`,
which is not among the sources; the size of a 32-bit wire integer. -/
def BIT32SZ : Nat := 4

/-- Modelled from the spec: the constant `BIT64SZ` of the header `fcall.h`,
which is not among the sources; the size of a 64-bit wire integer. -/
def BIT64SZ : Nat := 8

/-- Modelled from the spec: the constant `STATFIXLEN` of the header `fcall.h`,
which is not among the sources: 49, for the 2-byte size field, 39 bytes of
fixed fields and four 2-byte string counts. -/
def STATFIXLEN : Nat := 49

/-- Modelled from the spec: the macros `PBIT8`, `PBIT16`, `PBIT32` and
`PBIT64` of the header `fcall.h`, which is not among the sources: the `n` low
bytes of `v` are stored at `p`, least significant byte first. -/
def PBIT (n : Nat) (m : Nat → Nat) (p v : Nat) : Nat → Nat :=
  fun a => if p ≤ a ∧ a < p + n then v / 256 ^ (a - p) % 256 else m a

/-- Library `memmove(p, src, n)` into the buffer. -/
def memmove (m : Nat → Nat) (p : Nat) (src : List Nat) (n : Nat) : Nat → Nat :=
  fun a => if p ≤ a ∧ a < p + n then src.getD (a - p) 0 else m a

/-- Library `strlen`. -/
def strlen (str : List Nat) : Nat := str.length

/-- The `struct qid` inside a `struct dir`. -/
structure qid where
  path : Nat
  vers : Nat
  type : Nat

/-- The fields of `struct dir` that `convD2M` reads. -/
structure dir where
  type : Nat
  dev : Nat
  qid : qid
  mode : Nat
  atime : Nat
  mtime : Nat
  length : Nat
  name : Option (List Nat)
  uid : Option (List Nat)
  gid : Option (List Nat)
  muid : Option (List Nat)

/-- The loop of `sizeD2M`: `if(sv[i]) ns += strlen(sv[i])`. -/
def sizeD2M_loop : List (Option (List Nat)) → Nat → Option Nat
  | [], ns => some ns
  | none :: sv, ns => sizeD2M_loop sv ns
  | some str :: sv, ns =>
    if ns + strlen str ≤ INT_MAX then sizeD2M_loop sv (ns + strlen str) else none

/-- Source function `sizeD2M`. -/
def sizeD2M (d : dir) : Option Nat :=
  match sizeD2M_loop [d.name, d.uid, d.gid, d.muid] 0 with
  | none => none
  | some ns => if STATFIXLEN + ns ≤ INT_MAX then some (STATFIXLEN + ns) else none

/-- The length `convD2M` stores in `nsv[i]` for the string pointer `x`:
`if(sv[i]) nsv[i] = strlen(sv[i]); else nsv[i] = 0`. -/
def nsv_of (x : Option (List Nat)) : Nat :=
  match x with
  | some str => strlen str
  | none => 0

/-- The first loop of `convD2M`: fills `nsv` and sums the lengths into `ns`. -/
def convD2M_count : List (Option (List Nat)) → Nat → Option (List Nat × Nat)
  | [], ns => some ([], ns)
  | x :: sv, ns =>
    let n := nsv_of x
    if ns + n ≤ INT_MAX then
      match convD2M_count sv (ns + n) with
      | some (nsv, ns1) => some (n :: nsv, ns1)
      | none => none
    else none

/-- The second loop of `convD2M`, over the strings with their lengths, from
the pointer `p`: the pointer after the last string, or `none` when the check
`p + ns + BIT16SZ > ebuf` makes `convD2M` return 0; with the buffer. -/
def convD2M_strings (ebuf : Nat) :
    List (Option (List Nat) × Nat) → Nat → (Nat → Nat) → Option Nat × (Nat → Nat)
  | [], p, m => (some p, m)
  | (x, ns) :: rest, p, m =>
    if p + ns + BIT16SZ > ebuf then (none, m)
    else
      let m1 := PBIT BIT16SZ m p ns
      let p1 := p + BIT16SZ
      let m2 := if ns ≠ 0 then memmove m1 p1 (x.getD []) ns else m1
      convD2M_strings ebuf rest (p1 + ns) m2

/-- The stores of the fixed fields in `convD2M`, from the pointer `p`: the
buffer and the pointer after them. -/
def convD2M_fixed (d : dir) (m : Nat → Nat) (p : Nat) : (Nat → Nat) × Nat :=
  let m := PBIT BIT16SZ m p d.type
  let p := p + BIT16SZ
  let m := PBIT BIT32SZ m p d.dev
  let p := p + BIT32SZ
  let m := PBIT BIT8SZ m p d.qid.type
  let p := p + BIT8SZ
  let m := PBIT BIT32SZ m p d.qid.vers
  let p := p + BIT32SZ
  let m := PBIT BIT64SZ m p d.qid.path
  let p := p + BIT64SZ
  let m := PBIT BIT32SZ m p d.mode
  let p := p + BIT32SZ
  let m := PBIT BIT32SZ m p d.atime
  let p := p + BIT32SZ
  let m := PBIT BIT32SZ m p d.mtime
  let p := p + BIT32SZ
  let m := PBIT BIT64SZ m p d.length
  let p := p + BIT64SZ
  (m, p)

/-- Source function `convD2M`: the value returned and the buffer. -/
def convD2M (d : dir) (buf : Nat → Nat) (nbuf : Nat) : Option (Nat × (Nat → Nat)) :=
  if nbuf < BIT16SZ then some (0, buf)
  else
    let sv := [d.name, d.uid, d.gid, d.muid]
    match convD2M_count sv 0 with
    | none => none
    | some (nsv, ns) =>
      if STATFIXLEN + ns ≤ INT_MAX then
        let ss := STATFIXLEN + ns
        let m := PBIT BIT16SZ buf 0 (ss - BIT16SZ)
        let p := BIT16SZ
        if ss > nbuf then some (BIT16SZ, m)
        else
          match convD2M_strings nbuf (sv.zip nsv) (convD2M_fixed d m p).2
              (convD2M_fixed d m p).1 with
          | (none, m1) => some (0, m1)
          | (some p1, m1) => if ss ≠ p1 then some (0, m1) else some (p1, m1)
      else none

/-- Size of the encoding of `d` in the words of the specification: 49 plus
the lengths of the strings among name, uid, gid and muid that are not null. -/
def stat_size (d : dir) : Nat :=
  49 + (([d.name, d.uid, d.gid, d.muid].filterMap id).map List.length).sum

/-- An example `struct dir`: name "ab", uid "c", no gid, empty muid. -/
def demo_dir : dir :=
  { type := 1, dev := 2, qid := { path := 3, vers := 4, type := 5 }, mode := 6,
    atime := 7, mtime := 8, length := 9,
    name := some [97, 98], uid := some [99], gid := none, muid := some [] }

/-! ## Theorems -/

/-- What `try_to_get_vcores` does when both counters pass the assertions: it
answers, and changes at most the tick and the list of requests. -/
theorem try_to_get_vcores_some (s : sched_state)
    (hg : 0 ≤ s.nr_unblk_guests) (ht : 0 ≤ s.nr_unblk_tasks) :
    ∃ b tick requests,
      try_to_get_vcores s = some (b, { s with tick := tick, requests := requests }) := by
  unfold try_to_get_vcores desired_nr_vcores
  simp only [hg, ht, if_true]
  by_cases h : to_int (s.nr_unblk_guests + s.nr_unblk_tasks) ≤ s.num_vcores
  · exact ⟨true, none, s.requests, by simp [h]⟩
  · exact ⟨false, some s.vmm_sched_period_usec,
      s.requests ++ [to_int (s.nr_unblk_guests + s.nr_unblk_tasks)], by simp [h]⟩

/-- A value in the range of a C `int` is its own conversion. -/
theorem to_int_of_fit (x : Int) (h0 : -2147483648 ≤ x) (h1 : x < 2147483648) :
    to_int x = x := by
  unfold to_int
  omega

/-- The conversion to a C `int` lands in the range of `int` and never exceeds
a value that is not negative. -/
theorem to_int_range (x : Int) :
    -2147483648 ≤ to_int x ∧ to_int x < 2147483648 ∧ (0 ≤ x → to_int x ≤ x) := by
  unfold to_int
  omega

/-- With the sum of the counters in the range of an `int`, the test of
`try_to_get_vcores` is the test on the sum itself. -/
theorem to_int_le_iff_of_fit (s : sched_state)
    (hg : 0 ≤ s.nr_unblk_guests) (ht : 0 ≤ s.nr_unblk_tasks)
    (hfit : s.nr_unblk_guests + s.nr_unblk_tasks < 2147483648) :
    to_int (s.nr_unblk_guests + s.nr_unblk_tasks) ≤ s.num_vcores
      ↔ s.nr_unblk_guests + s.nr_unblk_tasks ≤ s.num_vcores := by
  rw [to_int_of_fit _ (by omega) hfit]

/-- With counters that pass the assertions, a sum that covers the vcores
granted makes the test of `try_to_get_vcores` succeed, also beyond the range
of an `int`. -/
theorem to_int_le_of_le (s : sched_state)
    (hg : 0 ≤ s.nr_unblk_guests) (ht : 0 ≤ s.nr_unblk_tasks)
    (h : s.nr_unblk_guests + s.nr_unblk_tasks ≤ s.num_vcores) :
    to_int (s.nr_unblk_guests + s.nr_unblk_tasks) ≤ s.num_vcores := by
  have := (to_int_range (s.nr_unblk_guests + s.nr_unblk_tasks)).2.2 (by omega)
  omega

/-- The sum of the counters one past the largest `int`: `desired_nr_vcores`
returns -2147483648, and `try_to_get_vcores` finds the vcores sufficient. -/
theorem desired_nr_vcores_past_int_max :
    desired_nr_vcores
        { static_init (fun _ => zeroed_thread none TASK) 0 with
          nr_unblk_guests := 2147483647, nr_unblk_tasks := 1 }
      = some (-2147483648) ∧
    (try_to_get_vcores
        { static_init (fun _ => zeroed_thread none TASK) 0 with
          nr_unblk_guests := 2147483647, nr_unblk_tasks := 1 }).map
      (fun r => (r.1, r.2.requests)) = some (true, []) := by
  decide

/-- C1: `pick_a_thread_plenty` removes and returns the head of the task queue
whenever that queue is not empty, whatever the guest queue holds, and leaves
the guest queue as it is; with an empty task queue it removes and returns the
head of the guest queue; it returns null exactly when both queues are empty,
and then the state is unchanged. -/
theorem pick_a_thread_plenty_spec (s : sched_state) :
    (∀ t ts, s.rnbl_tasks = t :: ts →
      pick_a_thread_plenty s = (some t, { s with rnbl_tasks := ts })) ∧
    (∀ g gs, s.rnbl_tasks = [] → s.rnbl_guests = g :: gs →
      pick_a_thread_plenty s = (some g, { s with rnbl_guests := gs })) ∧
    (s.rnbl_tasks = [] → s.rnbl_guests = [] → pick_a_thread_plenty s = (none, s)) ∧
    ((pick_a_thread_plenty s).1 = none ↔ s.rnbl_tasks = [] ∧ s.rnbl_guests = []) := by
  obtain ⟨thr, ud, qt, qg, nt, ng, nc, per, cvm, nv, tick, req⟩ := s
  refine ⟨?_, ?_, ?_, ?_⟩
  · intro t ts h
    simp only at h
    subst h
    simp [pick_a_thread_plenty, __pop_first]
  · intro g gs h1 h2
    simp only at h1 h2
    subst h1 h2
    simp [pick_a_thread_plenty, __pop_first]
  · intro h1 h2
    simp only at h1 h2
    subst h1 h2
    simp [pick_a_thread_plenty, __pop_first]
  · cases qt <;> cases qg <;> simp [pick_a_thread_plenty, __pop_first]

/-- C1 on a concrete state: tasks 7 and 8 queued, guest 3 queued; thread 7 is
returned and the guest queue still holds 3. -/
theorem pick_a_thread_plenty_witness :
    (pick_a_thread_plenty
        { static_init (fun _ => zeroed_thread none TASK) 0 with
          rnbl_tasks := [7, 8], rnbl_guests := [3] }).1 = some 7 ∧
    (pick_a_thread_plenty
        { static_init (fun _ => zeroed_thread none TASK) 0 with
          rnbl_tasks := [7, 8], rnbl_guests := [3] }).2.rnbl_tasks = [8] ∧
    (pick_a_thread_plenty
        { static_init (fun _ => zeroed_thread none TASK) 0 with
          rnbl_tasks := [7, 8], rnbl_guests := [3] }).2.rnbl_guests = [3] := by
  have h := (pick_a_thread_plenty_spec
    { static_init (fun _ => zeroed_thread none TASK) 0 with
      rnbl_tasks := [7, 8], rnbl_guests := [3] }).1 7 [8] rfl
  rw [h]
  exact ⟨rfl, rfl, rfl⟩

/-- One call of `pick_a_thread_degraded` with the cursor on the guest class. -/
theorem pick_degraded_guest_first (s : sched_state) (hc : s.next_class = GUEST) :
    (∀ g gs, s.rnbl_guests = g :: gs →
      pick_a_thread_degraded s
        = (some g, { s with rnbl_guests := gs, next_class := TASK })) ∧
    (∀ t ts, s.rnbl_guests = [] → s.rnbl_tasks = t :: ts →
      pick_a_thread_degraded s
        = (some t, { s with rnbl_tasks := ts, next_class := TASK })) ∧
    (s.rnbl_guests = [] → s.rnbl_tasks = [] →
      pick_a_thread_degraded s = (none, { s with next_class := TASK })) := by
  obtain ⟨thr, ud, qt, qg, nt, ng, nc, per, cvm, nv, tick, req⟩ := s
  simp only at hc
  subst hc
  refine ⟨?_, ?_, ?_⟩
  · intro g gs h
    simp only at h
    subst h
    simp [pick_a_thread_degraded, __pop_first]
  · intro t ts h1 h2
    simp only at h1 h2
    subst h1 h2
    simp [pick_a_thread_degraded, __pop_first]
  · intro h1 h2
    simp only at h1 h2
    subst h1 h2
    simp [pick_a_thread_degraded, __pop_first]

/-- One call of `pick_a_thread_degraded` with the cursor off the guest class. -/
theorem pick_degraded_task_first (s : sched_state) (hc : s.next_class ≠ GUEST) :
    (∀ t ts, s.rnbl_tasks = t :: ts →
      pick_a_thread_degraded s
        = (some t, { s with rnbl_tasks := ts, next_class := GUEST })) ∧
    (∀ g gs, s.rnbl_tasks = [] → s.rnbl_guests = g :: gs →
      pick_a_thread_degraded s
        = (some g, { s with rnbl_guests := gs, next_class := GUEST })) ∧
    (s.rnbl_tasks = [] → s.rnbl_guests = [] →
      pick_a_thread_degraded s = (none, { s with next_class := GUEST })) := by
  obtain ⟨thr, ud, qt, qg, nt, ng, nc, per, cvm, nv, tick, req⟩ := s
  simp only at hc
  refine ⟨?_, ?_, ?_⟩
  · intro t ts h
    simp only at h
    subst h
    simp [pick_a_thread_degraded, __pop_first, hc]
  · intro g gs h1 h2
    simp only at h1 h2
    subst h1 h2
    simp [pick_a_thread_degraded, __pop_first, hc]
  · intro h1 h2
    simp only at h1 h2
    subst h1 h2
    simp [pick_a_thread_degraded, __pop_first, hc]

/-- Every call of `pick_a_thread_degraded` moves the cursor to the other
class, whatever the queues hold. -/
theorem pick_degraded_cursor (s : sched_state) :
    (pick_a_thread_degraded s).2.next_class = flip_class s.next_class := by
  unfold pick_a_thread_degraded flip_class
  by_cases hc : s.next_class = GUEST <;> simp [hc]

/-- A call of `pick_a_thread_degraded` returns null exactly when both queues
are empty. -/
theorem pick_degraded_none_iff (s : sched_state) :
    (pick_a_thread_degraded s).1 = none ↔ s.rnbl_guests = [] ∧ s.rnbl_tasks = [] := by
  obtain ⟨thr, ud, qt, qg, nt, ng, nc, per, cvm, nv, tick, req⟩ := s
  by_cases hc : nc = GUEST <;> cases qt <;> cases qg <;>
    simp [pick_a_thread_degraded, __pop_first, hc]

/-- C2: the cursor of `pick_a_thread_degraded` starts on the guest class and
every call flips it, found or not; so along any run in which only the calls
write the cursor, whatever happens to the queues in between, the k-th call
tries the guest queue first exactly when k is odd and the task queue first
exactly when k is even.  A call pops the head of the preferred queue when it is
not empty, else the head of the other queue, and returns null only when both
are empty. -/
theorem pick_a_thread_degraded_alternates :
    (∀ thr nv, (static_init thr nv).next_class = GUEST) ∧
    (∀ s, (pick_a_thread_degraded s).2.next_class = flip_class s.next_class) ∧
    (∀ σ : Nat → sched_state, (σ 0).next_class = GUEST →
      (∀ i, (σ (i + 1)).next_class = (pick_a_thread_degraded (σ i)).2.next_class) →
      ∀ k, 1 ≤ k →
        (((σ (k - 1)).next_class = GUEST ↔ Odd k) ∧
         ((σ (k - 1)).next_class = TASK ↔ Even k))) ∧
    (∀ s, s.next_class = GUEST →
      (∀ g gs, s.rnbl_guests = g :: gs →
        pick_a_thread_degraded s
          = (some g, { s with rnbl_guests := gs, next_class := TASK })) ∧
      (∀ t ts, s.rnbl_guests = [] → s.rnbl_tasks = t :: ts →
        pick_a_thread_degraded s
          = (some t, { s with rnbl_tasks := ts, next_class := TASK })) ∧
      (s.rnbl_guests = [] → s.rnbl_tasks = [] →
        pick_a_thread_degraded s = (none, { s with next_class := TASK }))) ∧
    (∀ s, s.next_class ≠ GUEST →
      (∀ t ts, s.rnbl_tasks = t :: ts →
        pick_a_thread_degraded s
          = (some t, { s with rnbl_tasks := ts, next_class := GUEST })) ∧
      (∀ g gs, s.rnbl_tasks = [] → s.rnbl_guests = g :: gs →
        pick_a_thread_degraded s
          = (some g, { s with rnbl_guests := gs, next_class := GUEST })) ∧
      (s.rnbl_tasks = [] → s.rnbl_guests = [] →
        pick_a_thread_degraded s = (none, { s with next_class := GUEST }))) ∧
    (∀ s, (pick_a_thread_degraded s).1 = none ↔
      s.rnbl_guests = [] ∧ s.rnbl_tasks = []) := by
  refine ⟨fun _ _ => rfl, pick_degraded_cursor, ?_, pick_degraded_guest_first,
    pick_degraded_task_first, pick_degraded_none_iff⟩
  intro σ h0 hstep
  have key : ∀ j, ((σ j).next_class = GUEST ↔ Even j) ∧
      ((σ j).next_class = TASK ↔ Odd j) := by
    intro j
    induction j with
    | zero => simp [h0]
    | succ j ih =>
      rw [hstep j, pick_degraded_cursor]
      unfold flip_class
      by_cases hc : (σ j).next_class = GUEST
      · have hev : Even j := ih.1.1 hc
        simp [hc, Nat.even_add_one, Nat.odd_add_one, hev]
      · have hev : ¬ Even j := fun h => hc (ih.1.2 h)
        simp [hc, Nat.even_add_one, Nat.odd_add_one, hev]
  intro k hk
  obtain ⟨j, rfl⟩ : ∃ j, k = j + 1 := ⟨k - 1, by omega⟩
  simp only [Nat.add_sub_cancel]
  have := key j
  constructor
  · rw [this.1]
    simp [Nat.odd_add_one, Nat.not_odd_iff_even]
  · rw [this.2]
    simp [Nat.even_add_one, Nat.not_even_iff_odd]

/-- C2 on a concrete run from the initial state with guests 1, 2 and tasks 5, 6
queued: the third call finds the cursor on the guest class, and the first call
returns guest 1. -/
theorem pick_a_thread_degraded_alternates_witness :
    ((Nat.iterate (fun s => (pick_a_thread_degraded s).2) 2
        { static_init (fun _ => zeroed_thread none TASK) 0 with
          rnbl_guests := [1, 2], rnbl_tasks := [5, 6] }).next_class = GUEST ↔ Odd 3) ∧
    (pick_a_thread_degraded
        { static_init (fun _ => zeroed_thread none TASK) 0 with
          rnbl_guests := [1, 2], rnbl_tasks := [5, 6] }).1 = some 1 :=
  ⟨(pick_a_thread_degraded_alternates.2.2.1
      (fun i => Nat.iterate (fun s => (pick_a_thread_degraded s).2) i
        { static_init (fun _ => zeroed_thread none TASK) 0 with
          rnbl_guests := [1, 2], rnbl_tasks := [5, 6] })
      rfl
      (fun i => by simp only [Function.iterate_succ_apply'])
      3 (by decide)).1, rfl⟩

/-- `enqueue_vmm_thread` returns when both counters pass the assertions, and
its state is that of the insertion up to the tick and the requests. -/
theorem enqueue_vmm_thread_some (s : sched_state) (vth : Nat)
    (hg : 0 ≤ s.nr_unblk_guests) (ht : 0 ≤ s.nr_unblk_tasks) :
    ∃ tick requests, enqueue_vmm_thread s vth
      = some { insert_tail s vth with tick := tick, requests := requests } := by
  have hg1 : 0 ≤ (insert_tail s vth).nr_unblk_guests := by
    unfold insert_tail; split <;> exact hg
  have ht1 : 0 ≤ (insert_tail s vth).nr_unblk_tasks := by
    unfold insert_tail; split <;> exact ht
  obtain ⟨b, tick, requests, h⟩ := try_to_get_vcores_some (insert_tail s vth) hg1 ht1
  exact ⟨tick, requests, by simp [enqueue_vmm_thread, h]⟩

/-- The queues after a run of `enqueue_vmm_thread` over a list of threads: the
guest-class threads of the list are appended to the guest queue and its task
threads to the task queue, each in the order of the list. -/
theorem enqueue_all_spec (l : List Nat) (s : sched_state)
    (hg : 0 ≤ s.nr_unblk_guests) (ht : 0 ≤ s.nr_unblk_tasks) :
    ∃ s1, enqueue_all s l = some s1 ∧
      s1.rnbl_guests
        = s.rnbl_guests ++ l.filter (fun p => decide ((s.thr p).type ≠ TASK)) ∧
      s1.rnbl_tasks
        = s.rnbl_tasks ++ l.filter (fun p => decide ((s.thr p).type = TASK)) ∧
      s1.next_class = s.next_class := by
  induction l generalizing s with
  | nil => exact ⟨s, rfl, by simp, by simp, rfl⟩
  | cons v l ih =>
    obtain ⟨tick, requests, h⟩ := enqueue_vmm_thread_some s v hg ht
    have hthr : ({ insert_tail s v with tick := tick, requests := requests }
        : sched_state).thr = s.thr := by
      unfold insert_tail; split <;> rfl
    obtain ⟨s1, h1, h2, h3, h4⟩ :=
      ih { insert_tail s v with tick := tick, requests := requests }
        (by unfold insert_tail; split <;> exact hg)
        (by unfold insert_tail; split <;> exact ht)
    refine ⟨s1, by simp [enqueue_all, h, h1], ?_, ?_, ?_⟩
    · rw [h2, hthr]
      unfold insert_tail
      cases hty : (s.thr v).type <;> simp [hty, List.filter_cons]
    · rw [h3, hthr]
      unfold insert_tail
      cases hty : (s.thr v).type <;> simp [hty, List.filter_cons]
    · rw [h4]
      unfold insert_tail
      split <;> rfl

/-- From the cursor on the guest class, with as many guests as tasks queued,
twice that many calls of `pick_a_thread_degraded` return the strict
alternation of the two queues and empty both. -/
theorem degraded_picks_alternate (gs ts : List Nat) (s : sched_state)
    (hlen : gs.length = ts.length) (hg : s.rnbl_guests = gs)
    (ht : s.rnbl_tasks = ts) (hc : s.next_class = GUEST) :
    (degraded_picks (2 * gs.length) s).1 = (alternate gs ts).map some ∧
    (degraded_picks (2 * gs.length) s).2.rnbl_guests = [] ∧
    (degraded_picks (2 * gs.length) s).2.rnbl_tasks = [] := by
  induction gs generalizing ts s with
  | nil =>
    cases ts with
    | nil => simp [degraded_picks, alternate, hg, ht]
    | cons t ts => simp at hlen
  | cons g gs ih =>
    cases ts with
    | nil => simp at hlen
    | cons t ts =>
      have hlen1 : gs.length = ts.length := by simpa using hlen
      have e1 := (pick_degraded_guest_first s hc).1 g gs hg
      have e2 := (pick_degraded_task_first
        { s with rnbl_guests := gs, next_class := TASK } (by simp)).1 t ts ht
      have hmul : 2 * (g :: gs).length = (2 * gs.length + 1) + 1 := by
        simp only [List.length_cons]; ring
      have h := ih ts
        { s with rnbl_guests := gs, rnbl_tasks := ts, next_class := GUEST }
        hlen1 rfl rfl rfl
      rw [hmul]
      simp only [degraded_picks, e1, e2, alternate, List.map_cons]
      exact ⟨by rw [h.1], h.2.1, h.2.2⟩

/-- C3: from the initial cursor and empty queues, after `enqueue_vmm_thread`
has queued threads of which n are guest-class (g1..gn in that order) and n are
task threads (t1..tn in that order), 2n successive calls of
`pick_a_thread_degraded` return exactly g1, t1, ..., gn, tn; both queues are
then empty and the next call returns null. -/
theorem degraded_drains_in_alternation (n : Nat) (l : List Nat) (s : sched_state)
    (hqg : s.rnbl_guests = []) (hqt : s.rnbl_tasks = [])
    (hc : s.next_class = GUEST)
    (hng : 0 ≤ s.nr_unblk_guests) (hnt : 0 ≤ s.nr_unblk_tasks)
    (hgn : (l.filter (fun p => decide ((s.thr p).type ≠ TASK))).length = n)
    (htn : (l.filter (fun p => decide ((s.thr p).type = TASK))).length = n) :
    ∃ s1, enqueue_all s l = some s1 ∧
      (degraded_picks (2 * n) s1).1
        = (alternate (l.filter (fun p => decide ((s.thr p).type ≠ TASK)))
            (l.filter (fun p => decide ((s.thr p).type = TASK)))).map some ∧
      (degraded_picks (2 * n) s1).2.rnbl_guests = [] ∧
      (degraded_picks (2 * n) s1).2.rnbl_tasks = [] ∧
      (pick_a_thread_degraded (degraded_picks (2 * n) s1).2).1 = none := by
  obtain ⟨s1, h1, h2, h3, h4⟩ := enqueue_all_spec l s hng hnt
  rw [hqg, List.nil_append] at h2
  rw [hqt, List.nil_append] at h3
  have h := degraded_picks_alternate _ _ s1 (hgn.trans htn.symm) h2 h3 (h4.trans hc)
  rw [hgn] at h
  exact ⟨s1, h1, h.1, h.2.1, h.2.2, (pick_degraded_none_iff _).2 ⟨h.2.1, h.2.2⟩⟩

/-- C3 at n = 3: guests 1, 2, 3 and tasks 11, 12, 13, queued from the initial
state, are returned as 1, 11, 2, 12, 3, 13. -/
theorem degraded_drains_in_alternation_witness :
    ∃ s1, enqueue_all
        (static_init (fun a => zeroed_thread none (if a < 10 then GUEST else TASK)) 0)
        [1, 2, 3, 11, 12, 13] = some s1 ∧
      (degraded_picks 6 s1).1
        = [some 1, some 11, some 2, some 12, some 3, some 13] ∧
      (degraded_picks 6 s1).2.rnbl_guests = [] ∧
      (degraded_picks 6 s1).2.rnbl_tasks = [] ∧
      (pick_a_thread_degraded (degraded_picks 6 s1).2).1 = none :=
  degraded_drains_in_alternation 3 [1, 2, 3, 11, 12, 13]
    (static_init (fun a => zeroed_thread none (if a < 10 then GUEST else TASK)) 0)
    rfl rfl rfl (by decide) (by decide) (by decide) (by decide)

/-- C7: with both counters passing the assertions of `desired_nr_vcores` and
their sum in the range of the `int` it returns (below 2^31),
`try_to_get_vcores` answers `TRUE` exactly when
`nr_unblk_guests + nr_unblk_tasks <= num_vcores()`; answering `TRUE` it
disables the tick and requests nothing; answering `FALSE` it enables the tick
with period `vmm_sched_period_usec` and issues exactly one request, for
`nr_unblk_guests + nr_unblk_tasks` vcores.  The period is 1000 by default. -/
theorem try_to_get_vcores_spec (s : sched_state)
    (hg : 0 ≤ s.nr_unblk_guests) (ht : 0 ≤ s.nr_unblk_tasks)
    (hfit : s.nr_unblk_guests + s.nr_unblk_tasks < 2147483648) :
    (∃ s1, try_to_get_vcores s
        = some (decide (s.nr_unblk_guests + s.nr_unblk_tasks ≤ s.num_vcores), s1)) ∧
    (s.nr_unblk_guests + s.nr_unblk_tasks ≤ s.num_vcores →
      try_to_get_vcores s = some (true, { s with tick := none })) ∧
    (¬ s.nr_unblk_guests + s.nr_unblk_tasks ≤ s.num_vcores →
      try_to_get_vcores s
        = some (false,
            { s with tick := some s.vmm_sched_period_usec,
                     requests := s.requests
                       ++ [s.nr_unblk_guests + s.nr_unblk_tasks] })) ∧
    (∀ thr nv, (static_init thr nv).vmm_sched_period_usec = 1000) := by
  have hti : to_int (s.nr_unblk_guests + s.nr_unblk_tasks)
      = s.nr_unblk_guests + s.nr_unblk_tasks := to_int_of_fit _ (by omega) hfit
  unfold try_to_get_vcores desired_nr_vcores
  simp only [hg, ht, if_true, hti]
  by_cases h : s.nr_unblk_guests + s.nr_unblk_tasks ≤ s.num_vcores
  · simp [h, static_init]
  · simp [h, static_init]

/-- C7 on concrete states: two unblocked guests and one task on two vcores is
scarce, with one request for 3 and the tick at 1000; on three vcores it is
abundant. -/
theorem try_to_get_vcores_spec_witness :
    try_to_get_vcores
        { static_init (fun _ => zeroed_thread none TASK) 2 with
          nr_unblk_guests := 2, nr_unblk_tasks := 1 }
      = some (false,
          { static_init (fun _ => zeroed_thread none TASK) 2 with
            nr_unblk_guests := 2, nr_unblk_tasks := 1,
            tick := some 1000, requests := [3] }) ∧
    try_to_get_vcores
        { static_init (fun _ => zeroed_thread none TASK) 3 with
          nr_unblk_guests := 2, nr_unblk_tasks := 1 }
      = some (true,
          { static_init (fun _ => zeroed_thread none TASK) 3 with
            nr_unblk_guests := 2, nr_unblk_tasks := 1, tick := none }) :=
  ⟨(try_to_get_vcores_spec
      { static_init (fun _ => zeroed_thread none TASK) 2 with
        nr_unblk_guests := 2, nr_unblk_tasks := 1 }
      (by decide) (by decide) (by decide)).2.2.1 (by decide),
   (try_to_get_vcores_spec
      { static_init (fun _ => zeroed_thread none TASK) 3 with
        nr_unblk_guests := 2, nr_unblk_tasks := 1 }
      (by decide) (by decide) (by decide)).2.1 (by decide)⟩

/-- C8 fails as stated: with one unblocked guest, one unblocked task and no
vcore, two calls of `try_to_get_vcores` in a row both answer `FALSE` and
together issue two requests, each for 2 vcores. -/
theorem try_to_get_vcores_twice_two_requests :
    (try_to_get_vcores_twice
        { static_init (fun _ => zeroed_thread none TASK) 0 with
          nr_unblk_guests := 1, nr_unblk_tasks := 1 }).map
      (fun r => (r.1, r.2.1, r.2.2.requests))
      = some (false, false, [2, 2]) := by
  decide

/-- C8 as amended: two calls of `try_to_get_vcores` in a row, nothing changing
in between, give the same answer and leave the tick as one call leaves it; each
call issues at most one request: none when the answer is `TRUE`, and one per
call, both for the same total, `nr_unblk_guests + nr_unblk_tasks` as the `int`
that `desired_nr_vcores` returns, when it is `FALSE`. -/
theorem try_to_get_vcores_twice_spec (s : sched_state)
    (hg : 0 ≤ s.nr_unblk_guests) (ht : 0 ≤ s.nr_unblk_tasks) :
    ∃ b s1 s2, try_to_get_vcores s = some (b, s1) ∧
      try_to_get_vcores s1 = some (b, s2) ∧
      try_to_get_vcores_twice s = some (b, b, s2) ∧
      s2.tick = s1.tick ∧
      (b = true → s1.requests = s.requests ∧ s2.requests = s.requests) ∧
      (b = false →
        s1.requests = s.requests ++ [to_int (s.nr_unblk_guests + s.nr_unblk_tasks)] ∧
        s2.requests = s.requests ++ [to_int (s.nr_unblk_guests + s.nr_unblk_tasks)]
                        ++ [to_int (s.nr_unblk_guests + s.nr_unblk_tasks)]) := by
  by_cases h : to_int (s.nr_unblk_guests + s.nr_unblk_tasks) ≤ s.num_vcores
  · refine ⟨true, { s with tick := none }, { s with tick := none }, ?_, ?_, ?_, rfl, ?_, ?_⟩
    · simp [try_to_get_vcores, desired_nr_vcores, hg, ht, h]
    · simp [try_to_get_vcores, desired_nr_vcores, hg, ht, h]
    · simp [try_to_get_vcores_twice, try_to_get_vcores, desired_nr_vcores, hg, ht, h]
    · intro _; exact ⟨rfl, rfl⟩
    · intro hb; cases hb
  · refine ⟨false,
      { s with tick := some s.vmm_sched_period_usec,
               requests := s.requests ++ [to_int (s.nr_unblk_guests + s.nr_unblk_tasks)] },
      { s with tick := some s.vmm_sched_period_usec,
               requests := s.requests ++ [to_int (s.nr_unblk_guests + s.nr_unblk_tasks)]
                             ++ [to_int (s.nr_unblk_guests + s.nr_unblk_tasks)] },
      ?_, ?_, ?_, rfl, ?_, ?_⟩
    · simp [try_to_get_vcores, desired_nr_vcores, hg, ht, h]
    · simp [try_to_get_vcores, desired_nr_vcores, hg, ht, h]
    · simp [try_to_get_vcores_twice, try_to_get_vcores, desired_nr_vcores, hg, ht, h]
    · intro hb; cases hb
    · intro _; exact ⟨rfl, rfl⟩

/-- The amended C8 on a concrete state: one guest and one task unblocked, no
vcore. -/
theorem try_to_get_vcores_twice_spec_witness :
    ∃ b s1 s2,
      try_to_get_vcores
          { static_init (fun _ => zeroed_thread none TASK) 0 with
            nr_unblk_guests := 1, nr_unblk_tasks := 1 } = some (b, s1) ∧
      try_to_get_vcores s1 = some (b, s2) ∧
      try_to_get_vcores_twice
          { static_init (fun _ => zeroed_thread none TASK) 0 with
            nr_unblk_guests := 1, nr_unblk_tasks := 1 } = some (b, b, s2) ∧
      s2.tick = s1.tick ∧
      (b = true → s1.requests = [] ∧ s2.requests = []) ∧
      (b = false → s1.requests = [] ++ [1 + 1] ∧ s2.requests = [] ++ [1 + 1] ++ [1 + 1]) :=
  try_to_get_vcores_twice_spec
    { static_init (fun _ => zeroed_thread none TASK) 0 with
      nr_unblk_guests := 1, nr_unblk_tasks := 1 }
    (by decide) (by decide)

/-- `vmm_thread_runnable` returns when the counters pass the assertions once
the thread is counted, and its state is that of the accounting and the
insertion, up to the tick and the requests. -/
theorem vmm_thread_runnable_some_of_counted (s : sched_state) (uth : Nat)
    (hg : 0 ≤ (acct_thread_unblocked s uth).nr_unblk_guests)
    (ht : 0 ≤ (acct_thread_unblocked s uth).nr_unblk_tasks) :
    ∃ tick requests, vmm_thread_runnable s uth
      = some { insert_tail (acct_thread_unblocked s uth) uth with
               tick := tick, requests := requests } :=
  enqueue_vmm_thread_some _ uth hg ht

/-- `vmm_thread_runnable` returns when both counters pass the assertions. -/
theorem vmm_thread_runnable_some (s : sched_state) (uth : Nat)
    (hg : 0 ≤ s.nr_unblk_guests) (ht : 0 ≤ s.nr_unblk_tasks) :
    ∃ tick requests, vmm_thread_runnable s uth
      = some { insert_tail (acct_thread_unblocked s uth) uth with
               tick := tick, requests := requests } := by
  apply vmm_thread_runnable_some_of_counted
  · unfold acct_thread_unblocked; split <;> simp <;> omega
  · unfold acct_thread_unblocked; split <;> simp <;> omega

/-- The race path of `vmm_thread_blockon_sysc`: with `uth->sysc == sysc` both
assertions of `restart_thread` pass, and the call amounts to
`vmm_thread_runnable` on the thread, blocked in the accounting and detached
from the call. -/
theorem vmm_thread_blockon_sysc_race (s : sched_state) (uth sysc : Nat)
    (hs : (s.thr uth).sysc = some sysc) :
    vmm_thread_blockon_sysc s uth sysc false
      = vmm_thread_runnable
          { acct_thread_blocked s uth with
            u_data := Function.update s.u_data sysc (some uth),
            thr := Function.update s.thr uth { s.thr uth with sysc := none } }
          uth := by
  have h1 : (acct_thread_blocked s uth).thr = s.thr := by
    unfold acct_thread_blocked; split <;> rfl
  have h2 : (acct_thread_blocked s uth).u_data = s.u_data := by
    unfold acct_thread_blocked; split <;> rfl
  simp [vmm_thread_blockon_sysc, restart_thread, h1, h2, hs]

/-- C10: `vmm_thread_runnable` adds exactly one to the unblocked counter of the
thread's class (`nr_unblk_guests` for a GUEST or CTLR thread, `nr_unblk_tasks`
for a TASK thread), leaves the other counter as it is, appends the thread at
the tail of the queue of its class and leaves the other queue as it is.  The
counters are assumed to pass the assertions of `desired_nr_vcores`. -/
theorem vmm_thread_runnable_spec (s : sched_state) (uth : Nat)
    (hg : 0 ≤ s.nr_unblk_guests) (ht : 0 ≤ s.nr_unblk_tasks) :
    ∃ s1, vmm_thread_runnable s uth = some s1 ∧
      ((s.thr uth).type = TASK →
        s1.nr_unblk_tasks = s.nr_unblk_tasks + 1 ∧
        s1.nr_unblk_guests = s.nr_unblk_guests ∧
        s1.rnbl_tasks = s.rnbl_tasks ++ [uth] ∧
        s1.rnbl_guests = s.rnbl_guests) ∧
      ((s.thr uth).type = GUEST ∨ (s.thr uth).type = CTLR →
        s1.nr_unblk_guests = s.nr_unblk_guests + 1 ∧
        s1.nr_unblk_tasks = s.nr_unblk_tasks ∧
        s1.rnbl_guests = s.rnbl_guests ++ [uth] ∧
        s1.rnbl_tasks = s.rnbl_tasks) := by
  obtain ⟨tick, requests, h⟩ := vmm_thread_runnable_some s uth hg ht
  refine ⟨_, h, ?_, ?_⟩
  · intro hty
    simp [insert_tail, acct_thread_unblocked, hty]
  · intro hty
    rcases hty with hty | hty <;> simp [insert_tail, acct_thread_unblocked, hty]

/-- C10 on a concrete state: guest 4 becomes runnable while guest 1 and task 12
are queued, with one guest and one task counted. -/
theorem vmm_thread_runnable_spec_witness :
    ∃ s1, vmm_thread_runnable
        { static_init (fun a => zeroed_thread none (if a < 10 then GUEST else TASK)) 1 with
          rnbl_guests := [1], rnbl_tasks := [12],
          nr_unblk_guests := 1, nr_unblk_tasks := 1 } 4 = some s1 ∧
      s1.nr_unblk_guests = 2 ∧ s1.nr_unblk_tasks = 1 ∧
      s1.rnbl_guests = [1, 4] ∧ s1.rnbl_tasks = [12] := by
  obtain ⟨s1, h, _, h2⟩ := vmm_thread_runnable_spec
    { static_init (fun a => zeroed_thread none (if a < 10 then GUEST else TASK)) 1 with
      rnbl_guests := [1], rnbl_tasks := [12],
      nr_unblk_guests := 1, nr_unblk_tasks := 1 } 4 (by decide) (by decide)
  exact ⟨s1, h, h2 (Or.inl rfl)⟩

/-- C9: `vmm_thread_blockon_sysc(uth, sysc)` with `uth->sysc == sysc`, on a
thread that is in no run queue (it was running) and with both counters passing
the assertions.  When `register_evq` answers false, the thread is restarted
before the function returns: it is appended at the tail of the queue of its
class and occurs exactly once in the two queues, `uth->sysc` is null and both
counters have their values of before the call.  When `register_evq` answers
true, the counter of the thread's class is one lower, the other counter is
unchanged, `sysc->u_data` is the thread and neither queue has changed. -/
theorem vmm_thread_blockon_sysc_spec (s : sched_state) (uth sysc : Nat)
    (hs : (s.thr uth).sysc = some sysc)
    (hqt : uth ∉ s.rnbl_tasks) (hqg : uth ∉ s.rnbl_guests)
    (hg : 0 ≤ s.nr_unblk_guests) (ht : 0 ≤ s.nr_unblk_tasks) :
    (∃ s1, vmm_thread_blockon_sysc s uth sysc false = some s1 ∧
      ((s.thr uth).type = TASK →
        s1.rnbl_tasks = s.rnbl_tasks ++ [uth] ∧ s1.rnbl_guests = s.rnbl_guests) ∧
      ((s.thr uth).type = GUEST ∨ (s.thr uth).type = CTLR →
        s1.rnbl_guests = s.rnbl_guests ++ [uth] ∧ s1.rnbl_tasks = s.rnbl_tasks) ∧
      (s1.rnbl_tasks ++ s1.rnbl_guests).count uth = 1 ∧
      (s1.thr uth).sysc = none ∧
      (s1.thr uth).type = (s.thr uth).type ∧
      s1.nr_unblk_tasks = s.nr_unblk_tasks ∧
      s1.nr_unblk_guests = s.nr_unblk_guests) ∧
    (∃ s2, vmm_thread_blockon_sysc s uth sysc true = some s2 ∧
      ((s.thr uth).type = TASK →
        s2.nr_unblk_tasks = s.nr_unblk_tasks - 1 ∧
        s2.nr_unblk_guests = s.nr_unblk_guests) ∧
      ((s.thr uth).type = GUEST ∨ (s.thr uth).type = CTLR →
        s2.nr_unblk_guests = s.nr_unblk_guests - 1 ∧
        s2.nr_unblk_tasks = s.nr_unblk_tasks) ∧
      s2.u_data sysc = some uth ∧
      s2.rnbl_tasks = s.rnbl_tasks ∧
      s2.rnbl_guests = s.rnbl_guests) := by
  constructor
  · rw [vmm_thread_blockon_sysc_race s uth sysc hs]
    cases hty : (s.thr uth).type
    all_goals
      obtain ⟨tick, requests, h⟩ := vmm_thread_runnable_some_of_counted
        { acct_thread_blocked s uth with
          u_data := Function.update s.u_data sysc (some uth),
          thr := Function.update s.thr uth { s.thr uth with sysc := none } }
        uth
        (by simp [acct_thread_blocked, acct_thread_unblocked, hty]; try omega)
        (by simp [acct_thread_blocked, acct_thread_unblocked, hty]; try omega)
      refine ⟨_, h, ?_, ?_, ?_, ?_, ?_, ?_, ?_⟩ <;>
        simp [insert_tail, acct_thread_blocked, acct_thread_unblocked, hty,
          List.count_append, List.count_eq_zero_of_not_mem hqt,
          List.count_eq_zero_of_not_mem hqg]
  · refine ⟨{ acct_thread_blocked s uth with
              u_data := Function.update (acct_thread_blocked s uth).u_data sysc
                          (some uth) },
      by simp [vmm_thread_blockon_sysc], ?_, ?_, ?_, ?_, ?_⟩
    · intro hty; simp [acct_thread_blocked, hty]
    · intro hty
      rcases hty with hty | hty <;> simp [acct_thread_blocked, hty]
    · simp
    · unfold acct_thread_blocked; split <;> rfl
    · unfold acct_thread_blocked; split <;> rfl

/-- C9 on a concrete state: task 12, attached to call 77, blocks while task 11
is queued and two tasks are counted.  Losing the race it is queued behind 11,
detached, with two tasks counted; winning it leaves one task counted, the call
pointing at it and the queue as it was. -/
theorem vmm_thread_blockon_sysc_spec_witness :
    (∃ s1, vmm_thread_blockon_sysc
        { static_init (fun a => { zeroed_thread none (if a < 10 then GUEST else TASK)
                                  with sysc := some 77 }) 1 with
          rnbl_tasks := [11], nr_unblk_tasks := 2 } 12 77 false = some s1 ∧
      s1.rnbl_tasks = [11, 12] ∧ s1.rnbl_guests = [] ∧
      (s1.thr 12).sysc = none ∧ s1.nr_unblk_tasks = 2 ∧ s1.nr_unblk_guests = 0) ∧
    (∃ s2, vmm_thread_blockon_sysc
        { static_init (fun a => { zeroed_thread none (if a < 10 then GUEST else TASK)
                                  with sysc := some 77 }) 1 with
          rnbl_tasks := [11], nr_unblk_tasks := 2 } 12 77 true = some s2 ∧
      s2.nr_unblk_tasks = 1 ∧ s2.nr_unblk_guests = 0 ∧
      s2.u_data 77 = some 12 ∧ s2.rnbl_tasks = [11] ∧ s2.rnbl_guests = []) := by
  obtain ⟨⟨s1, h1, ht1, _, _, hs1, _, hnt1, hng1⟩, ⟨s2, h2, ht2, _, hu2, hq2, hg2⟩⟩ :=
    vmm_thread_blockon_sysc_spec
      { static_init (fun a => { zeroed_thread none (if a < 10 then GUEST else TASK)
                                with sysc := some 77 }) 1 with
        rnbl_tasks := [11], nr_unblk_tasks := 2 } 12 77
      rfl (by decide) (by decide) (by decide) (by decide)
  exact ⟨⟨s1, h1, (ht1 rfl).1, (ht1 rfl).2, hs1, hnt1, hng1⟩,
    ⟨s2, h2, (ht2 rfl).1, (ht2 rfl).2, hu2, hq2, hg2⟩⟩

/-! ### The accounting invariant, move by move -/

/-- The count of a predicate over a one-element multiset. -/
theorem countP_single (p : Nat → Prop) [DecidablePred p] (t : Nat) :
    Multiset.countP p {t} = if p t then 1 else 0 := by
  rw [← Multiset.cons_zero, Multiset.countP_cons]; simp

/-- A move that keeps the classes, buddies, pairs, allocated addresses and the
live threads keeps the invariant as soon as the queues hold their class, the
unstarted threads are guests of pairs and the counters are the counts. -/
theorem wf_same_live (c c1 : core) (h : c.wf)
    (hty : c1.ty = c.ty) (hbud : c1.bud = c.bud) (hg : c1.gths = c.gths)
    (ha : c1.alloc = c.alloc) (hl : c1.live = c.live)
    (hqt : ∀ p ∈ c1.qt, c.ty p = TASK) (hqg : ∀ p ∈ c1.qg, c.ty p ≠ TASK)
    (hun : ∀ g ∈ c1.uns, g ∈ c.gths)
    (hnt : c1.nt = (c1.run + c1.qt).countP (fun p => c.ty p = TASK))
    (hng : c1.ng = (c1.run + c1.qg).countP (fun p => c.ty p ≠ TASK)) : c1.wf := by
  obtain ⟨hnd, hal, _, _, hgn, hpair, hmem, _, _, _⟩ := h
  constructor
  · rw [hl]; exact hnd
  · rw [hl, ha]; exact hal
  · rw [hty]; exact hqt
  · rw [hty]; exact hqg
  · rw [hg]; exact hgn
  · rw [hg, hty, hbud, ha, hl]; exact hpair
  · rw [hl, hty, hg, hbud]; exact hmem
  · rw [hg]; exact hun
  · rw [hty]; exact hnt
  · rw [hty]; exact hng

/-- A running thread is queued, counters untouched. -/
theorem wf_pause (c : core) (t : Nat) (h : c.wf) (ht : t ∈ c.run) :
    ({ c.enq t with run := c.run.erase t } : core).wf := by
  have hr : c.run = {t} + c.run.erase t := by
    rw [Multiset.singleton_add, Multiset.cons_erase ht]
  by_cases hty : c.ty t = TASK
  · apply wf_same_live c _ h <;> simp only [core.enq, hty, if_true] <;> try rfl
    · simp only [core.live]; nth_rewrite 2 [hr]; abel
    · intro p hp
      rcases Multiset.mem_add.1 hp with hp | hp
      · exact h.q_tasks p hp
      · rw [Multiset.mem_singleton.1 hp]; exact hty
    · exact h.q_guests
    · exact h.unstarted
    · rw [h.cnt_tasks]; nth_rewrite 1 [hr]
      (simp [Multiset.countP_add, countP_single, hty]; ring)
    · rw [h.cnt_guests]; nth_rewrite 1 [hr]
      simp [Multiset.countP_add, countP_single, hty]
  · apply wf_same_live c _ h <;> simp only [core.enq, hty, if_false] <;> try rfl
    · simp only [core.live]; nth_rewrite 2 [hr]; abel
    · exact h.q_tasks
    · intro p hp
      rcases Multiset.mem_add.1 hp with hp | hp
      · exact h.q_guests p hp
      · rw [Multiset.mem_singleton.1 hp]; exact hty
    · exact h.unstarted
    · rw [h.cnt_tasks]; nth_rewrite 1 [hr]
      simp [Multiset.countP_add, countP_single, hty]
    · rw [h.cnt_guests]; nth_rewrite 1 [hr]
      (simp [Multiset.countP_add, countP_single, hty]; ring)


/-- A queued task leaves the task queue and runs. -/
theorem wf_pick_t (c : core) (v : Nat) (h : c.wf) (hv : v ∈ c.qt) :
    ({ c with qt := c.qt.erase v, run := v ::ₘ c.run } : core).wf := by
  have hq : c.qt = {v} + c.qt.erase v := by
    rw [Multiset.singleton_add, Multiset.cons_erase hv]
  apply wf_same_live c _ h <;> try rfl
  · simp only [core.live]; nth_rewrite 2 [hq]
    rw [← Multiset.singleton_add]; abel
  · intro p hp; exact h.q_tasks p (Multiset.mem_of_mem_erase hp)
  · exact h.q_guests
  · exact h.unstarted
  · rw [h.cnt_tasks]; nth_rewrite 1 [hq]
    simp only [← Multiset.singleton_add]
    congr 2; abel
  · rw [h.cnt_guests]
    have : c.ty v = TASK := h.q_tasks v hv
    simp [Multiset.countP_add, Multiset.countP_cons, this]

/-- A queued guest-class thread leaves the guest queue and runs. -/
theorem wf_pick_g (c : core) (v : Nat) (h : c.wf) (hv : v ∈ c.qg) :
    ({ c with qg := c.qg.erase v, run := v ::ₘ c.run } : core).wf := by
  have hq : c.qg = {v} + c.qg.erase v := by
    rw [Multiset.singleton_add, Multiset.cons_erase hv]
  apply wf_same_live c _ h <;> try rfl
  · simp only [core.live]; nth_rewrite 2 [hq]
    rw [← Multiset.singleton_add]; abel
  · exact h.q_tasks
  · intro p hp; exact h.q_guests p (Multiset.mem_of_mem_erase hp)
  · exact h.unstarted
  · rw [h.cnt_tasks]
    have : c.ty v ≠ TASK := h.q_guests v hv
    simp [Multiset.countP_add, Multiset.countP_cons, this]
  · rw [h.cnt_guests]; nth_rewrite 1 [hq]
    simp only [← Multiset.singleton_add]
    congr 2; abel

/-- A running thread blocks and is counted as blocked. -/
theorem wf_block (c : core) (t : Nat) (h : c.wf) (ht : t ∈ c.run) :
    ({ c.dec t with run := c.run.erase t, blk := t ::ₘ c.blk } : core).wf := by
  have hr : c.run = {t} + c.run.erase t := by
    rw [Multiset.singleton_add, Multiset.cons_erase ht]
  by_cases hty : c.ty t = TASK
  · apply wf_same_live c _ h <;> simp only [core.dec, hty, if_true] <;> try rfl
    · simp only [core.live]; nth_rewrite 2 [hr]
      rw [← Multiset.singleton_add]; abel
    · exact h.q_tasks
    · exact h.q_guests
    · exact h.unstarted
    · rw [h.cnt_tasks]; nth_rewrite 1 [hr]
      simp [Multiset.countP_add, countP_single, hty]
    · rw [h.cnt_guests]; nth_rewrite 1 [hr]
      simp [Multiset.countP_add, countP_single, hty]
  · apply wf_same_live c _ h <;> simp only [core.dec, hty, if_false] <;> try rfl
    · simp only [core.live]; nth_rewrite 2 [hr]
      rw [← Multiset.singleton_add]; abel
    · exact h.q_tasks
    · exact h.q_guests
    · exact h.unstarted
    · rw [h.cnt_tasks]; nth_rewrite 1 [hr]
      simp [Multiset.countP_add, countP_single, hty]
    · rw [h.cnt_guests]; nth_rewrite 1 [hr]
      simp [Multiset.countP_add, countP_single, hty]

/-- A blocked thread is counted as unblocked and queued. -/
theorem wf_unblock (c : core) (t : Nat) (h : c.wf) (ht : t ∈ c.blk) :
    ({ (c.inc t).enq t with blk := c.blk.erase t } : core).wf := by
  have hr : c.blk = {t} + c.blk.erase t := by
    rw [Multiset.singleton_add, Multiset.cons_erase ht]
  by_cases hty : c.ty t = TASK
  · apply wf_same_live c _ h <;> simp only [core.inc, core.enq, hty, if_true] <;> try rfl
    · simp only [core.live]; nth_rewrite 2 [hr]; abel
    · intro p hp
      rcases Multiset.mem_add.1 hp with hp | hp
      · exact h.q_tasks p hp
      · rw [Multiset.mem_singleton.1 hp]; exact hty
    · exact h.q_guests
    · exact h.unstarted
    · rw [h.cnt_tasks]
      (simp [Multiset.countP_add, countP_single, hty]; ring)
    · rw [h.cnt_guests]
  · apply wf_same_live c _ h <;> simp only [core.inc, core.enq, hty, if_false] <;> try rfl
    · simp only [core.live]; nth_rewrite 2 [hr]; abel
    · exact h.q_tasks
    · intro p hp
      rcases Multiset.mem_add.1 hp with hp | hp
      · exact h.q_guests p hp
      · rw [Multiset.mem_singleton.1 hp]; exact hty
    · exact h.unstarted
    · rw [h.cnt_tasks]
    · rw [h.cnt_guests]
      (simp [Multiset.countP_add, countP_single, hty]; ring)

/-- An unstarted guest is counted as unblocked and queued. -/
theorem wf_start (c : core) (t : Nat) (h : c.wf) (ht : t ∈ c.uns) :
    ({ (c.inc t).enq t with uns := c.uns.erase t } : core).wf := by
  have hr : c.uns = {t} + c.uns.erase t := by
    rw [Multiset.singleton_add, Multiset.cons_erase ht]
  by_cases hty : c.ty t = TASK
  · apply wf_same_live c _ h <;> simp only [core.inc, core.enq, hty, if_true] <;> try rfl
    · simp only [core.live]; nth_rewrite 2 [hr]; abel
    · intro p hp
      rcases Multiset.mem_add.1 hp with hp | hp
      · exact h.q_tasks p hp
      · rw [Multiset.mem_singleton.1 hp]; exact hty
    · exact h.q_guests
    · intro g hg; exact h.unstarted g (Multiset.mem_of_mem_erase hg)
    · rw [h.cnt_tasks]
      (simp [Multiset.countP_add, countP_single, hty]; ring)
    · rw [h.cnt_guests]
  · apply wf_same_live c _ h <;> simp only [core.inc, core.enq, hty, if_false] <;> try rfl
    · simp only [core.live]; nth_rewrite 2 [hr]; abel
    · exact h.q_tasks
    · intro p hp
      rcases Multiset.mem_add.1 hp with hp | hp
      · exact h.q_guests p hp
      · rw [Multiset.mem_singleton.1 hp]; exact hty
    · intro g hg; exact h.unstarted g (Multiset.mem_of_mem_erase hg)
    · rw [h.cnt_tasks]
    · rw [h.cnt_guests]
      (simp [Multiset.countP_add, countP_single, hty]; ring)

/-- The invariant reads the class and the buddy of allocated threads only. -/
theorem wf_congr (c : core) (ty : Nat → ThreadType) (bud : Nat → Option Nat)
    (h : c.wf) (hag : ∀ p ∈ c.alloc, ty p = c.ty p ∧ bud p = c.bud p) :
    ({ c with ty := ty, bud := bud } : core).wf := by
  obtain ⟨hnd, hal, hqt, hqg, hgn, hpair, hmem, huns, hct, hcg⟩ := h
  have hlive : ∀ p ∈ c.live, ty p = c.ty p ∧ bud p = c.bud p :=
    fun p hp => hag p (hal p hp)
  have hrun : ∀ p ∈ c.run, p ∈ c.live := fun p hp => by
    simp only [core.live, Multiset.mem_add]; tauto
  have hqt1 : ∀ p ∈ c.qt, p ∈ c.live := fun p hp => by
    simp only [core.live, Multiset.mem_add]; tauto
  have hqg1 : ∀ p ∈ c.qg, p ∈ c.live := fun p hp => by
    simp only [core.live, Multiset.mem_add]; tauto
  constructor
  · exact hnd
  · exact hal
  · intro p hp; show ty p = TASK; rw [(hlive p (hqt1 p hp)).1]; exact hqt p hp
  · intro p hp; show ty p ≠ TASK; rw [(hlive p (hqg1 p hp)).1]; exact hqg p hp
  · exact hgn
  · intro g hg
    obtain ⟨h1, h2, b, h3, h4, h5, h6, h7⟩ := hpair g hg
    refine ⟨?_, h2, b, ?_, ?_, ?_, h6, h7⟩
    · show ty g = GUEST; rw [(hag g h2).1]; exact h1
    · show bud g = some b; rw [(hag g h2).2]; exact h3
    · show ty b = CTLR; rw [(hag b h6).1]; exact h4
    · show bud b = some g; rw [(hag b h6).2]; exact h5
  · intro p hp hne
    have hne1 : c.ty p ≠ TASK := by rw [← (hlive p hp).1]; exact hne
    rcases hmem p hp hne1 with h1 | ⟨g, hg, hb⟩
    · exact Or.inl h1
    · refine Or.inr ⟨g, hg, ?_⟩
      show bud g = some p
      rw [(hag g (hpair g hg).2.1).2]; exact hb
  · exact huns
  · show c.nt = _
    rw [hct]
    congr 1
    apply Multiset.countP_congr rfl
    intro p hp
    have : p ∈ c.live := by
      rcases Multiset.mem_add.1 hp with hp | hp
      · exact hrun p hp
      · exact hqt1 p hp
    simp [(hlive p this).1]
  · show c.ng = _
    rw [hcg]
    congr 1
    apply Multiset.countP_congr rfl
    intro p hp
    have : p ∈ c.live := by
      rcases Multiset.mem_add.1 hp with hp | hp
      · exact hrun p hp
      · exact hqg1 p hp
    simp [(hlive p this).1]

/-- A running task exits: it is counted as blocked and its object is freed. -/
theorem wf_exit (c : core) (t : Nat) (h : c.wf) (ht : t ∈ c.run) (hty : c.ty t = TASK) :
    ({ c.dec t with run := c.run.erase t,
                    alloc := c.alloc.filter (fun a => decide (a ≠ t)) } : core).wf := by
  have hr : c.run = t ::ₘ c.run.erase t := (Multiset.cons_erase ht).symm
  have hlive : c.live = t ::ₘ (c.run.erase t + c.qt + c.qg + c.blk + c.uns) := by
    simp only [core.live]; nth_rewrite 1 [hr]; simp only [Multiset.cons_add]
  obtain ⟨hnd, hal, hqt, hqg, hgn, hpair, hmem, huns, hct, hcg⟩ := h
  rw [hlive] at hnd hal hpair hmem
  obtain ⟨htL, hndL⟩ := Multiset.nodup_cons.1 hnd
  simp only [core.dec, hty, if_true]
  constructor
  · exact hndL
  · intro p hp
    simp only [List.mem_filter, decide_eq_true_eq]
    refine ⟨hal p (Multiset.mem_cons_of_mem hp), ?_⟩
    rintro rfl; exact htL hp
  · exact hqt
  · exact hqg
  · exact hgn
  · intro g hg
    obtain ⟨h1, h2, b, h3, h4, h5, h6, h7⟩ := hpair g hg
    refine ⟨h1, ?_, b, h3, h4, h5, ?_, ?_⟩
    · simp only [List.mem_filter, decide_eq_true_eq]
      refine ⟨h2, ?_⟩
      rintro rfl; rw [hty] at h1; cases h1
    · simp only [List.mem_filter, decide_eq_true_eq]
      refine ⟨h6, ?_⟩
      rintro rfl; rw [hty] at h4; cases h4
    · intro hh
      exact h7 ⟨Multiset.mem_cons_of_mem hh.1, Multiset.mem_cons_of_mem hh.2⟩
  · intro p hp hne
    exact hmem p (Multiset.mem_cons_of_mem hp) hne
  · exact huns
  · show c.nt - 1 = _
    rw [hct]; nth_rewrite 1 [hr]
    simp [Multiset.countP_add, Multiset.countP_cons, hty]
  · show c.ng = _
    rw [hcg]; nth_rewrite 1 [hr]
    simp [Multiset.countP_add, Multiset.countP_cons, hty]

/-- A task at a fresh address is counted and queued. -/
theorem wf_adopt (c : core) (a : Nat) (h : c.wf) (ha : a ∉ c.alloc) (hty : c.ty a = TASK) :
    ({ c with nt := c.nt + 1, qt := c.qt + {a}, alloc := a :: c.alloc } : core).wf := by
  obtain ⟨hnd, hal, hqt, hqg, hgn, hpair, hmem, huns, hct, hcg⟩ := h
  have haL : a ∉ c.live := fun hh => ha (hal a hh)
  have hlive : ({ c with nt := c.nt + 1, qt := c.qt + {a}, alloc := a :: c.alloc } : core).live
      = a ::ₘ c.live := by
    simp only [core.live, ← Multiset.singleton_add]; abel
  constructor
  · rw [hlive]; exact Multiset.nodup_cons.2 ⟨haL, hnd⟩
  · rw [hlive]
    intro p hp
    rcases Multiset.mem_cons.1 hp with rfl | hp
    · exact List.mem_cons_self _ _
    · exact List.mem_cons_of_mem _ (hal p hp)
  · intro p hp
    rcases Multiset.mem_add.1 hp with hp | hp
    · exact hqt p hp
    · rw [Multiset.mem_singleton.1 hp]; exact hty
  · exact hqg
  · exact hgn
  · intro g hg
    obtain ⟨h1, h2, b, h3, h4, h5, h6, h7⟩ := hpair g hg
    refine ⟨h1, List.mem_cons_of_mem _ h2, b, h3, h4, h5, List.mem_cons_of_mem _ h6, ?_⟩
    rw [hlive]
    rintro ⟨hg1, hb1⟩
    have hga : g ≠ a := by rintro rfl; exact ha h2
    have hba : b ≠ a := by rintro rfl; exact ha h6
    exact h7 ⟨(Multiset.mem_cons.1 hg1).resolve_left hga,
      (Multiset.mem_cons.1 hb1).resolve_left hba⟩
  · rw [hlive]
    intro p hp hne
    rcases Multiset.mem_cons.1 hp with rfl | hp
    · exact absurd hty hne
    · exact hmem p hp hne
  · exact huns
  · simp only [hct, Multiset.countP_add, countP_single, hty, if_true]
    push_cast; ring
  · exact hcg

/-- A running thread is live. -/
theorem mem_live_of_run (c : core) (p : Nat) (h : p ∈ c.run) : p ∈ c.live := by
  simp only [core.live, Multiset.mem_add]; tauto

/-- An unstarted thread is live. -/
theorem mem_live_of_uns (c : core) (p : Nat) (h : p ∈ c.uns) : p ∈ c.live := by
  simp only [core.live, Multiset.mem_add]; tauto

/-- A running guest-class thread hands its vcore to its buddy: the buddy was
not live, and the pair still has exactly one live member. -/
theorem wf_swap (c : core) (a b : Nat) (h : c.wf) (ha : a ∈ c.run)
    (hty : c.ty a ≠ TASK) (hb : c.bud a = some b) :
    ({ c with run := b ::ₘ c.run.erase a } : core).wf := by
  have hr : c.run = a ::ₘ c.run.erase a := (Multiset.cons_erase ha).symm
  have hlive : c.live = a ::ₘ (c.run.erase a + c.qt + c.qg + c.blk + c.uns) := by
    simp only [core.live]; nth_rewrite 1 [hr]; simp only [Multiset.cons_add]
  have hlive1 : ({ c with run := b ::ₘ c.run.erase a } : core).live
      = b ::ₘ (c.run.erase a + c.qt + c.qg + c.blk + c.uns) := by
    simp only [core.live, Multiset.cons_add]
  obtain ⟨hnd, hal, hqt, hqg, hgn, hpair, hmem, huns, hct, hcg⟩ := h
  have haL : a ∈ c.live := mem_live_of_run c a ha
  have facts : b ∉ c.live ∧ b ∈ c.alloc ∧ c.ty b ≠ TASK ∧
      (b ∈ c.gths ∨ ∃ g ∈ c.gths, c.bud g = some b) ∧
      (∀ g1 ∈ c.gths, ∀ b1, c.bud g1 = some b1 → (g1 = b → b1 = a) ∧ (b1 = b → g1 = a)) := by
    rcases hmem a haL hty with hA | ⟨g, hg, hga⟩
    · obtain ⟨h1, h2, b0, h3, h4, h5, h6, h7⟩ := hpair a hA
      rw [hb] at h3; cases h3
      refine ⟨fun hh => h7 ⟨haL, hh⟩, h6, by rw [h4]; simp, Or.inr ⟨a, hA, hb⟩, ?_⟩
      intro g1 hg1 b1 hb1
      obtain ⟨k1, k2, b2, k3, k4, k5, k6, k7⟩ := hpair g1 hg1
      rw [hb1] at k3; cases k3
      constructor
      · rintro rfl; rw [k1] at h4; cases h4
      · rintro rfl; rw [h5] at k5; cases k5; rfl
    · obtain ⟨h1, h2, b0, h3, h4, h5, h6, h7⟩ := hpair g hg
      rw [hga] at h3; cases h3
      rw [hb] at h5; cases h5
      refine ⟨fun hh => h7 ⟨hh, haL⟩, h2, by rw [h1]; simp, Or.inl hg, ?_⟩
      intro g1 hg1 b1 hb1
      obtain ⟨k1, k2, b2, k3, k4, k5, k6, k7⟩ := hpair g1 hg1
      rw [hb1] at k3; cases k3
      constructor
      · rintro rfl; rw [hga] at hb1; cases hb1; rfl
      · rintro rfl; rw [h1] at k4; cases k4
  obtain ⟨hbL, hbA, hbT, hbM, hpart⟩ := facts
  rw [hlive] at hnd hal hpair hmem hbL
  obtain ⟨haL1, hndL⟩ := Multiset.nodup_cons.1 hnd
  have hbL1 : b ∉ c.run.erase a + c.qt + c.qg + c.blk + c.uns :=
    fun hh => hbL (Multiset.mem_cons_of_mem hh)
  have hab : a ≠ b := by
    rintro rfl; exact hbL (Multiset.mem_cons_self _ _)
  constructor
  · rw [hlive1]; exact Multiset.nodup_cons.2 ⟨hbL1, hndL⟩
  · rw [hlive1]
    intro p hp
    rcases Multiset.mem_cons.1 hp with rfl | hp
    · exact hbA
    · exact hal p (Multiset.mem_cons_of_mem hp)
  · exact hqt
  · exact hqg
  · exact hgn
  · intro g hg
    obtain ⟨h1, h2, b0, h3, h4, h5, h6, h7⟩ := hpair g hg
    refine ⟨h1, h2, b0, h3, h4, h5, h6, ?_⟩
    rw [hlive1]
    rintro ⟨hg1, hb1⟩
    have hp := hpart g hg b0 h3
    rcases Multiset.mem_cons.1 hg1 with e1 | hg2
    · have e2 : b0 = a := hp.1 e1
      rw [e2] at hb1
      rcases Multiset.mem_cons.1 hb1 with e | hb2
      · exact hab e
      · exact haL1 hb2
    · rcases Multiset.mem_cons.1 hb1 with e1 | hb2
      · have e2 : g = a := hp.2 e1
        rw [e2] at hg2
        exact haL1 hg2
      · exact h7 ⟨Multiset.mem_cons_of_mem hg2, Multiset.mem_cons_of_mem hb2⟩
  · rw [hlive1]
    intro p hp hne
    rcases Multiset.mem_cons.1 hp with rfl | hp
    · exact hbM
    · exact hmem p (Multiset.mem_cons_of_mem hp) hne
  · exact huns
  · show c.nt = _
    rw [hct]; nth_rewrite 1 [hr]
    simp [Multiset.countP_add, Multiset.countP_cons, hty, hbT]
  · show c.ng = _
    rw [hcg]; nth_rewrite 1 [hr]
    simp [Multiset.countP_add, Multiset.countP_cons, hty, hbT]

/-- A pair wired both ways at two fresh addresses is recorded, its guest
unstarted. -/
theorem wf_adopt_pair (c : core) (g b : Nat) (h : c.wf)
    (hg : g ∉ c.alloc) (hb : b ∉ c.alloc)
    (htg : c.ty g = GUEST) (htb : c.ty b = CTLR)
    (hbg : c.bud g = some b) (hbb : c.bud b = some g) :
    ({ c with gths := g ::ₘ c.gths, uns := g ::ₘ c.uns,
              alloc := g :: b :: c.alloc } : core).wf := by
  obtain ⟨hnd, hal, hqt, hqg, hgn, hpair, hmem, huns, hct, hcg⟩ := h
  have hgL : g ∉ c.live := fun hh => hg (hal g hh)
  have hbL : b ∉ c.live := fun hh => hb (hal b hh)
  have hgb : g ≠ b := by rintro rfl; rw [htg] at htb; cases htb
  have hlive : ({ c with gths := g ::ₘ c.gths, uns := g ::ₘ c.uns,
                         alloc := g :: b :: c.alloc } : core).live = g ::ₘ c.live := by
    simp only [core.live, Multiset.add_cons]
  constructor
  · rw [hlive]; exact Multiset.nodup_cons.2 ⟨hgL, hnd⟩
  · rw [hlive]
    intro p hp
    rcases Multiset.mem_cons.1 hp with rfl | hp
    · exact List.mem_cons_self _ _
    · exact List.mem_cons_of_mem _ (List.mem_cons_of_mem _ (hal p hp))
  · exact hqt
  · exact hqg
  · refine Multiset.nodup_cons.2 ⟨?_, hgn⟩
    intro hh; exact hg (hpair g hh).2.1
  · intro g1 hg1
    rw [hlive]
    rcases Multiset.mem_cons.1 hg1 with rfl | hg1
    · refine ⟨htg, List.mem_cons_self _ _, b, hbg, htb, hbb,
        List.mem_cons_of_mem _ (List.mem_cons_self _ _), ?_⟩
      rintro ⟨_, hb1⟩
      rcases Multiset.mem_cons.1 hb1 with e | hb1
      · exact hgb e.symm
      · exact hbL hb1
    · obtain ⟨h1, h2, b0, h3, h4, h5, h6, h7⟩ := hpair g1 hg1
      refine ⟨h1, List.mem_cons_of_mem _ (List.mem_cons_of_mem _ h2), b0, h3, h4, h5,
        List.mem_cons_of_mem _ (List.mem_cons_of_mem _ h6), ?_⟩
      rintro ⟨hg2, hb2⟩
      have e1 : g1 ≠ g := by rintro rfl; exact hg h2
      have e2 : b0 ≠ g := by rintro rfl; exact hg h6
      exact h7 ⟨(Multiset.mem_cons.1 hg2).resolve_left e1,
        (Multiset.mem_cons.1 hb2).resolve_left e2⟩
  · rw [hlive]
    intro p hp hne
    rcases Multiset.mem_cons.1 hp with rfl | hp
    · exact Or.inl (Multiset.mem_cons_self _ _)
    · rcases hmem p hp hne with h1 | ⟨g1, hg1, hb1⟩
      · exact Or.inl (Multiset.mem_cons_of_mem h1)
      · exact Or.inr ⟨g1, Multiset.mem_cons_of_mem hg1, hb1⟩
  · intro g1 hg1
    rcases Multiset.mem_cons.1 hg1 with rfl | hg1
    · exact Multiset.mem_cons_self _ _
    · exact Multiset.mem_cons_of_mem (huns g1 hg1)
  · exact hct
  · exact hcg

/-- An unstarted pair is destroyed and its two objects are freed. -/
theorem wf_destroy (c : core) (g b : Nat) (h : c.wf) (hg : g ∈ c.uns)
    (hb : c.bud g = some b) :
    ({ c with uns := c.uns.erase g, gths := c.gths.erase g,
              alloc := c.alloc.filter (fun a => decide (a ≠ g ∧ a ≠ b)) } : core).wf := by
  have hu : c.uns = g ::ₘ c.uns.erase g := (Multiset.cons_erase hg).symm
  have hlive : c.live = g ::ₘ (c.run + c.qt + c.qg + c.blk + c.uns.erase g) := by
    simp only [core.live]; nth_rewrite 1 [hu]; simp only [Multiset.add_cons]
  obtain ⟨hnd, hal, hqt, hqg, hgn, hpair, hmem, huns, hct, hcg⟩ := h
  have hgG : g ∈ c.gths := huns g hg
  have hgL : g ∈ c.live := mem_live_of_uns c g hg
  obtain ⟨h1, h2, b0, h3, h4, h5, h6, h7⟩ := hpair g hgG
  rw [hb] at h3; cases h3
  have hbL : b ∉ c.live := fun hh => h7 ⟨hgL, hh⟩
  rw [hlive] at hnd hal hpair hmem hbL
  obtain ⟨hgL1, hndL⟩ := Multiset.nodup_cons.1 hnd
  have hlive1 : ({ c with uns := c.uns.erase g, gths := c.gths.erase g,
                          alloc := c.alloc.filter (fun a => decide (a ≠ g ∧ a ≠ b)) } : core).live
      = c.run + c.qt + c.qg + c.blk + c.uns.erase g := rfl
  have hG : ∀ g1, g1 ∈ c.gths.erase g ↔ g1 ≠ g ∧ g1 ∈ c.gths :=
    fun g1 => Multiset.Nodup.mem_erase_iff hgn
  constructor
  · rw [hlive1]; exact hndL
  · rw [hlive1]
    intro p hp
    simp only [List.mem_filter, decide_eq_true_eq]
    refine ⟨hal p (Multiset.mem_cons_of_mem hp), ?_, ?_⟩
    · rintro rfl; exact hgL1 hp
    · rintro rfl; exact hbL (Multiset.mem_cons_of_mem hp)
  · exact hqt
  · exact hqg
  · exact Multiset.Nodup.erase _ hgn
  · intro g1 hg1
    rw [hlive1]
    obtain ⟨hne, hg1⟩ := (hG g1).1 hg1
    obtain ⟨k1, k2, b1, k3, k4, k5, k6, k7⟩ := hpair g1 hg1
    refine ⟨k1, ?_, b1, k3, k4, k5, ?_, ?_⟩
    · simp only [List.mem_filter, decide_eq_true_eq]
      refine ⟨k2, hne, ?_⟩
      rintro rfl; rw [k1] at h4; cases h4
    · simp only [List.mem_filter, decide_eq_true_eq]
      refine ⟨k6, ?_, ?_⟩
      · rintro rfl; rw [h1] at k4; cases k4
      · rintro rfl; rw [h5] at k5; cases k5; exact hne rfl
    · rintro ⟨a1, a2⟩
      exact k7 ⟨Multiset.mem_cons_of_mem a1, Multiset.mem_cons_of_mem a2⟩
  · rw [hlive1]
    intro p hp hne
    rcases hmem p (Multiset.mem_cons_of_mem hp) hne with e | ⟨g1, hg1, hb1⟩
    · refine Or.inl ((hG p).2 ⟨?_, e⟩)
      rintro rfl; exact hgL1 hp
    · by_cases e : g1 = g
      · subst e
        rw [hb] at hb1; cases hb1
        exact absurd (Multiset.mem_cons_of_mem hp) hbL
      · exact Or.inr ⟨g1, (hG g1).2 ⟨e, hg1⟩, hb1⟩
  · intro g1 hg1
    have hg1u : g1 ∈ c.uns := Multiset.mem_of_mem_erase hg1
    refine (hG g1).2 ⟨?_, huns g1 hg1u⟩
    rintro rfl
    apply hgL1
    simp only [Multiset.mem_add]; tauto
  · exact hct
  · exact hcg

/-! ### The invariant along the calls -/

/-- Under the invariant both counters are counts, hence not negative. -/
theorem counters_nonneg (w : world) (h : (core_of w).wf) :
    0 ≤ w.sched.nr_unblk_guests ∧ 0 ≤ w.sched.nr_unblk_tasks := by
  have h1 := h.cnt_tasks
  have h2 := h.cnt_guests
  simp only [core_of] at h1 h2
  constructor
  · rw [h2]; exact Int.natCast_nonneg _
  · rw [h1]; exact Int.natCast_nonneg _

/-- Appending at the tail of a queue adds one element to its multiset. -/
theorem coe_snoc (l : List Nat) (t : Nat) :
    ((l ++ [t] : List Nat) : Multiset Nat) = (l : Multiset Nat) + {t} := by
  rw [← Multiset.coe_singleton, Multiset.coe_add]

/-- `thread_paused` keeps the invariant and does not abort. -/
theorem exec_thread_paused (stksz : Nat) (w : world) (uth : Nat)
    (h : (core_of w).wf) (he : uth ∈ w.running) :
    ∃ w1, exec stksz w (op.thread_paused uth) = some w1 ∧ (core_of w1).wf := by
  obtain ⟨hng, hnt⟩ := counters_nonneg w h
  obtain ⟨tick, req, e⟩ := enqueue_vmm_thread_some w.sched uth hng hnt
  have hm := wf_pause (core_of w) uth h (by simpa [core_of] using he)
  refine ⟨{ w with sched := { insert_tail w.sched uth with tick := tick, requests := req },
                   running := w.running.erase uth }, ?_, ?_⟩
  · simp [exec, vmm_thread_paused, e]
  · have e2 : core_of { w with
          sched := { insert_tail w.sched uth with tick := tick, requests := req },
          running := w.running.erase uth }
        = { (core_of w).enq uth with run := (core_of w).run.erase uth } := by
      cases hty : (w.sched.thr uth).type <;>
        simp [core_of, core.enq, insert_tail, hty, coe_snoc]
    rw [e2]; exact hm

/-- `thread_runnable` on a blocked thread keeps the invariant and does not
abort. -/
theorem exec_thread_runnable (stksz : Nat) (w : world) (uth : Nat)
    (h : (core_of w).wf) (he : uth ∈ w.blocked) :
    ∃ w1, exec stksz w (op.thread_runnable uth) = some w1 ∧ (core_of w1).wf := by
  obtain ⟨hng, hnt⟩ := counters_nonneg w h
  obtain ⟨tick, req, e⟩ := vmm_thread_runnable_some w.sched uth hng hnt
  have hm := wf_unblock (core_of w) uth h (by simpa [core_of] using he)
  refine ⟨{ w with sched := { insert_tail (acct_thread_unblocked w.sched uth) uth with
                              tick := tick, requests := req },
                   blocked := w.blocked.erase uth }, ?_, ?_⟩
  · simp [exec, e]
  · have e2 : core_of { w with
          sched := { insert_tail (acct_thread_unblocked w.sched uth) uth with
                     tick := tick, requests := req },
          blocked := w.blocked.erase uth }
        = { ((core_of w).inc uth).enq uth with blk := (core_of w).blk.erase uth } := by
      cases hty : (w.sched.thr uth).type <;>
        simp [core_of, core.enq, core.inc, insert_tail, acct_thread_unblocked, hty, coe_snoc]
    rw [e2]; exact hm

/-- `start_guest` on an unstarted guest keeps the invariant and does not
abort. -/
theorem exec_start_guest (stksz : Nat) (w : world) (gth : Nat)
    (h : (core_of w).wf) (he : gth ∈ w.unstarted) :
    ∃ w1, exec stksz w (op.start_guest gth) = some w1 ∧ (core_of w1).wf := by
  obtain ⟨hng, hnt⟩ := counters_nonneg w h
  obtain ⟨tick, req, e⟩ := vmm_thread_runnable_some w.sched gth hng hnt
  have hm := wf_start (core_of w) gth h (by simpa [core_of] using he)
  refine ⟨{ w with sched := { insert_tail (acct_thread_unblocked w.sched gth) gth with
                              tick := tick, requests := req },
                   unstarted := w.unstarted.erase gth }, ?_, ?_⟩
  · have e1 : start_guest_thread w.sched gth = vmm_thread_runnable w.sched gth := rfl
    simp [exec, e1, e]
  · have e2 : core_of { w with
          sched := { insert_tail (acct_thread_unblocked w.sched gth) gth with
                     tick := tick, requests := req },
          unstarted := w.unstarted.erase gth }
        = { ((core_of w).inc gth).enq gth with uns := (core_of w).uns.erase gth } := by
      cases hty : (w.sched.thr gth).type <;>
        simp [core_of, core.enq, core.inc, insert_tail, acct_thread_unblocked, hty, coe_snoc]
    rw [e2]; exact hm

/-- `thread_has_blocked` on a running thread keeps the invariant. -/
theorem exec_thread_has_blocked (stksz : Nat) (w : world) (uth : Nat) (flags : Int)
    (h : (core_of w).wf) (he : uth ∈ w.running) :
    ∃ w1, exec stksz w (op.thread_has_blocked uth flags) = some w1 ∧ (core_of w1).wf := by
  have hm := wf_block (core_of w) uth h (by simpa [core_of] using he)
  refine ⟨_, rfl, ?_⟩
  have e2 : core_of { w with sched := vmm_thread_has_blocked w.sched uth flags,
                             running := w.running.erase uth, blocked := uth :: w.blocked }
      = { (core_of w).dec uth with run := (core_of w).run.erase uth,
                                   blk := uth ::ₘ (core_of w).blk } := by
    cases hty : (w.sched.thr uth).type <;>
      simp [core_of, core.dec, vmm_thread_has_blocked, acct_thread_blocked, hty]
  rw [e2]; exact hm

/-- The exit of a running task keeps the invariant. -/
theorem exec_task_exit (stksz : Nat) (w : world) (uth : Nat)
    (h : (core_of w).wf) (he : uth ∈ w.running) (hty : (w.sched.thr uth).type = TASK) :
    ∃ w1, exec stksz w (op.task_exit uth) = some w1 ∧ (core_of w1).wf := by
  have hm := wf_exit (core_of w) uth h (by simpa [core_of] using he) hty
  refine ⟨_, rfl, ?_⟩
  have e2 : core_of { w with sched := __tth_exit_cb w.sched uth,
                             running := w.running.erase uth,
                             allocated := w.allocated.filter (fun a => decide (a ≠ uth)) }
      = { (core_of w).dec uth with
          run := (core_of w).run.erase uth,
          alloc := (core_of w).alloc.filter (fun a => decide (a ≠ uth)) } := by
    simp [core_of, core.dec, __tth_exit_cb, acct_thread_blocked, hty]
  rw [e2]; exact hm

/-- A change of the number of vcores granted keeps the invariant. -/
theorem exec_grant (stksz : Nat) (w : world) (nv : Int) (h : (core_of w).wf) :
    ∃ w1, exec stksz w (op.grant nv) = some w1 ∧ (core_of w1).wf :=
  ⟨_, rfl, h⟩

/-- The destruction of an unstarted pair keeps the invariant and does not
abort. -/
theorem exec_destroy_guest (stksz : Nat) (w : world) (gth : Nat)
    (h : (core_of w).wf) (he : gth ∈ w.unstarted) :
    ∃ w1, exec stksz w (op.destroy_guest gth) = some w1 ∧ (core_of w1).wf := by
  have hu : gth ∈ (core_of w).uns := by simpa [core_of] using he
  obtain ⟨_, _, b, hb, _⟩ := h.pair gth (h.unstarted gth hu)
  have hb1 : (w.sched.thr gth).buddy = some b := hb
  have hm := wf_destroy (core_of w) gth b h hu hb
  refine ⟨{ w with unstarted := w.unstarted.erase gth, gths := w.gths.erase gth,
                   allocated := w.allocated.filter
                     (fun a => decide (a ≠ gth ∧ a ≠ b)) }, ?_, ?_⟩
  · simp [exec, hb1]
  · have e2 : core_of { w with unstarted := w.unstarted.erase gth,
                               gths := w.gths.erase gth,
                               allocated := w.allocated.filter
                                 (fun a => decide (a ≠ gth ∧ a ≠ b)) }
        = { core_of w with
            uns := (core_of w).uns.erase gth, gths := (core_of w).gths.erase gth,
            alloc := (core_of w).alloc.filter (fun a => decide (a ≠ gth ∧ a ≠ b)) } := by
      simp [core_of]
    rw [e2]; exact hm

/-- Under the invariant a running guest-class thread has a buddy. -/
theorem running_has_buddy (w : world) (uth : Nat) (h : (core_of w).wf)
    (he : uth ∈ w.running) (hty : (w.sched.thr uth).type ≠ TASK) :
    ∃ b, (w.sched.thr uth).buddy = some b := by
  have hr : uth ∈ (core_of w).run := by simpa [core_of] using he
  rcases h.member uth (mem_live_of_run _ _ hr) hty with hA | ⟨g, hg, hga⟩
  · obtain ⟨_, _, b, hb, _⟩ := h.pair uth hA
    exact ⟨b, hb⟩
  · obtain ⟨_, _, b, hb, _, hb2, _⟩ := h.pair g hg
    rw [hga] at hb; cases hb
    exact ⟨g, hb2⟩

/-- The hand-over of a vcore from a running guest-class thread to its buddy
keeps the invariant. -/
theorem wf_hand_over (w : world) (uth b : Nat) (h : (core_of w).wf)
    (he : uth ∈ w.running) (hty : (w.sched.thr uth).type ≠ TASK)
    (hb : (w.sched.thr uth).buddy = some b) :
    (core_of { w with running := b :: w.running.erase uth }).wf := by
  have hm := wf_swap (core_of w) uth b h (by simpa [core_of] using he) hty hb
  have e2 : core_of { w with running := b :: w.running.erase uth }
      = { core_of w with run := b ::ₘ (core_of w).run.erase uth } := by
    simp [core_of]
  rw [e2]; exact hm

/-- A VM exit of a running guest keeps the invariant and does not abort. -/
theorem exec_refl_vm_fault (stksz : Nat) (w : world) (uth : Nat)
    (h : (core_of w).wf) (he : uth ∈ w.running) (hty : (w.sched.thr uth).type = GUEST) :
    ∃ w1, exec stksz w (op.refl_vm_fault uth) = some w1 ∧ (core_of w1).wf := by
  have hne : (w.sched.thr uth).type ≠ TASK := by rw [hty]; simp
  obtain ⟨b, hb⟩ := running_has_buddy w uth h he hne
  refine ⟨{ w with running := b :: w.running.erase uth }, ?_, wf_hand_over w uth b h he hne hb⟩
  simp [exec, vmm_thread_refl_vm_fault, hb]

/-- The swap back from a running controller keeps the invariant and does not
abort. -/
theorem exec_swap_to_gth (stksz : Nat) (w : world) (uth : Nat)
    (h : (core_of w).wf) (he : uth ∈ w.running) (hty : (w.sched.thr uth).type = CTLR) :
    ∃ w1, exec stksz w (op.swap_to_gth uth) = some w1 ∧ (core_of w1).wf := by
  have hne : (w.sched.thr uth).type ≠ TASK := by rw [hty]; simp
  obtain ⟨b, hb⟩ := running_has_buddy w uth h he hne
  refine ⟨{ w with running := b :: w.running.erase uth }, ?_, wf_hand_over w uth b h he hne hb⟩
  simp [exec, __swap_to_gth, hb]

/-- Writes to thread objects that leave the class and the buddy of every
allocated thread as they are keep the invariant. -/
theorem wf_set_thr (w : world) (thr1 : Nat → vmm_thread) (h : (core_of w).wf)
    (hag : ∀ p ∈ w.allocated, (thr1 p).type = (w.sched.thr p).type ∧
      (thr1 p).buddy = (w.sched.thr p).buddy) :
    (core_of { w with sched := { w.sched with thr := thr1 } }).wf :=
  wf_congr (core_of w) (fun p => (thr1 p).type) (fun p => (thr1 p).buddy) h hag

/-- Writing the `sysc` field of a thread keeps the invariant. -/
theorem wf_set_sysc (w : world) (uth : Nat) (v : Option Nat) (h : (core_of w).wf) :
    (core_of { w with sched := { w.sched with
        thr := Function.update w.sched.thr uth { w.sched.thr uth with sysc := v } } }).wf := by
  apply wf_set_thr w _ h
  intro p _
  by_cases e : p = uth
  · subst e; simp
  · simp [Function.update_noteq e]

/-- The completion event of a call on which a blocked thread waits keeps the
invariant and does not abort. -/
theorem exec_handle_syscall (stksz : Nat) (w : world) (sysc uth : Nat)
    (h : (core_of w).wf) (hu : w.sched.u_data sysc = some uth)
    (he : uth ∈ w.blocked) (hs : (w.sched.thr uth).sysc = some sysc) :
    ∃ w1, exec stksz w (op.handle_syscall sysc) = some w1 ∧ (core_of w1).wf := by
  obtain ⟨w1, hx, hwf⟩ := exec_thread_runnable stksz
    { w with sched := { w.sched with
        thr := Function.update w.sched.thr uth { w.sched.thr uth with sysc := none } } }
    uth (wf_set_sysc w uth none h) he
  refine ⟨w1, ?_, hwf⟩
  rw [← hx]
  simp only [exec, vmm_handle_syscall, restart_thread, hu, hs, if_true]
  cases vmm_thread_runnable
    { w.sched with
        thr := Function.update w.sched.thr uth { w.sched.thr uth with sysc := none } } uth <;> rfl

/-- `thread_blockon_sysc` on a running thread keeps the invariant and does not
abort, whatever `register_evq` answers. -/
theorem exec_thread_blockon_sysc (stksz : Nat) (w : world) (uth sysc : Nat)
    (registered : Bool) (h : (core_of w).wf) (he : uth ∈ w.running) :
    ∃ w1, exec stksz w (op.thread_blockon_sysc uth sysc registered) = some w1 ∧
      (core_of w1).wf := by
  obtain ⟨hng, hnt⟩ := counters_nonneg w h
  cases registered with
  | true =>
    have h0 := wf_set_sysc w uth (some sysc) h
    have hm := wf_block _ uth h0 (by simpa [core_of] using he)
    refine ⟨{ w with
        sched := { acct_thread_blocked
                     { w.sched with thr := Function.update w.sched.thr uth
                                             { w.sched.thr uth with sysc := some sysc } } uth with
                   u_data := Function.update
                     (acct_thread_blocked
                       { w.sched with thr := Function.update w.sched.thr uth
                                               { w.sched.thr uth with sysc := some sysc } }
                       uth).u_data sysc (some uth) },
        running := w.running.erase uth, blocked := uth :: w.blocked }, ?_, ?_⟩
    · simp [exec, vmm_thread_blockon_sysc]
    · convert hm using 1
      cases hty : (w.sched.thr uth).type <;>
        simp [core_of, core.dec, acct_thread_blocked, hty]
  | false =>
    have hs0 : ((Function.update w.sched.thr uth
        { w.sched.thr uth with sysc := some sysc }) uth).sysc = some sysc := by simp
    have hrace := vmm_thread_blockon_sysc_race
      { w.sched with thr := Function.update w.sched.thr uth
                              { w.sched.thr uth with sysc := some sysc } } uth sysc hs0
    obtain ⟨tick, req, e⟩ := vmm_thread_runnable_some_of_counted
      { acct_thread_blocked
          { w.sched with thr := Function.update w.sched.thr uth
                                  { w.sched.thr uth with sysc := some sysc } } uth with
        u_data := Function.update w.sched.u_data sysc (some uth),
        thr := Function.update
          (Function.update w.sched.thr uth { w.sched.thr uth with sysc := some sysc }) uth
          { (Function.update w.sched.thr uth { w.sched.thr uth with sysc := some sysc }) uth
            with sysc := none } }
      uth
      (by cases hty : (w.sched.thr uth).type <;>
            simp [acct_thread_blocked, acct_thread_unblocked, hty] <;> omega)
      (by cases hty : (w.sched.thr uth).type <;>
            simp [acct_thread_blocked, acct_thread_unblocked, hty] <;> omega)
    rw [e] at hrace
    have h0 : (core_of { w with sched := { w.sched with
        thr := Function.update
          (Function.update w.sched.thr uth { w.sched.thr uth with sysc := some sysc }) uth
          { (Function.update w.sched.thr uth { w.sched.thr uth with sysc := some sysc }) uth
            with sysc := none } } }).wf := by
      apply wf_set_thr w _ h
      intro p _
      by_cases e : p = uth
      · subst e; simp
      · simp [Function.update_noteq e]
    have hm := wf_pause _ uth h0 (by simpa [core_of] using he)
    refine ⟨_, by simp only [exec, hrace]; rfl, ?_⟩
    convert hm using 1
    cases hty : (w.sched.thr uth).type <;>
      simp [core_of, core.enq, insert_tail, acct_thread_blocked, acct_thread_unblocked,
        hty, coe_snoc]

/-- What `vmm_run_task` returns, by what the two allocations yield.  Only the
object at the new address is written; on success the thread is a task, it is
counted and it is at the tail of the task queue. -/
theorem vmm_run_task_cases (stksz : Nat) (s : sched_state) (vm func arg stack : Option Nat)
    (mem : Option Nat) (hg : 0 ≤ s.nr_unblk_guests) (ht : 0 ≤ s.nr_unblk_tasks) :
    (mem = none → vmm_run_task stksz s vm func arg mem stack = some (none, s)) ∧
    (∀ a, mem = some a → stack = none →
      ∃ thr1, vmm_run_task stksz s vm func arg mem stack
          = some (none, { s with thr := thr1 }) ∧
        (∀ p, p ≠ a → thr1 p = s.thr p)) ∧
    (∀ a k, mem = some a → stack = some k →
      ∃ thr1 tick requests, vmm_run_task stksz s vm func arg mem stack
          = some (some a, { s with thr := thr1,
                                   nr_unblk_tasks := s.nr_unblk_tasks + 1,
                                   rnbl_tasks := s.rnbl_tasks ++ [a],
                                   tick := tick, requests := requests }) ∧
        (∀ p, p ≠ a → thr1 p = s.thr p) ∧
        thr1 a = { zeroed_thread vm TASK with
                   stacksize := stksz, stacktop := some k, func := func, arg := arg }) := by
  refine ⟨?_, ?_, ?_⟩
  · rintro rfl; rfl
  · rintro a rfl rfl
    refine ⟨_, rfl, ?_⟩
    intro p hp
    simp [Function.update_noteq hp]
  · rintro a k rfl rfl
    have e0 : vmm_run_task stksz s vm func arg (some a) (some k)
        = (enqueue_vmm_thread
            (acct_thread_unblocked
              { s with thr := Function.update s.thr a
                                { zeroed_thread vm TASK with
                                  stacksize := stksz, stacktop := some k,
                                  func := func, arg := arg } } a)
            a).map (fun s6 => (some a, s6)) := by
      simp [vmm_run_task, alloc_vmm_thread, zeroed_thread]
    obtain ⟨tick, requests, e⟩ := enqueue_vmm_thread_some
      (acct_thread_unblocked
        { s with thr := Function.update s.thr a
                          { zeroed_thread vm TASK with
                            stacksize := stksz, stacktop := some k,
                            func := func, arg := arg } } a) a
      (by simp [acct_thread_unblocked, zeroed_thread, hg])
      (by simp [acct_thread_unblocked, zeroed_thread]; omega)
    refine ⟨Function.update s.thr a
        { zeroed_thread vm TASK with
          stacksize := stksz, stacktop := some k, func := func, arg := arg },
      tick, requests, ?_, ?_, ?_⟩
    · rw [e0, e]
      simp [insert_tail, acct_thread_unblocked, zeroed_thread]
    · intro p hp
      simp [Function.update_noteq hp]
    · simp [zeroed_thread]

/-- `run_task` with a fresh address keeps the invariant and does not abort. -/
theorem exec_run_task (stksz : Nat) (w : world) (vm func arg mem stack : Option Nat)
    (h : (core_of w).wf) (he : fresh w mem) :
    ∃ w1, exec stksz w (op.run_task vm func arg mem stack) = some w1 ∧ (core_of w1).wf := by
  obtain ⟨hng, hnt⟩ := counters_nonneg w h
  obtain ⟨h1, h2, h3⟩ := vmm_run_task_cases stksz w.sched vm func arg stack mem hng hnt
  cases mem with
  | none =>
    refine ⟨{ w with sched := w.sched }, ?_, h⟩
    simp [exec, h1 rfl]
  | some a =>
    have ha : a ∉ w.allocated := he
    cases stack with
    | none =>
      obtain ⟨thr1, e, hp⟩ := h2 a rfl rfl
      refine ⟨{ w with sched := { w.sched with thr := thr1 } }, ?_, ?_⟩
      · simp [exec, e]
      · apply wf_set_thr w _ h
        intro p hpa
        have hne : p ≠ a := by rintro rfl; exact ha hpa
        rw [hp p hne]; exact ⟨rfl, rfl⟩
    | some k =>
      obtain ⟨thr1, tick, req, e, hp, hta⟩ := h3 a k rfl rfl
      have h0 : (core_of { w with sched := { w.sched with thr := thr1 } }).wf := by
        apply wf_set_thr w _ h
        intro p hpa
        have hne : p ≠ a := by rintro rfl; exact ha hpa
        rw [hp p hne]; exact ⟨rfl, rfl⟩
      have hm := wf_adopt _ a h0 ha (by simp [core_of, hta, zeroed_thread])
      refine ⟨{ w with
          sched := { w.sched with thr := thr1,
                                  nr_unblk_tasks := w.sched.nr_unblk_tasks + 1,
                                  rnbl_tasks := w.sched.rnbl_tasks ++ [a],
                                  tick := tick, requests := req },
          allocated := a :: w.allocated }, ?_, ?_⟩
      · simp [exec, e]
      · convert hm using 1

/-- `create_guest` with fresh, distinct addresses keeps the invariant and does
not abort: on success the new pair is wired and unstarted, on failure nothing
is left allocated. -/
theorem exec_create_guest (stksz : Nat) (w : world) (vm : Option Nat) (gpcoreid : Nat)
    (memg memc stack : Option Nat) (h : (core_of w).wf)
    (hg : fresh w memg) (hc : fresh w memc) (hd : memg = none ∨ memg ≠ memc) :
    ∃ w1, exec stksz w (op.create_guest vm gpcoreid memg memc stack) = some w1 ∧
      (core_of w1).wf := by
  cases memg with
  | none =>
    cases memc with
    | none => exact ⟨_, rfl, h⟩
    | some c =>
      have hc1 : c ∉ w.allocated := hc
      refine ⟨_, rfl, ?_⟩
      apply wf_set_thr w _ h
      intro p hpa
      have hne : p ≠ c := by rintro rfl; exact hc1 hpa
      simp [create_guest_thread, alloc_vmm_thread, Function.update_noteq hne]
  | some g =>
    have hg1 : g ∉ w.allocated := hg
    cases memc with
    | none =>
      refine ⟨_, rfl, ?_⟩
      apply wf_set_thr w _ h
      intro p hpa
      have hne : p ≠ g := by rintro rfl; exact hg1 hpa
      simp [create_guest_thread, alloc_vmm_thread, Function.update_noteq hne]
    | some c =>
      have hc1 : c ∉ w.allocated := hc
      have hgc : g ≠ c := by
        rcases hd with hd | hd
        · cases hd
        · intro e; exact hd (by rw [e])
      cases stack with
      | none =>
        refine ⟨_, rfl, ?_⟩
        apply wf_set_thr w _ h
        intro p hpa
        have hne : p ≠ g := by rintro rfl; exact hg1 hpa
        have hne2 : p ≠ c := by rintro rfl; exact hc1 hpa
        simp [create_guest_thread, alloc_vmm_thread, Function.update_noteq hne,
            Function.update_noteq hne2]
      | some k =>
        refine ⟨_, rfl, ?_⟩
        have h0 : (core_of { w with sched :=
            (create_guest_thread stksz w.sched vm gpcoreid (some g) (some c) (some k)).2 }).wf := by
          apply wf_set_thr w _ h
          intro p hpa
          have hne : p ≠ g := by rintro rfl; exact hg1 hpa
          have hne2 : p ≠ c := by rintro rfl; exact hc1 hpa
          simp [create_guest_thread, alloc_vmm_thread, Function.update_noteq hne,
            Function.update_noteq hne2]
        have hm := wf_adopt_pair _ g c h0 hg1 hc1
          (by simp [core_of, create_guest_thread, alloc_vmm_thread, zeroed_thread,
                Function.update_noteq hgc, Function.update_noteq hgc.symm])
          (by simp [core_of, create_guest_thread, alloc_vmm_thread, zeroed_thread,
                Function.update_noteq hgc, Function.update_noteq hgc.symm])
          (by simp [core_of, create_guest_thread, alloc_vmm_thread, zeroed_thread,
                Function.update_noteq hgc, Function.update_noteq hgc.symm])
          (by simp [core_of, create_guest_thread, alloc_vmm_thread, zeroed_thread,
                Function.update_noteq hgc, Function.update_noteq hgc.symm])
        exact hm

/-- Either selection function returns null and leaves both queues as they
are, or returns the head of one queue and removes it; besides, only the cursor
may change. -/
theorem pick_trichotomy (s : sched_state) (b : Bool) :
    ∃ nc,
      (if b then pick_a_thread_plenty s else pick_a_thread_degraded s)
          = (none, { s with next_class := nc }) ∨
      (∃ v rest, s.rnbl_tasks = v :: rest ∧
        (if b then pick_a_thread_plenty s else pick_a_thread_degraded s)
          = (some v, { s with rnbl_tasks := rest, next_class := nc })) ∨
      (∃ v rest, s.rnbl_guests = v :: rest ∧
        (if b then pick_a_thread_plenty s else pick_a_thread_degraded s)
          = (some v, { s with rnbl_guests := rest, next_class := nc })) := by
  obtain ⟨thr, ud, qt, qg, nt, ng, nc, per, cvm, nv, tick, req⟩ := s
  cases b with
  | true =>
    refine ⟨nc, ?_⟩
    cases qt with
    | nil =>
      cases qg with
      | nil => exact Or.inl (by simp [pick_a_thread_plenty, __pop_first])
      | cons g gs =>
        exact Or.inr (Or.inr ⟨g, gs, rfl, by simp [pick_a_thread_plenty, __pop_first]⟩)
    | cons t ts =>
      exact Or.inr (Or.inl ⟨t, ts, rfl, by simp [pick_a_thread_plenty, __pop_first]⟩)
  | false =>
    by_cases hc : nc = GUEST
    · refine ⟨TASK, ?_⟩
      cases qg with
      | nil =>
        cases qt with
        | nil => exact Or.inl (by simp [pick_a_thread_degraded, __pop_first, hc])
        | cons t ts =>
          exact Or.inr (Or.inl ⟨t, ts, rfl,
            by simp [pick_a_thread_degraded, __pop_first, hc]⟩)
      | cons g gs =>
        exact Or.inr (Or.inr ⟨g, gs, rfl,
          by simp [pick_a_thread_degraded, __pop_first, hc]⟩)
    · refine ⟨GUEST, ?_⟩
      cases qt with
      | nil =>
        cases qg with
        | nil => exact Or.inl (by simp [pick_a_thread_degraded, __pop_first, hc])
        | cons g gs =>
          exact Or.inr (Or.inr ⟨g, gs, rfl,
            by simp [pick_a_thread_degraded, __pop_first, hc]⟩)
      | cons t ts =>
        exact Or.inr (Or.inl ⟨t, ts, rfl,
          by simp [pick_a_thread_degraded, __pop_first, hc]⟩)

/-- A selection keeps the invariant: the thread it returns, if any, leaves its
queue and runs. -/
theorem wf_pick (w : world) (b : Bool) (h : (core_of w).wf) :
    ((if b then pick_a_thread_plenty w.sched else pick_a_thread_degraded w.sched).1 = none ∧
      (core_of { w with sched :=
        (if b then pick_a_thread_plenty w.sched
         else pick_a_thread_degraded w.sched).2 }).wf) ∨
    (∃ v, (if b then pick_a_thread_plenty w.sched
           else pick_a_thread_degraded w.sched).1 = some v ∧
      (core_of { w with
        sched := (if b then pick_a_thread_plenty w.sched
                  else pick_a_thread_degraded w.sched).2,
        running := v :: w.running }).wf) := by
  obtain ⟨nc, e | ⟨v, rest, hq, e⟩ | ⟨v, rest, hq, e⟩⟩ := pick_trichotomy w.sched b
  · rw [e]; exact Or.inl ⟨rfl, h⟩
  · rw [e]
    refine Or.inr ⟨v, rfl, ?_⟩
    have hm := wf_pick_t (core_of w) v h (by simp [core_of, hq])
    convert hm using 1
    simp [core_of, hq]
  · rw [e]
    refine Or.inr ⟨v, rfl, ?_⟩
    have hm := wf_pick_g (core_of w) v h (by simp [core_of, hq])
    convert hm using 1
    simp [core_of, hq]

/-- `sched_entry` on a vcore whose current thread, if any, is running keeps the
invariant and does not abort. -/
theorem exec_sched_entry (stksz : Nat) (w : world) (cur : Option Nat) (tick_fired : Bool)
    (h : (core_of w).wf)
    (he : match cur with
          | none => True
          | some uth => uth ∈ w.running) :
    ∃ w1, exec stksz w (op.sched_entry cur tick_fired) = some w1 ∧ (core_of w1).wf := by
  obtain ⟨hng, hnt⟩ := counters_nonneg w h
  obtain ⟨b, tick, req, e⟩ := try_to_get_vcores_some w.sched hng hnt
  have hW1 : (core_of { w with sched := { w.sched with tick := tick, requests := req } }).wf := h
  cases cur with
  | none =>
    have hse : vmm_sched_entry w.sched none tick_fired
        = match (if b then pick_a_thread_plenty { w.sched with tick := tick, requests := req }
                 else pick_a_thread_degraded { w.sched with tick := tick, requests := req }).1 with
          | none => some (sched_exit.vcore_yield,
              (if b then pick_a_thread_plenty { w.sched with tick := tick, requests := req }
               else pick_a_thread_degraded { w.sched with tick := tick, requests := req }).2)
          | some vth => some (sched_exit.run vth,
              (if b then pick_a_thread_plenty { w.sched with tick := tick, requests := req }
               else pick_a_thread_degraded { w.sched with tick := tick, requests := req }).2) := by
      simp only [vmm_sched_entry, e, yield_current_uth]
      cases b <;> cases tick_fired <;> rfl
    rcases wf_pick { w with sched := { w.sched with tick := tick, requests := req } } b hW1
      with ⟨hn, hwf⟩ | ⟨v, hv, hwf⟩
    · refine ⟨_, ?_, hwf⟩
      simp only [exec, hse]
      simp only [] at hn
      rw [hn]
      rfl
    · refine ⟨_, ?_, hwf⟩
      simp only [exec, hse]
      simp only [] at hv
      rw [hv]
      rfl
  | some t =>
    by_cases hy : (!b && tick_fired) = true
    · have hb : b = false := by cases b <;> simp_all
      subst hb
      obtain ⟨tick2, req2, e2⟩ := enqueue_vmm_thread_some
        { w.sched with tick := tick, requests := req } t hng hnt
      obtain ⟨W2, hx, hwf2⟩ := exec_thread_paused stksz
        { w with sched := { w.sched with tick := tick, requests := req } } t hW1 he
      simp only [exec, vmm_thread_paused, e2, Option.some.injEq] at hx
      subst hx
      have hse : vmm_sched_entry w.sched (some t) tick_fired
          = match (pick_a_thread_degraded
              { insert_tail { w.sched with tick := tick, requests := req } t with
                tick := tick2, requests := req2 }).1 with
            | none => some (sched_exit.vcore_yield,
                (pick_a_thread_degraded
                  { insert_tail { w.sched with tick := tick, requests := req } t with
                    tick := tick2, requests := req2 }).2)
            | some vth => some (sched_exit.run vth,
                (pick_a_thread_degraded
                  { insert_tail { w.sched with tick := tick, requests := req } t with
                    tick := tick2, requests := req2 }).2) := by
        simp only [vmm_sched_entry, e, yield_current_uth, hy, if_true, e2, Option.map_some']
        rfl
      rcases wf_pick _ false hwf2 with ⟨hn, hwf⟩ | ⟨v, hv, hwf⟩
      · refine ⟨_, ?_, hwf⟩
        simp only [exec, hse]
        simp only [Bool.false_eq_true, if_false] at hn
        rw [hn]
        rfl
      · refine ⟨_, ?_, hwf⟩
        simp only [exec, hse]
        simp only [Bool.false_eq_true, if_false] at hv
        rw [hv]
        rfl
    · refine ⟨{ w with sched := { w.sched with tick := tick, requests := req } }, ?_, hW1⟩
      simp only [exec, vmm_sched_entry, e, hy]
      rfl

/-- Every call the protocol allows keeps the invariant and does not abort. -/
theorem exec_spec (stksz : Nat) (w : world) (o : op) (h : (core_of w).wf)
    (he : enabled w o) :
    ∃ w1, exec stksz w o = some w1 ∧ (core_of w1).wf := by
  cases o with
  | run_task vm func arg mem stack => exact exec_run_task stksz w vm func arg mem stack h he
  | create_guest vm gpcoreid memg memc stack =>
    exact exec_create_guest stksz w vm gpcoreid memg memc stack h he.1 he.2.1 he.2.2
  | destroy_guest gth => exact exec_destroy_guest stksz w gth h he
  | start_guest gth => exact exec_start_guest stksz w gth h he
  | thread_runnable uth => exact exec_thread_runnable stksz w uth h he
  | handle_syscall sysc =>
    simp only [enabled] at he
    cases hu : w.sched.u_data sysc with
    | none => rw [hu] at he; exact absurd he id
    | some uth =>
      rw [hu] at he
      exact exec_handle_syscall stksz w sysc uth h hu he.1 he.2
  | thread_paused uth => exact exec_thread_paused stksz w uth h he
  | thread_has_blocked uth flags => exact exec_thread_has_blocked stksz w uth flags h he
  | thread_blockon_sysc uth sysc registered =>
    exact exec_thread_blockon_sysc stksz w uth sysc registered h he
  | task_exit uth => exact exec_task_exit stksz w uth h he.1 he.2
  | refl_vm_fault uth => exact exec_refl_vm_fault stksz w uth h he.1 he.2
  | swap_to_gth uth => exact exec_swap_to_gth stksz w uth h he.1 he.2
  | sched_entry cur tick_fired => exact exec_sched_entry stksz w cur tick_fired h he
  | grant nv => exact exec_grant stksz w nv h

/-- The state after `vmm_lib_init` satisfies the invariant. -/
theorem init_wf (ustack_size ustacktop : Nat) (thr : Nat → vmm_thread) (nv : Int)
    (thread0 : Nat) (w : world)
    (h : world_init ustack_size ustacktop thr nv thread0 = some w) : (core_of w).wf := by
  simp only [world_init, vmm_lib_init, alloc_vmm_thread, Option.some.injEq] at h
  subst h
  constructor <;>
    simp [core_of, core.live, acct_thread_unblocked, zeroed_thread, static_init,
      countP_single]

/-- The invariant holds in every reachable state. -/
theorem reachable_wf (stksz : Nat) (w : world) (h : reachable stksz w) : (core_of w).wf := by
  induction h with
  | init us ut thr nv t0 w h => exact init_wf us ut thr nv t0 w h
  | step w w1 o _ he hx ih =>
    obtain ⟨w2, hx2, hwf⟩ := exec_spec stksz w o ih he
    rw [hx] at hx2
    cases hx2
    exact hwf

/-! ### The claims about reachable states -/

/-- Under the invariant `nr_unblk_tasks` is the number of task threads that are
running or in `rnbl_tasks`. -/
theorem tasks_count (w : world) (h : (core_of w).wf) :
    w.sched.nr_unblk_tasks
      = (((w.running ++ w.sched.rnbl_tasks).toFinset.filter
          (fun p => (w.sched.thr p).type = TASK)).card : Int) := by
  have hc := h.cnt_tasks
  have hnd : (w.running ++ w.sched.rnbl_tasks).Nodup := by
    have hle : ((w.running ++ w.sched.rnbl_tasks : List Nat) : Multiset Nat)
        ≤ (core_of w).live := by
      have e : (core_of w).live
          = ((w.running ++ w.sched.rnbl_tasks : List Nat) : Multiset Nat)
            + ((w.sched.rnbl_guests : Multiset Nat) + (w.blocked : Multiset Nat)
                + (w.unstarted : Multiset Nat)) := by
        simp only [core_of, core.live, ← Multiset.coe_add]; abel
      rw [e]; exact Multiset.le_add_right _ _
    exact Multiset.coe_nodup.1 (Multiset.nodup_of_le hle h.nodup)
  simp only [core_of, Multiset.coe_add, Multiset.coe_countP] at hc
  rw [hc, List.countP_eq_length_filter, ← List.toFinset_card_of_nodup (hnd.filter _),
    List.toFinset_filter]
  simp

/-- Under the invariant `nr_unblk_guests` is the number of pairs that have a
member running or in `rnbl_guests`. -/
theorem guests_count (w : world) (h : (core_of w).wf) :
    w.sched.nr_unblk_guests
      = ((w.gths.toFinset.filter (fun g => pair_unblocked w g = true)).card : Int) := by
  have hc := h.cnt_guests
  have hle : ((w.running ++ w.sched.rnbl_guests : List Nat) : Multiset Nat)
      ≤ (core_of w).live := by
    have e : (core_of w).live
        = ((w.running ++ w.sched.rnbl_guests : List Nat) : Multiset Nat)
          + ((w.sched.rnbl_tasks : Multiset Nat) + (w.blocked : Multiset Nat)
              + (w.unstarted : Multiset Nat)) := by
      simp only [core_of, core.live, ← Multiset.coe_add]; abel
    rw [e]; exact Multiset.le_add_right _ _
  have hnd : (w.running ++ w.sched.rnbl_guests).Nodup :=
    Multiset.coe_nodup.1 (Multiset.nodup_of_le hle h.nodup)
  have hlive : ∀ p ∈ w.running ++ w.sched.rnbl_guests, p ∈ (core_of w).live :=
    fun p hp => Multiset.mem_of_le hle (Multiset.mem_coe.2 hp)
  simp only [core_of, Multiset.coe_add, Multiset.coe_countP] at hc
  rw [hc, List.countP_eq_length_filter, ← List.toFinset_card_of_nodup (hnd.filter _)]
  congr 1
  apply Finset.card_bij
    (fun p _ => if (w.sched.thr p).type = GUEST then p else ((w.sched.thr p).buddy).getD 0)
  · intro p hp
    simp only [List.mem_toFinset, List.mem_filter, decide_eq_true_eq] at hp
    obtain ⟨hpR, hpt⟩ := hp
    simp only [Finset.mem_filter, List.mem_toFinset]
    rcases h.member p (hlive p hpR) hpt with hA | ⟨g, hg, hga⟩
    · have hty : (w.sched.thr p).type = GUEST := (h.pair p hA).1
      rw [if_pos hty]
      exact ⟨hA, by simp [pair_unblocked, hpR]⟩
    · obtain ⟨_, _, b, hb, hbt, hbb, _⟩ := h.pair g hg
      rw [hga] at hb; cases hb
      have hbt1 : (w.sched.thr p).type = CTLR := hbt
      have hbb1 : (w.sched.thr p).buddy = some g := hbb
      have hga1 : (w.sched.thr g).buddy = some p := hga
      rw [if_neg (by rw [hbt1]; simp), hbb1]
      exact ⟨hg, by simp [pair_unblocked, hga1, hpR]⟩
  · intro p hp q hq hpq
    simp only [List.mem_toFinset, List.mem_filter, decide_eq_true_eq] at hp hq
    obtain ⟨hpR, hpt⟩ := hp
    obtain ⟨hqR, hqt⟩ := hq
    rcases h.member p (hlive p hpR) hpt with hA | ⟨g, hg, hga⟩
    · have hty : (w.sched.thr p).type = GUEST := (h.pair p hA).1
      rw [if_pos hty] at hpq
      rcases h.member q (hlive q hqR) hqt with hB | ⟨g2, hg2, hga2⟩
      · have hty2 : (w.sched.thr q).type = GUEST := (h.pair q hB).1
        rw [if_pos hty2] at hpq
        exact hpq
      · obtain ⟨_, _, b, hb, hbt, hbb, _, hex⟩ := h.pair g2 hg2
        rw [hga2] at hb; cases hb
        have hbt1 : (w.sched.thr q).type = CTLR := hbt
        have hbb1 : (w.sched.thr q).buddy = some g2 := hbb
        rw [if_neg (by rw [hbt1]; simp), hbb1] at hpq
        simp only [Option.getD_some] at hpq
        subst hpq
        exact absurd ⟨hlive p hpR, hlive q hqR⟩ hex
    · obtain ⟨_, _, b, hb, hbt, hbb, _, hex⟩ := h.pair g hg
      rw [hga] at hb; cases hb
      have hbt1 : (w.sched.thr p).type = CTLR := hbt
      have hbb1 : (w.sched.thr p).buddy = some g := hbb
      rw [if_neg (by rw [hbt1]; simp), hbb1] at hpq
      simp only [Option.getD_some] at hpq
      rcases h.member q (hlive q hqR) hqt with hB | ⟨g2, hg2, hga2⟩
      · have hty2 : (w.sched.thr q).type = GUEST := (h.pair q hB).1
        rw [if_pos hty2] at hpq
        subst hpq
        exact absurd ⟨hlive g hqR, hlive p hpR⟩ hex
      · obtain ⟨_, _, b2, hb2, hbt2, hbb2, _⟩ := h.pair g2 hg2
        rw [hga2] at hb2; cases hb2
        have hbt3 : (w.sched.thr q).type = CTLR := hbt2
        have hbb3 : (w.sched.thr q).buddy = some g2 := hbb2
        rw [if_neg (by rw [hbt3]; simp), hbb3] at hpq
        simp only [Option.getD_some] at hpq
        subst hpq
        have e1 : (core_of w).bud g = some p := hga
        rw [hga2] at e1
        cases e1; rfl
  · intro g hg
    simp only [Finset.mem_filter, List.mem_toFinset] at hg
    obtain ⟨hgG, hu⟩ := hg
    obtain ⟨hgt, _, b, hb, hbt, hbb, _⟩ := h.pair g hgG
    have hgt1 : (w.sched.thr g).type = GUEST := hgt
    have hb1 : (w.sched.thr g).buddy = some b := hb
    have hbt1 : (w.sched.thr b).type = CTLR := hbt
    have hbb1 : (w.sched.thr b).buddy = some g := hbb
    simp only [pair_unblocked, hb1, Bool.or_eq_true, decide_eq_true_eq] at hu
    rcases hu with hu | hu
    · refine ⟨g, ?_, by rw [if_pos hgt1]⟩
      simp only [List.mem_toFinset, List.mem_filter, decide_eq_true_eq]
      exact ⟨hu, by rw [hgt1]; simp⟩
    · refine ⟨b, ?_, by rw [if_neg (by rw [hbt1]; simp), hbb1]; rfl⟩
      simp only [List.mem_toFinset, List.mem_filter, decide_eq_true_eq]
      exact ⟨hu, by rw [hbt1]; simp⟩

/-- The example is reachable up to the creation of the task. -/
theorem demo_tasked_reachable : reachable 4096 demo_tasked := by
  have h0 : reachable 4096 demo_init :=
    reachable.init 0 0 (fun _ => zeroed_thread none TASK) 1 1 demo_init rfl
  have h1 : reachable 4096 demo_created :=
    reachable.step demo_init demo_created
      (op.create_guest none 0 (some 10) (some 11) (some 500)) h0 (by decide) rfl
  have h2 : reachable 4096 demo_started :=
    reachable.step demo_created demo_started (op.start_guest 10) h1 (by decide) rfl
  exact reachable.step demo_started demo_tasked
    (op.run_task none (some 7) none (some 2) (some 600)) h2 (by decide) rfl

/-- The example world is reachable. -/
theorem demo_reachable : reachable 4096 demo_world := by
  have h4 : reachable 4096 demo_picked :=
    reachable.step demo_tasked demo_picked (op.sched_entry none false)
      demo_tasked_reachable (by decide) rfl
  exact reachable.step demo_picked demo_world (op.refl_vm_fault 10) h4 (by decide) rfl

/-- `try_to_get_vcores` leaves both queues as they are. -/
theorem try_to_get_vcores_queues (s s1 : sched_state) (b : Bool)
    (h : try_to_get_vcores s = some (b, s1)) :
    s1.rnbl_guests = s.rnbl_guests ∧ s1.rnbl_tasks = s.rnbl_tasks ∧ s1.thr = s.thr := by
  unfold try_to_get_vcores at h
  split at h
  · cases h
  · split at h <;> (cases h; exact ⟨rfl, rfl, rfl⟩)

/-- C4: in every state reachable from the state after `vmm_lib_init` through
calls that follow the runtime protocol, `nr_unblk_tasks` is the number of task
threads that are running or in `rnbl_tasks`, and `nr_unblk_guests` is the
number of guest/controller pairs that have a member running or in
`rnbl_guests`; the pairs counted are wired both ways and every running or
queued guest-class thread is a member of one of them. -/
theorem unblocked_counters_are_counts (stksz : Nat) (w : world)
    (h : reachable stksz w) :
    w.sched.nr_unblk_tasks
      = (((w.running ++ w.sched.rnbl_tasks).toFinset.filter
          (fun p => (w.sched.thr p).type = TASK)).card : Int) ∧
    w.sched.nr_unblk_guests
      = ((w.gths.toFinset.filter (fun g => pair_unblocked w g = true)).card : Int) ∧
    (∀ g ∈ w.gths, (w.sched.thr g).type = GUEST ∧
      ∃ c, (w.sched.thr g).buddy = some c ∧ (w.sched.thr c).type = CTLR ∧
        (w.sched.thr c).buddy = some g) ∧
    (∀ p ∈ w.running ++ w.sched.rnbl_guests, (w.sched.thr p).type ≠ TASK →
      p ∈ w.gths ∨ ∃ g ∈ w.gths, (w.sched.thr g).buddy = some p) := by
  have hwf := reachable_wf stksz w h
  refine ⟨tasks_count w hwf, guests_count w hwf, ?_, ?_⟩
  · intro g hg
    obtain ⟨h1, _, b, h3, h4, h5, _⟩ := hwf.pair g (by simpa [core_of] using hg)
    exact ⟨h1, b, h3, h4, h5⟩
  · intro p hp hne
    have hl : p ∈ (core_of w).live := by
      simp only [core_of, core.live, Multiset.mem_add, Multiset.mem_coe]
      rcases List.mem_append.1 hp with hp | hp <;> tauto
    rcases hwf.member p hl hne with h1 | ⟨g, hg, hb⟩
    · exact Or.inl (by simpa [core_of] using h1)
    · exact Or.inr ⟨g, by simpa [core_of] using hg, hb⟩

/-- C4 on the example world: thread0 runs and task 2 is queued, so two tasks
are counted; controller 11 runs for the pair of guest 10, so one pair is
counted. -/
theorem unblocked_counters_are_counts_witness :
    demo_world.sched.nr_unblk_tasks = 2 ∧ demo_world.sched.nr_unblk_guests = 1 ∧
    demo_world.running = [11, 1] ∧ demo_world.sched.rnbl_tasks = [2] ∧
    demo_world.sched.rnbl_guests = [] ∧ demo_world.gths = [10] ∧
    demo_world.sched.nr_unblk_tasks
      = (((demo_world.running ++ demo_world.sched.rnbl_tasks).toFinset.filter
          (fun p => (demo_world.sched.thr p).type = TASK)).card : Int) ∧
    demo_world.sched.nr_unblk_guests
      = ((demo_world.gths.toFinset.filter
          (fun g => pair_unblocked demo_world g = true)).card : Int) :=
  ⟨rfl, rfl, rfl, rfl, rfl, rfl,
    (unblocked_counters_are_counts 4096 demo_world demo_reachable).1,
    (unblocked_counters_are_counts 4096 demo_world demo_reachable).2.1⟩

/-- C5: in every reachable state both unblocked counters are at least 0, so
the assertions of `desired_nr_vcores` hold when it is read there; and no call
the protocol allows aborts, so they hold at the reads made during the calls
too. -/
theorem counters_never_negative (stksz : Nat) (w : world) (h : reachable stksz w) :
    0 ≤ w.sched.nr_unblk_guests ∧ 0 ≤ w.sched.nr_unblk_tasks ∧
    desired_nr_vcores w.sched
      = some (to_int (w.sched.nr_unblk_guests + w.sched.nr_unblk_tasks)) ∧
    (∀ o, enabled w o → ∃ w1, exec stksz w o = some w1) := by
  have hwf := reachable_wf stksz w h
  obtain ⟨hg, ht⟩ := counters_nonneg w hwf
  refine ⟨hg, ht, by simp [desired_nr_vcores, hg, ht], ?_⟩
  intro o he
  obtain ⟨w1, hx, _⟩ := exec_spec stksz w o hwf he
  exact ⟨w1, hx⟩

/-- C5 on the example world. -/
theorem counters_never_negative_witness :
    0 ≤ demo_world.sched.nr_unblk_guests ∧ 0 ≤ demo_world.sched.nr_unblk_tasks ∧
    desired_nr_vcores demo_world.sched = some 3 :=
  ⟨(counters_never_negative 4096 demo_world demo_reachable).1,
   (counters_never_negative 4096 demo_world demo_reachable).2.1,
   (counters_never_negative 4096 demo_world demo_reachable).2.2.1⟩

/-- C6: `enqueue_vmm_thread` appends a GUEST or CTLR thread to `rnbl_guests`
and a TASK thread to `rnbl_tasks`, leaving the other queue as it is, and the
selection functions only remove the head of a queue; in every reachable state
`rnbl_guests` holds only guest and controller threads, `rnbl_tasks` holds only
task threads, and no thread occurs twice in the two queues together. -/
theorem thread_in_at_most_one_queue (stksz : Nat) (w : world) (h : reachable stksz w) :
    (∀ p ∈ w.sched.rnbl_guests,
      (w.sched.thr p).type = GUEST ∨ (w.sched.thr p).type = CTLR) ∧
    (∀ p ∈ w.sched.rnbl_tasks, (w.sched.thr p).type = TASK) ∧
    (w.sched.rnbl_guests ++ w.sched.rnbl_tasks).Nodup ∧
    (∀ s vth s1, enqueue_vmm_thread s vth = some s1 →
      ((s.thr vth).type = GUEST ∨ (s.thr vth).type = CTLR →
        s1.rnbl_guests = s.rnbl_guests ++ [vth] ∧ s1.rnbl_tasks = s.rnbl_tasks) ∧
      ((s.thr vth).type = TASK →
        s1.rnbl_tasks = s.rnbl_tasks ++ [vth] ∧ s1.rnbl_guests = s.rnbl_guests)) ∧
    (∀ s, (pick_a_thread_plenty s).2.rnbl_guests <:+ s.rnbl_guests ∧
      (pick_a_thread_plenty s).2.rnbl_tasks <:+ s.rnbl_tasks ∧
      (pick_a_thread_degraded s).2.rnbl_guests <:+ s.rnbl_guests ∧
      (pick_a_thread_degraded s).2.rnbl_tasks <:+ s.rnbl_tasks) := by
  have hwf := reachable_wf stksz w h
  refine ⟨?_, ?_, ?_, ?_, ?_⟩
  · intro p hp
    have := hwf.q_guests p (by simpa [core_of] using hp)
    simp only [core_of] at this
    cases hty : (w.sched.thr p).type <;> simp_all
  · intro p hp
    exact hwf.q_tasks p (by simpa [core_of] using hp)
  · have hle : ((w.sched.rnbl_guests ++ w.sched.rnbl_tasks : List Nat) : Multiset Nat)
        ≤ (core_of w).live := by
      have e : (core_of w).live
          = ((w.sched.rnbl_guests ++ w.sched.rnbl_tasks : List Nat) : Multiset Nat)
            + ((w.running : Multiset Nat) + (w.blocked : Multiset Nat)
                + (w.unstarted : Multiset Nat)) := by
        simp only [core_of, core.live, ← Multiset.coe_add]; abel
      rw [e]; exact Multiset.le_add_right _ _
    exact Multiset.coe_nodup.1 (Multiset.nodup_of_le hle hwf.nodup)
  · intro s vth s1 he
    unfold enqueue_vmm_thread at he
    cases hr : try_to_get_vcores (insert_tail s vth) with
    | none => rw [hr] at he; cases he
    | some r =>
      obtain ⟨b, s2⟩ := r
      rw [hr] at he
      simp only [Option.map_some', Option.some.injEq] at he
      subst he
      obtain ⟨e1, e2, _⟩ := try_to_get_vcores_queues _ _ _ hr
      rw [e1, e2]
      constructor
      · intro hty
        rcases hty with hty | hty <;> simp [insert_tail, hty]
      · intro hty
        simp [insert_tail, hty]
  · intro s
    have hp := pick_trichotomy s true
    have hd := pick_trichotomy s false
    simp only [if_true, Bool.false_eq_true, if_false] at hp hd
    obtain ⟨nc1, e | ⟨v, rest, hq, e⟩ | ⟨v, rest, hq, e⟩⟩ := hp <;>
    obtain ⟨nc2, e2 | ⟨v2, rest2, hq2, e2⟩ | ⟨v2, rest2, hq2, e2⟩⟩ := hd <;>
    (rw [e, e2]; simp_all [List.suffix_cons, List.suffix_refl])

/-- C6 on the example world, once guest 10 has been started and task 2 created:
guest 10 is alone in `rnbl_guests` and task 2 alone in `rnbl_tasks`. -/
theorem thread_in_at_most_one_queue_witness :
    demo_tasked.sched.rnbl_guests = [10] ∧ demo_tasked.sched.rnbl_tasks = [2] ∧
    (∀ p ∈ demo_tasked.sched.rnbl_guests,
      (demo_tasked.sched.thr p).type = GUEST ∨ (demo_tasked.sched.thr p).type = CTLR) ∧
    (∀ p ∈ demo_tasked.sched.rnbl_tasks, (demo_tasked.sched.thr p).type = TASK) ∧
    (demo_tasked.sched.rnbl_guests ++ demo_tasked.sched.rnbl_tasks).Nodup := by
  have h3 : reachable 4096 demo_tasked := demo_tasked_reachable
  exact ⟨rfl, rfl, (thread_in_at_most_one_queue 4096 demo_tasked h3).1,
    (thread_in_at_most_one_queue 4096 demo_tasked h3).2.1,
    (thread_in_at_most_one_queue 4096 demo_tasked h3).2.2.1⟩

/-! ### Pausing and dispatching -/

/-- C11: `vmm_thread_paused` appends the thread at the tail of the queue of its
class and leaves both unblocked counters and the other queue exactly as they
were.  The counters are assumed to pass the assertions of
`desired_nr_vcores`. -/
theorem vmm_thread_paused_spec (s : sched_state) (uth : Nat)
    (hg : 0 ≤ s.nr_unblk_guests) (ht : 0 ≤ s.nr_unblk_tasks) :
    ∃ s1, vmm_thread_paused s uth = some s1 ∧
      s1.nr_unblk_guests = s.nr_unblk_guests ∧
      s1.nr_unblk_tasks = s.nr_unblk_tasks ∧
      ((s.thr uth).type = TASK →
        s1.rnbl_tasks = s.rnbl_tasks ++ [uth] ∧ s1.rnbl_guests = s.rnbl_guests) ∧
      ((s.thr uth).type = GUEST ∨ (s.thr uth).type = CTLR →
        s1.rnbl_guests = s.rnbl_guests ++ [uth] ∧ s1.rnbl_tasks = s.rnbl_tasks) := by
  obtain ⟨tick, requests, h⟩ := enqueue_vmm_thread_some s uth hg ht
  refine ⟨_, h, ?_, ?_, ?_, ?_⟩
  · cases hty : (s.thr uth).type <;> simp [insert_tail, hty]
  · cases hty : (s.thr uth).type <;> simp [insert_tail, hty]
  · intro hty
    simp [insert_tail, hty]
  · intro hty
    rcases hty with hty | hty <;> simp [insert_tail, hty]

/-- C11 on a concrete state: controller 4 is paused while guest 1 and task 12
are queued, with two guests and one task counted. -/
theorem vmm_thread_paused_spec_witness :
    ∃ s1, vmm_thread_paused
        { static_init (fun a => zeroed_thread none (if a < 10 then CTLR else TASK)) 1 with
          rnbl_guests := [1], rnbl_tasks := [12],
          nr_unblk_guests := 2, nr_unblk_tasks := 1 } 4 = some s1 ∧
      s1.nr_unblk_guests = 2 ∧ s1.nr_unblk_tasks = 1 ∧
      s1.rnbl_guests = [1, 4] ∧ s1.rnbl_tasks = [12] := by
  obtain ⟨s1, h, h1, h2, _, h4⟩ := vmm_thread_paused_spec
    { static_init (fun a => zeroed_thread none (if a < 10 then CTLR else TASK)) 1 with
      rnbl_guests := [1], rnbl_tasks := [12],
      nr_unblk_guests := 2, nr_unblk_tasks := 1 } 4 (by decide) (by decide)
  exact ⟨s1, h, h1, h2, h4 (Or.inr rfl)⟩

/-- A run of `enqueue_vmm_thread` only appends to the queues; the cursor and the
thread objects are as they were. -/
theorem enqueue_all_frame (l : List Nat) (s s2 : sched_state)
    (h : enqueue_all s l = some s2) :
    s.rnbl_tasks <+: s2.rnbl_tasks ∧ s.rnbl_guests <+: s2.rnbl_guests ∧
    s2.next_class = s.next_class ∧ s2.thr = s.thr := by
  induction l generalizing s with
  | nil =>
    simp only [enqueue_all, Option.some.injEq] at h
    subst h
    exact ⟨List.prefix_refl _, List.prefix_refl _, rfl, rfl⟩
  | cons v l ih =>
    simp only [enqueue_all] at h
    cases he : enqueue_vmm_thread s v with
    | none => rw [he] at h; cases h
    | some s1 =>
      rw [he] at h
      obtain ⟨h1, h2, h3, h4⟩ := ih s1 h
      unfold enqueue_vmm_thread at he
      cases hr : try_to_get_vcores (insert_tail s v) with
      | none => rw [hr] at he; cases he
      | some r =>
        obtain ⟨b, s3⟩ := r
        rw [hr] at he
        simp only [Option.map_some', Option.some.injEq] at he
        subst he
        have hn : s3.next_class = (insert_tail s v).next_class := by
          unfold try_to_get_vcores at hr
          split at hr
          · cases hr
          · split at hr <;> (cases hr; rfl)
        obtain ⟨e1, e2, e3⟩ := try_to_get_vcores_queues _ _ _ hr
        rw [e2] at h1
        rw [e1] at h2
        rw [hn] at h3
        rw [e3] at h4
        have k1 : s.rnbl_tasks <+: (insert_tail s v).rnbl_tasks := by
          unfold insert_tail; split <;> simp
        have k2 : s.rnbl_guests <+: (insert_tail s v).rnbl_guests := by
          unfold insert_tail; split <;> simp
        have k3 : (insert_tail s v).next_class = s.next_class := by
          unfold insert_tail; split <;> rfl
        have k4 : (insert_tail s v).thr = s.thr := by
          unfold insert_tail; split <;> rfl
        exact ⟨k1.trans h1, k2.trans h2, h3.trans k3, h4.trans k4⟩

/-- C20: take two consecutive calls of `pick_a_thread_degraded`, the queues
being only appended to in between, for any cursor and any queues.  If the task
queue, holding tasks only, is not empty before the first call and the first
call returns a thread that is no task, the second call returns the head of the
task queue, a task; if the guest queue, holding no task, is not empty before
the first call and the first call returns a task, the second call returns the
head of the guest queue, a guest-class thread. -/
theorem degraded_no_class_passed_twice (s s2 : sched_state) (v : Nat)
    (h1 : (pick_a_thread_degraded s).1 = some v)
    (hc : s2.next_class = (pick_a_thread_degraded s).2.next_class)
    (hpt : (pick_a_thread_degraded s).2.rnbl_tasks <+: s2.rnbl_tasks)
    (hpg : (pick_a_thread_degraded s).2.rnbl_guests <+: s2.rnbl_guests) :
    (∀ t ts, s.rnbl_tasks = t :: ts →
      (∀ p ∈ s.rnbl_tasks, (s.thr p).type = TASK) → (s.thr v).type ≠ TASK →
      (pick_a_thread_degraded s2).1 = some t ∧ (s.thr t).type = TASK) ∧
    (∀ g gs, s.rnbl_guests = g :: gs →
      (∀ p ∈ s.rnbl_guests, (s.thr p).type ≠ TASK) → (s.thr v).type = TASK →
      (pick_a_thread_degraded s2).1 = some g ∧ (s.thr g).type ≠ TASK) := by
  constructor
  · intro t ts hq hty hv
    have htt : (s.thr t).type = TASK := hty t (by rw [hq]; exact List.mem_cons_self _ _)
    refine ⟨?_, htt⟩
    by_cases hcur : s.next_class = GUEST
    · cases hqg : s.rnbl_guests with
      | nil =>
        have e := (pick_degraded_guest_first s hcur).2.1 t ts hqg hq
        rw [e] at h1
        simp only [Option.some.injEq] at h1
        subst h1
        exact absurd htt hv
      | cons g gs =>
        have e := (pick_degraded_guest_first s hcur).1 g gs hqg
        rw [e] at hc hpt
        simp only at hc hpt
        rw [hq] at hpt
        obtain ⟨extra, hx⟩ := hpt
        have e2 := (pick_degraded_task_first s2 (by rw [hc]; simp)).1 t (ts ++ extra)
          (by rw [← hx]; rfl)
        rw [e2]
    · have e := (pick_degraded_task_first s hcur).1 t ts hq
      rw [e] at h1
      simp only [Option.some.injEq] at h1
      subst h1
      exact absurd htt hv
  · intro g gs hq hty hv
    have hgt : (s.thr g).type ≠ TASK := hty g (by rw [hq]; exact List.mem_cons_self _ _)
    refine ⟨?_, hgt⟩
    by_cases hcur : s.next_class = GUEST
    · have e := (pick_degraded_guest_first s hcur).1 g gs hq
      rw [e] at h1
      simp only [Option.some.injEq] at h1
      subst h1
      exact absurd hv hgt
    · cases hqt : s.rnbl_tasks with
      | nil =>
        have e := (pick_degraded_task_first s hcur).2.1 g gs hqt hq
        rw [e] at h1
        simp only [Option.some.injEq] at h1
        subst h1
        exact absurd hv hgt
      | cons t ts =>
        have e := (pick_degraded_task_first s hcur).1 t ts hqt
        rw [e] at hc hpg
        simp only at hc hpg
        rw [hq] at hpg
        obtain ⟨extra, hx⟩ := hpg
        have e2 := (pick_degraded_guest_first s2 hc).1 g (gs ++ extra)
          (by rw [← hx]; rfl)
        rw [e2]

/-- C20 on a concrete run: cursor on the guest class, guest 1 and task 11
queued.  The first call returns guest 1; guest 2 is then queued; the second
call returns task 11 and not guest 2. -/
theorem degraded_no_class_passed_twice_witness :
    (pick_a_thread_degraded
      { static_init (fun a => zeroed_thread none (if a < 10 then GUEST else TASK)) 0 with
        rnbl_guests := [1], rnbl_tasks := [11] }).1 = some 1 ∧
    ∃ s2, enqueue_all
        (pick_a_thread_degraded
          { static_init (fun a => zeroed_thread none (if a < 10 then GUEST else TASK)) 0 with
            rnbl_guests := [1], rnbl_tasks := [11] }).2 [2] = some s2 ∧
      s2.rnbl_guests = [2] ∧
      (pick_a_thread_degraded s2).1 = some 11 := by
  refine ⟨rfl, ?_⟩
  obtain ⟨s2, h, hg, _, _⟩ := enqueue_all_spec [2]
    (pick_a_thread_degraded
      { static_init (fun a => zeroed_thread none (if a < 10 then GUEST else TASK)) 0 with
        rnbl_guests := [1], rnbl_tasks := [11] }).2 (by decide) (by decide)
  obtain ⟨f1, f2, f3, _⟩ := enqueue_all_frame _ _ _ h
  exact ⟨s2, h, hg,
    ((degraded_no_class_passed_twice
      { static_init (fun a => zeroed_thread none (if a < 10 then GUEST else TASK)) 0 with
        rnbl_guests := [1], rnbl_tasks := [11] } s2 1 rfl f3 f1 f2).1 11 [] rfl
      (by decide) (by decide)).1⟩

/-! ### Token passing, faults and creation -/

/-- C12: the token of a pair is passed without the run queues or the counters.
Reflecting a VM exit of guest `g` hands the vcore to the buddy of `g`, and
after a handled exit the yield callback of the controller hands it to the
buddy of the controller; each step returns the scheduler state it was given,
so `rnbl_guests`, `rnbl_tasks`, `nr_unblk_guests` and `nr_unblk_tasks` are
unchanged across both, and for a pair with `g.buddy.buddy == g` the thread
resumed is `g`. -/
theorem token_passed_directly (s : sched_state) (g c : Nat)
    (hb : (s.thr g).buddy = some c) :
    vmm_thread_refl_vm_fault s g = some (c, s) ∧
    __swap_to_gth s c = ((s.thr c).buddy, s) ∧
    __ctlr_entry s c true = (ctlr_exit.run (s.thr c).buddy, s) ∧
    (∀ s1 s2 r, vmm_thread_refl_vm_fault s g = some (c, s1) →
      __ctlr_entry s1 c true = (r, s2) →
      s2.rnbl_guests = s.rnbl_guests ∧ s2.rnbl_tasks = s.rnbl_tasks ∧
      s2.nr_unblk_guests = s.nr_unblk_guests ∧ s2.nr_unblk_tasks = s.nr_unblk_tasks ∧
      s1.rnbl_guests = s.rnbl_guests ∧ s1.rnbl_tasks = s.rnbl_tasks ∧
      s1.nr_unblk_guests = s.nr_unblk_guests ∧ s1.nr_unblk_tasks = s.nr_unblk_tasks) ∧
    ((s.thr c).buddy = some g →
      __swap_to_gth s c = (some g, s) ∧
      __ctlr_entry s c true = (ctlr_exit.run (some g), s)) := by
  refine ⟨by simp [vmm_thread_refl_vm_fault, hb], rfl, rfl, ?_, ?_⟩
  · intro s1 s2 r h1 h2
    simp only [vmm_thread_refl_vm_fault, hb, Option.some.injEq, Prod.mk.injEq, true_and] at h1
    subst h1
    simp only [__ctlr_entry, __swap_to_gth, Bool.not_true, Bool.false_eq_true, if_false,
      Prod.mk.injEq] at h2
    obtain ⟨_, h2⟩ := h2
    subst h2
    exact ⟨rfl, rfl, rfl, rfl, rfl, rfl, rfl, rfl⟩
  · intro hbb
    simp [__swap_to_gth, __ctlr_entry, hbb]

/-- C12 on the example: guest 10 runs on a vcore; its VM exit hands the vcore
to controller 11, and the swap back hands it to guest 10, both queues and
counters of the example untouched. -/
theorem token_passed_directly_witness :
    vmm_thread_refl_vm_fault demo_picked.sched 10 = some (11, demo_picked.sched) ∧
    __ctlr_entry demo_picked.sched 11 true
      = (ctlr_exit.run (some 10), demo_picked.sched) ∧
    demo_picked.sched.rnbl_guests = [] ∧ demo_picked.running = [10, 1] :=
  ⟨(token_passed_directly demo_picked.sched 10 11 rfl).1,
   ((token_passed_directly demo_picked.sched 10 11 rfl).2.2.2.2 rfl).2, rfl, rfl⟩

/-- C13: `vmm_thread_refl_hw_fault` recovers a fault exactly when it is a page
fault whose error code has `PF_VMR_BACKED`: it then issues the populate call
for `aux` and one page, blocks the thread on it through
`__block_uthread_on_async_sysc` and returns; for every other trap number or
error code it leaves through `refl_error`, which exits with status -1, having
issued no call and left the scheduler state, hence the queues and counters, as
it was. -/
theorem vmm_thread_refl_hw_fault_spec (hw_trap_page_fault pf_vmr_backed : Nat)
    (block_on : sched_state → Nat → Option sched_state)
    (s : sched_state) (uth trap_nr err aux : Nat) :
    (trap_nr = hw_trap_page_fault → err &&& pf_vmr_backed ≠ 0 →
      ∀ s1, block_on s uth = some s1 →
        vmm_thread_refl_hw_fault hw_trap_page_fault pf_vmr_backed block_on s uth
            trap_nr err aux
          = some (hw_fault_exit.returned [{ va := aux, nr_pages := 1 }] s1)) ∧
    (¬ (trap_nr = hw_trap_page_fault ∧ err &&& pf_vmr_backed ≠ 0) →
      vmm_thread_refl_hw_fault hw_trap_page_fault pf_vmr_backed block_on s uth
          trap_nr err aux
        = some (hw_fault_exit.fatal (refl_error trap_nr err aux) [] s)) ∧
    (refl_error trap_nr err aux).status = -1 ∧
    ((∃ calls s1, vmm_thread_refl_hw_fault hw_trap_page_fault pf_vmr_backed block_on s uth
          trap_nr err aux = some (hw_fault_exit.returned calls s1)) →
      trap_nr = hw_trap_page_fault ∧ err &&& pf_vmr_backed ≠ 0) := by
  have hfatal : ¬ (trap_nr = hw_trap_page_fault ∧ err &&& pf_vmr_backed ≠ 0) →
      vmm_thread_refl_hw_fault hw_trap_page_fault pf_vmr_backed block_on s uth
          trap_nr err aux
        = some (hw_fault_exit.fatal (refl_error trap_nr err aux) [] s) := by
    intro h
    by_cases ht : trap_nr = hw_trap_page_fault
    · have he : err &&& pf_vmr_backed = 0 := by
        by_contra hne
        exact h ⟨ht, hne⟩
      simp [vmm_thread_refl_hw_fault, handle_page_fault, ht, he]
    · simp [vmm_thread_refl_hw_fault, ht]
  refine ⟨?_, hfatal, rfl, ?_⟩
  · intro ht he s1 hs1
    simp [vmm_thread_refl_hw_fault, handle_page_fault, ht, he, hs1]
  · rintro ⟨calls, s1, h⟩
    by_contra hne
    rw [hfatal hne] at h
    cases h

/-- C13 on concrete inputs, with trap number 14 for the page fault and bit 8
for `PF_VMR_BACKED`, the thread blocking as the scheduler's
`thread_blockon_sysc` does when the registration succeeds: a backed page fault
of task 12 at address 4096 issues the populate call and leaves one task less
counted; a page fault that is not backed, and a trap 13, are fatal. -/
theorem vmm_thread_refl_hw_fault_spec_witness :
    (∃ s1, vmm_thread_refl_hw_fault 14 8
        (fun s uth => __block_uthread_on_async_sysc s uth 900 true)
        { static_init (fun a => zeroed_thread none (if a < 10 then GUEST else TASK)) 1 with
          nr_unblk_tasks := 1 } 12 14 9 4096
        = some (hw_fault_exit.returned [{ va := 4096, nr_pages := 1 }] s1) ∧
      s1.nr_unblk_tasks = 0 ∧ s1.u_data 900 = some 12) ∧
    vmm_thread_refl_hw_fault 14 8
        (fun s uth => __block_uthread_on_async_sysc s uth 900 true)
        { static_init (fun a => zeroed_thread none (if a < 10 then GUEST else TASK)) 1 with
          nr_unblk_tasks := 1 } 12 14 1 4096
      = some (hw_fault_exit.fatal { trap_nr := 14, err := 1, aux := 4096, status := -1 } []
          { static_init (fun a => zeroed_thread none (if a < 10 then GUEST else TASK)) 1 with
            nr_unblk_tasks := 1 }) ∧
    vmm_thread_refl_hw_fault 14 8
        (fun s uth => __block_uthread_on_async_sysc s uth 900 true)
        { static_init (fun a => zeroed_thread none (if a < 10 then GUEST else TASK)) 1 with
          nr_unblk_tasks := 1 } 12 13 9 4096
      = some (hw_fault_exit.fatal { trap_nr := 13, err := 9, aux := 4096, status := -1 } []
          { static_init (fun a => zeroed_thread none (if a < 10 then GUEST else TASK)) 1 with
            nr_unblk_tasks := 1 }) :=
  ⟨⟨_, (vmm_thread_refl_hw_fault_spec 14 8
      (fun s uth => __block_uthread_on_async_sysc s uth 900 true)
      { static_init (fun a => zeroed_thread none (if a < 10 then GUEST else TASK)) 1 with
        nr_unblk_tasks := 1 } 12 14 9 4096).1 rfl (by decide) _ rfl, rfl, rfl⟩,
   (vmm_thread_refl_hw_fault_spec 14 8
      (fun s uth => __block_uthread_on_async_sysc s uth 900 true)
      { static_init (fun a => zeroed_thread none (if a < 10 then GUEST else TASK)) 1 with
        nr_unblk_tasks := 1 } 12 14 1 4096).2.1 (by decide),
   (vmm_thread_refl_hw_fault_spec 14 8
      (fun s uth => __block_uthread_on_async_sysc s uth 900 true)
      { static_init (fun a => zeroed_thread none (if a < 10 then GUEST else TASK)) 1 with
        nr_unblk_tasks := 1 } 12 13 9 4096).2.1 (by decide)⟩

/-- C14: whenever `create_guest_thread(vm, gpcoreid)` returns a guest thread
`gth`, the two objects being at distinct addresses, the pair is fully wired:
`gth` is a GUEST, its buddy is a CTLR whose buddy is `gth`,
`gth.gpc_id == gpcoreid` and both reference `vm`; it returns a guest exactly
when the two thread objects and the controller's stack were all allocated, and
null whenever one of the three allocations fails. -/
theorem create_guest_thread_spec (stksz : Nat) (s : sched_state) (vm : Option Nat)
    (gpcoreid : Nat) (memg memc stack : Option Nat) :
    (∀ gth, (create_guest_thread stksz s vm gpcoreid memg memc stack).1 = some gth →
      memg ≠ memc →
      memg = some gth ∧
      ((create_guest_thread stksz s vm gpcoreid memg memc stack).2.thr gth).type = GUEST ∧
      ((create_guest_thread stksz s vm gpcoreid memg memc stack).2.thr gth).gpc_id
        = gpcoreid ∧
      ((create_guest_thread stksz s vm gpcoreid memg memc stack).2.thr gth).vm = vm ∧
      ∃ cth, memc = some cth ∧
        ((create_guest_thread stksz s vm gpcoreid memg memc stack).2.thr gth).buddy
          = some cth ∧
        ((create_guest_thread stksz s vm gpcoreid memg memc stack).2.thr cth).type = CTLR ∧
        ((create_guest_thread stksz s vm gpcoreid memg memc stack).2.thr cth).buddy
          = some gth ∧
        ((create_guest_thread stksz s vm gpcoreid memg memc stack).2.thr cth).vm = vm) ∧
    (memg = none ∨ memc = none ∨ stack = none →
      (create_guest_thread stksz s vm gpcoreid memg memc stack).1 = none) ∧
    (∀ g c k, memg = some g → memc = some c → stack = some k →
      (create_guest_thread stksz s vm gpcoreid memg memc stack).1 = some g) := by
  refine ⟨?_, ?_, ?_⟩
  · intro gth h hd
    cases memg with
    | none => cases memc <;> simp [create_guest_thread, alloc_vmm_thread] at h
    | some g =>
      cases memc with
      | none => simp [create_guest_thread, alloc_vmm_thread] at h
      | some c =>
        have hgc : g ≠ c := fun e => hd (by rw [e])
        cases stack with
        | none => simp [create_guest_thread, alloc_vmm_thread] at h
        | some k =>
          simp only [create_guest_thread, alloc_vmm_thread, Option.some.injEq] at h
          subst h
          refine ⟨rfl, ?_, ?_, ?_, c, rfl, ?_, ?_, ?_, ?_⟩ <;>
            simp [create_guest_thread, alloc_vmm_thread, zeroed_thread,
              Function.update_noteq hgc, Function.update_noteq hgc.symm]
  · intro h
    rcases h with h | h | h
    · subst h
      cases memc <;> simp [create_guest_thread, alloc_vmm_thread]
    · subst h
      cases memg <;> simp [create_guest_thread, alloc_vmm_thread]
    · subst h
      cases memg <;> cases memc <;> simp [create_guest_thread, alloc_vmm_thread]
  · rintro g c k rfl rfl rfl
    simp [create_guest_thread, alloc_vmm_thread]

/-- C14 on concrete inputs: objects at 10 and 11 and a stack at 500 for guest
core 3 of the session at 77 give guest 10 wired with controller 11; without
the stack the result is null. -/
theorem create_guest_thread_spec_witness :
    (create_guest_thread 4096 (static_init (fun _ => zeroed_thread none TASK) 1)
      (some 77) 3 (some 10) (some 11) (some 500)).1 = some 10 ∧
    ((create_guest_thread 4096 (static_init (fun _ => zeroed_thread none TASK) 1)
      (some 77) 3 (some 10) (some 11) (some 500)).2.thr 10).type = GUEST ∧
    ((create_guest_thread 4096 (static_init (fun _ => zeroed_thread none TASK) 1)
      (some 77) 3 (some 10) (some 11) (some 500)).2.thr 10).gpc_id = 3 ∧
    ((create_guest_thread 4096 (static_init (fun _ => zeroed_thread none TASK) 1)
      (some 77) 3 (some 10) (some 11) (some 500)).2.thr 10).buddy = some 11 ∧
    ((create_guest_thread 4096 (static_init (fun _ => zeroed_thread none TASK) 1)
      (some 77) 3 (some 10) (some 11) (some 500)).2.thr 11).buddy = some 10 ∧
    (create_guest_thread 4096 (static_init (fun _ => zeroed_thread none TASK) 1)
      (some 77) 3 (some 10) (some 11) none).1 = none := by
  have h := (create_guest_thread_spec 4096 (static_init (fun _ => zeroed_thread none TASK) 1)
    (some 77) 3 (some 10) (some 11) (some 500)).1 10 rfl (by decide)
  obtain ⟨_, h2, h3, _, c, hc, h5, _, h7, _⟩ := h
  cases hc
  exact ⟨rfl, h2, h3, h5, h7,
    (create_guest_thread_spec 4096 (static_init (fun _ => zeroed_thread none TASK) 1)
      (some 77) 3 (some 10) (some 11) none).2.1 (Or.inr (Or.inr rfl))⟩

/-! ### Sessions and tasks -/

/-- `create_guest_thread` writes thread objects only. -/
theorem create_guest_thread_current_vm (stksz : Nat) (s : sched_state) (vm : Option Nat)
    (gpcoreid : Nat) (memg memc stack : Option Nat) :
    (create_guest_thread stksz s vm gpcoreid memg memc stack).2.current_vm
      = s.current_vm := by
  cases memg <;> cases memc <;> cases stack <;>
    simp [create_guest_thread, alloc_vmm_thread]

/-- The roll-back loop returns the state it was given. -/
theorem destroy_guest_threads_state (gths : List Nat) (s s1 : sched_state)
    (h : destroy_guest_threads s gths = some s1) : s1 = s := by
  induction gths generalizing s with
  | nil =>
    simp only [destroy_guest_threads, Option.some.injEq] at h
    exact h.symm
  | cons g rest ih =>
    simp only [destroy_guest_threads, destroy_guest_thread] at h
    cases hb : (s.thr g).buddy with
    | none => rw [hb] at h; cases h
    | some c =>
      rw [hb] at h
      exact ih s h

/-- The creation loop of `vmm_init` leaves `current_vm` as it is. -/
theorem vmm_init_loop_current_vm (stksz vm : Nat)
    (allocs : Nat → Option Nat × Option Nat × Option Nat) (k : Nat) :
    ∀ (i : Nat) (s : sched_state) (gths : List Nat) (r : Option (List Nat))
      (s2 : sched_state),
      vmm_init_loop stksz vm allocs k i s gths = some (r, s2) →
      s2.current_vm = s.current_vm := by
  induction k with
  | zero =>
    intro i s gths r s2 h
    simp only [vmm_init_loop, Option.some.injEq, Prod.mk.injEq] at h
    rw [← h.2]
  | succ k ih =>
    intro i s gths r s2 h
    simp only [vmm_init_loop] at h
    have hc := create_guest_thread_current_vm stksz s (some vm) i
      (allocs i).1 (allocs i).2.1 (allocs i).2.2
    cases hr : create_guest_thread stksz s (some vm) i
        (allocs i).1 (allocs i).2.1 (allocs i).2.2 with
    | mk res s1 =>
      rw [hr] at h hc
      simp only at hc
      cases res with
      | none =>
        simp only at h
        cases hd : destroy_guest_threads s1 gths with
        | none => rw [hd] at h; cases h
        | some s3 =>
          rw [hd] at h
          simp only [Option.some.injEq, Prod.mk.injEq] at h
          rw [← h.2, destroy_guest_threads_state gths s1 s3 hd, hc]
      | some g =>
        simp only at h
        rw [ih (i + 1) s1 (gths ++ [g]) r s2 h, hc]

/-- A call of `vmm_init` that finds a session active returns -1 and leaves
everything as it is; a call that finds none leaves `current_vm` on its
argument. -/
theorem vmm_init_current_vm (stksz : Nat) (s : sched_state) (c : vmm_init_call) :
    (∀ v, s.current_vm = some v →
      vmm_init stksz s c = some { ret := -1, s := s, gths := none }) ∧
    (s.current_vm = none → ∀ r, vmm_init stksz s c = some r →
      r.s.current_vm = some c.vm) := by
  constructor
  · intro v hv
    simp [vmm_init, hv]
  · intro hn r h
    simp only [vmm_init, hn] at h
    split at h
    · cases h; rfl
    · split at h
      · cases h; rfl
      · split at h
        · cases h
        · rename_i s2 hl
          cases h
          exact vmm_init_loop_current_vm stksz c.vm c.allocs c.nr_gpcs 0 _ [] _ s2 hl
        · rename_i gths s2 hl
          cases h
          exact vmm_init_loop_current_vm stksz c.vm c.allocs c.nr_gpcs 0 _ [] _ s2 hl

/-- Along successive calls of `vmm_init`, nothing else writing `current_vm`:
once a session is active no call returns 0, and from any state at most one
does. -/
theorem vmm_init_seq_count (stksz : Nat)
    (calls : List ((sched_state → sched_state) × vmm_init_call))
    (hb : ∀ c ∈ calls, ∀ s, (c.1 s).current_vm = s.current_vm) :
    ∀ s, (s.current_vm ≠ none → (vmm_init_seq stksz s calls).count 0 = 0) ∧
      (vmm_init_seq stksz s calls).count 0 ≤ 1 := by
  induction calls with
  | nil => intro s; simp [vmm_init_seq]
  | cons c rest ih =>
    intro s
    obtain ⟨before, call⟩ := c
    have hb1 : (before s).current_vm = s.current_vm :=
      hb (before, call) (List.mem_cons_self _ _) s
    have ih1 := ih (fun c hc => hb c (List.mem_cons_of_mem _ hc))
    obtain ⟨h1, h2⟩ := vmm_init_current_vm stksz (before s) call
    cases hcv : s.current_vm with
    | some v =>
      have e := h1 v (by rw [hb1, hcv])
      have hz := (ih1 (before s)).1 (by rw [hb1, hcv]; simp)
      simp only [vmm_init_seq, e]
      simp [List.count_cons, hz]
    | none =>
      refine ⟨fun h => absurd rfl h, ?_⟩
      simp only [vmm_init_seq]
      cases hr : vmm_init stksz (before s) call with
      | none => simp
      | some r =>
        have hcur := h2 (by rw [hb1, hcv]) r hr
        have hz := (ih1 r.s).1 (by rw [hcur]; simp)
        simp only [List.count_cons, hz, zero_add]
        split <;> simp

/-- C15: at most one session is ever active.  `vmm_init` called while
`current_vm` is set returns -1, creates no thread and changes neither
`current_vm` nor the `gths` of its argument; hence over any sequence of calls
of `vmm_init`, whatever else happens in between that does not write
`current_vm`, at most one call returns 0. -/
theorem vmm_init_singleton (stksz : Nat) :
    (∀ s c v, s.current_vm = some v →
      vmm_init stksz s c = some { ret := -1, s := s, gths := none }) ∧
    (∀ s (calls : List ((sched_state → sched_state) × vmm_init_call)),
      (∀ c ∈ calls, ∀ s1, (c.1 s1).current_vm = s1.current_vm) →
      (vmm_init_seq stksz s calls).count 0 ≤ 1) :=
  ⟨fun s c v hv => (vmm_init_current_vm stksz s c).1 v hv,
   fun s calls hb => (vmm_init_seq_count stksz calls hb s).2⟩

/-- C15 on a concrete run: the same call made twice from the initial state
returns 0 and then -1. -/
theorem vmm_init_singleton_witness :
    vmm_init_seq 4096 (static_init (fun _ => zeroed_thread none TASK) 1)
        [(id, demo_vmm_init_call), (id, demo_vmm_init_call)] = [0, -1] ∧
    (vmm_init_seq 4096 (static_init (fun _ => zeroed_thread none TASK) 1)
        [(id, demo_vmm_init_call), (id, demo_vmm_init_call)]).count 0 ≤ 1 :=
  ⟨rfl, (vmm_init_singleton 4096).2 _ _ (by simp)⟩

/-- C16: the accounting of a task is a round trip.  A successful
`vmm_run_task(vm, func, arg)` adds one to `nr_unblk_tasks` and appends the new
task at the tail of `rnbl_tasks`, the guest counter and queue unchanged; when
that thread runs, `__task_thread_run` calls `func(arg)`, once, and its exit
callback takes one from `nr_unblk_tasks`, so that the counter is back to its
value of before the creation if nothing else moved it; and when the thread
object or the stack cannot be allocated `vmm_run_task` returns null with
counters and queues unchanged. -/
theorem task_lifecycle_round_trip (stksz : Nat) (s : sched_state)
    (vm func arg mem stack : Option Nat)
    (hg : 0 ≤ s.nr_unblk_guests) (ht : 0 ≤ s.nr_unblk_tasks) :
    (∀ a k, mem = some a → stack = some k →
      ∃ s1, vmm_run_task stksz s vm func arg mem stack = some (some a, s1) ∧
        s1.nr_unblk_tasks = s.nr_unblk_tasks + 1 ∧
        s1.rnbl_tasks = s.rnbl_tasks ++ [a] ∧
        s1.nr_unblk_guests = s.nr_unblk_guests ∧
        s1.rnbl_guests = s.rnbl_guests ∧
        (s1.thr a).type = TASK ∧
        (∀ (body : Option Nat → Option Nat → sched_state → sched_state) (s2 : sched_state),
          s2.thr a = s1.thr a →
          ((body func arg s2).thr a).type = TASK →
          (__task_thread_run body s2 a).1 = [(func, arg)] ∧
          (__task_thread_run body s2 a).2.nr_unblk_tasks
            = (body func arg s2).nr_unblk_tasks - 1 ∧
          (__task_thread_run body s2 a).2.nr_unblk_guests
            = (body func arg s2).nr_unblk_guests ∧
          ((body func arg s2).nr_unblk_tasks = s1.nr_unblk_tasks →
            (__task_thread_run body s2 a).2.nr_unblk_tasks = s.nr_unblk_tasks))) ∧
    (mem = none ∨ stack = none →
      ∃ s1, vmm_run_task stksz s vm func arg mem stack = some (none, s1) ∧
        s1.nr_unblk_tasks = s.nr_unblk_tasks ∧ s1.nr_unblk_guests = s.nr_unblk_guests ∧
        s1.rnbl_tasks = s.rnbl_tasks ∧ s1.rnbl_guests = s.rnbl_guests) := by
  obtain ⟨h1, h2, h3⟩ := vmm_run_task_cases stksz s vm func arg stack mem hg ht
  constructor
  · intro a k hm hs
    obtain ⟨thr1, tick, requests, e, _, hta⟩ := h3 a k hm hs
    refine ⟨_, e, rfl, rfl, rfl, rfl, by simp [hta, zeroed_thread], ?_⟩
    intro body s2 hthr hty
    have hf : (s2.thr a).func = func := by
      rw [hthr]; simp [hta]
    have ha : (s2.thr a).arg = arg := by
      rw [hthr]; simp [hta]
    have hcnt : (__tth_exit_cb (body func arg s2) a).nr_unblk_tasks
        = (body func arg s2).nr_unblk_tasks - 1 := by
      simp [__tth_exit_cb, acct_thread_blocked, hty]
    have hcg : (__tth_exit_cb (body func arg s2) a).nr_unblk_guests
        = (body func arg s2).nr_unblk_guests := by
      simp [__tth_exit_cb, acct_thread_blocked, hty]
    refine ⟨by simp [__task_thread_run, hf, ha], ?_, ?_, ?_⟩
    · simp only [__task_thread_run, hf, ha]; exact hcnt
    · simp only [__task_thread_run, hf, ha]; exact hcg
    · intro hb
      simp only [__task_thread_run, hf, ha]
      rw [hcnt, hb]
      simp
  · intro h
    cases mem with
    | none => exact ⟨s, h1 rfl, rfl, rfl, rfl, rfl⟩
    | some a =>
      rcases h with h | h
      · cases h
      · obtain ⟨thr1, e, _⟩ := h2 a rfl h
        exact ⟨_, e, rfl, rfl, rfl, rfl⟩

/-- C16 on a concrete state: thread0 counted, a task created at address 2 for
function 7 and argument 9; when it runs with a function that leaves the
scheduler alone, function 7 is called once on 9 and one task is counted
again. -/
theorem task_lifecycle_round_trip_witness :
    ∃ s1, vmm_run_task 4096
        { static_init (fun _ => zeroed_thread none TASK) 1 with nr_unblk_tasks := 1 }
        none (some 7) (some 9) (some 2) (some 600) = some (some 2, s1) ∧
      s1.nr_unblk_tasks = 2 ∧ s1.rnbl_tasks = [2] ∧
      (__task_thread_run (fun _ _ x => x) s1 2).1 = [(some 7, some 9)] ∧
      (__task_thread_run (fun _ _ x => x) s1 2).2.nr_unblk_tasks = 1 := by
  obtain ⟨s1, h, h1, h2, _, _, hty, h5⟩ := (task_lifecycle_round_trip 4096
    { static_init (fun _ => zeroed_thread none TASK) 1 with nr_unblk_tasks := 1 }
    none (some 7) (some 9) (some 2) (some 600) (by decide) (by decide)).1 2 600 rfl rfl
  obtain ⟨k1, _, _, k4⟩ := h5 (fun _ _ x => x) s1 rfl hty
  exact ⟨s1, h, h1, h2, k1, k4 rfl⟩

/-- C21 does not hold of the code: `vmm_init` writes `current_vm` before its
checks and no failure path takes the write back.  From the initial state,
where no session is active, a call whose `SYS_vmm_setup` is refused, a call
without memory for the `gths` array and a call without memory for a
controller's stack each return -1 and leave `current_vm` on their argument; a
call that would have returned 0 then returns -1. -/
theorem vmm_init_failure_leaves_current_vm :
    (static_init (fun _ => zeroed_thread none TASK) 1).current_vm = none ∧
    (vmm_init 4096 (static_init (fun _ => zeroed_thread none TASK) 1)
        demo_vmm_init_refused).map (fun r => (r.ret, r.s.current_vm, r.gths))
      = some (-1, some 77, none) ∧
    (vmm_init 4096 (static_init (fun _ => zeroed_thread none TASK) 1)
        demo_vmm_init_no_array).map (fun r => (r.ret, r.s.current_vm, r.gths))
      = some (-1, some 77, none) ∧
    (vmm_init 4096 (static_init (fun _ => zeroed_thread none TASK) 1)
        demo_vmm_init_no_stack).map (fun r => (r.ret, r.s.current_vm, r.gths))
      = some (-1, some 77, none) ∧
    vmm_init_seq 4096 (static_init (fun _ => zeroed_thread none TASK) 1)
        [(id, demo_vmm_init_call)] = [0] ∧
    vmm_init_seq 4096 (static_init (fun _ => zeroed_thread none TASK) 1)
        [(id, demo_vmm_init_refused), (id, demo_vmm_init_call)] = [-1, -1] := by
  refine ⟨rfl, ?_, ?_, ?_, rfl, rfl⟩ <;> decide


theorem sum_lengths_eq (sv : List (Option (List Nat))) :
    ((sv.filterMap id).map List.length).sum = (sv.map nsv_of).sum := by
  induction sv with
  | nil => rfl
  | cons x sv ih =>
    cases x with
    | none => simpa [nsv_of] using ih
    | some str => simp [nsv_of, strlen, ih]

theorem sizeD2M_loop_eq (sv : List (Option (List Nat))) (ns : Nat)
    (h : ns + (sv.map nsv_of).sum ≤ INT_MAX) :
    sizeD2M_loop sv ns = some (ns + (sv.map nsv_of).sum) := by
  induction sv generalizing ns with
  | nil => simp [sizeD2M_loop]
  | cons x sv ih =>
    cases x with
    | none =>
      simp only [List.map_cons, List.sum_cons, nsv_of, Nat.zero_add] at h ⊢
      simpa [sizeD2M_loop] using ih ns h
    | some str =>
      simp only [List.map_cons, List.sum_cons, nsv_of] at h ⊢
      have h1 : ns + strlen str ≤ INT_MAX := by omega
      have h2 := ih (ns + strlen str) (by omega)
      simp only [sizeD2M_loop, h1, if_true, h2]
      congr 1
      omega

theorem convD2M_count_eq (sv : List (Option (List Nat))) (ns : Nat)
    (h : ns + (sv.map nsv_of).sum ≤ INT_MAX) :
    convD2M_count sv ns = some (sv.map nsv_of, ns + (sv.map nsv_of).sum) := by
  induction sv generalizing ns with
  | nil => simp [convD2M_count]
  | cons x sv ih =>
    simp only [List.map_cons, List.sum_cons] at h ⊢
    have h1 : ns + nsv_of x ≤ INT_MAX := by omega
    have h2 := ih (ns + nsv_of x) (by omega)
    simp only [convD2M_count, h1, if_true, h2]
    congr 2
    omega

theorem convD2M_strings_eq (ebuf : Nat) (l : List (Option (List Nat) × Nat))
    (p : Nat) (m : Nat → Nat)
    (h : p + (l.map (fun x => x.2 + BIT16SZ)).sum ≤ ebuf) :
    (convD2M_strings ebuf l p m).1 = some (p + (l.map (fun x => x.2 + BIT16SZ)).sum) ∧
    ∀ a, a < p → (convD2M_strings ebuf l p m).2 a = m a := by
  induction l generalizing p m with
  | nil => simp [convD2M_strings]
  | cons x l ih =>
    obtain ⟨x, ns⟩ := x
    simp only [List.map_cons, List.sum_cons] at h ⊢
    have h1 : ¬ (p + ns + BIT16SZ > ebuf) := by omega
    simp only [convD2M_strings, h1, if_false]
    obtain ⟨ih1, ih2⟩ := ih (p + BIT16SZ + ns)
      (if ns ≠ 0 then memmove (PBIT BIT16SZ m p ns) (p + BIT16SZ) (x.getD []) ns
        else PBIT BIT16SZ m p ns) (by omega)
    refine ⟨?_, ?_⟩
    · rw [ih1]
      congr 1
      omega
    · intro a ha
      rw [ih2 a (by omega)]
      have hp : ¬ (p ≤ a ∧ a < p + BIT16SZ) := by omega
      have hq : ¬ (p + BIT16SZ ≤ a ∧ a < p + BIT16SZ + ns) := by omega
      split_ifs <;> simp [memmove, PBIT, hp, hq]

theorem convD2M_fixed_eq (d : dir) (m : Nat → Nat) (p : Nat) :
    (convD2M_fixed d m p).2 = p + 39 ∧
    ∀ a, a < p → (convD2M_fixed d m p).1 a = m a := by
  refine ⟨?_, ?_⟩
  · simp only [convD2M_fixed, BIT8SZ, BIT16SZ, BIT32SZ, BIT64SZ]
  · intro a ha
    simp only [convD2M_fixed, PBIT, BIT8SZ, BIT16SZ, BIT32SZ, BIT64SZ]
    repeat rw [if_neg (by omega)]

theorem PBIT16_zero (buf : Nat → Nat) (v : Nat) :
    PBIT BIT16SZ buf 0 v 0 = v % 256 ∧ PBIT BIT16SZ buf 0 v 1 = v / 256 % 256 ∧
    (∀ a, 2 ≤ a → PBIT BIT16SZ buf 0 v a = buf a) ∧
    (v < 2 ^ 16 → PBIT BIT16SZ buf 0 v 0 + 256 * PBIT BIT16SZ buf 0 v 1 = v) := by
  have h0 : PBIT BIT16SZ buf 0 v 0 = v % 256 := by simp [PBIT, BIT16SZ]
  have h1 : PBIT BIT16SZ buf 0 v 1 = v / 256 % 256 := by simp [PBIT, BIT16SZ]
  refine ⟨h0, h1, ?_, ?_⟩
  · intro a ha
    have : ¬ (0 ≤ a ∧ a < 0 + BIT16SZ) := by simp only [BIT16SZ]; omega
    simp only [PBIT, this, if_false]
  · intro hv
    rw [h0, h1]
    omega

theorem stat_size_eq (d : dir) :
    stat_size d = STATFIXLEN + ([d.name, d.uid, d.gid, d.muid].map nsv_of).sum := by
  rw [stat_size, sum_lengths_eq]
  rfl

theorem zip_lengths_sum (d : dir) :
    ((([d.name, d.uid, d.gid, d.muid].zip ([d.name, d.uid, d.gid, d.muid].map nsv_of)).map
      (fun x => x.2 + BIT16SZ)).sum)
      = ([d.name, d.uid, d.gid, d.muid].map nsv_of).sum + 4 * BIT16SZ := by
  simp only [List.map_cons, List.map_nil, List.zip_cons_cons, List.zip_nil_right,
    List.sum_cons, List.sum_nil, BIT16SZ]
  omega

/-- C22: with `STATFIXLEN` = 49 = the 2-byte size field + 39 bytes of fixed
fields + four 2-byte string counts, and for every dir `d` whose size
`stat_size d` (49 plus the lengths of its non-null strings) fits the `int`
variables of the code, `sizeD2M d` is `stat_size d`, and for every buffer and
every `nbuf`: `convD2M` returns 0 with the buffer untouched when `nbuf < 2`;
returns 2 (`BIT16SZ`) when `2 ≤ nbuf < stat_size d`, the first two bytes of
the buffer holding `stat_size d - 2` least significant byte first (the exact
value when it is below 2^16) and the rest of the buffer untouched; and returns
`stat_size d` when `stat_size d ≤ nbuf`, the loop over the strings ending at
the pointer `stat_size d` without its overrun check having fired, the first
two bytes holding `stat_size d - 2` as before. -/
theorem convD2M_spec (d : dir) (buf : Nat → Nat) (nbuf : Nat)
    (hfit : stat_size d ≤ INT_MAX) :
    STATFIXLEN = 49 ∧ STATFIXLEN = BIT16SZ + 39 + 4 * BIT16SZ ∧
    sizeD2M d = some (stat_size d) ∧
    (nbuf < 2 → convD2M d buf nbuf = some (0, buf)) ∧
    (2 ≤ nbuf → nbuf < stat_size d →
      ∃ m, convD2M d buf nbuf = some (2, m) ∧
        m 0 = (stat_size d - 2) % 256 ∧ m 1 = (stat_size d - 2) / 256 % 256 ∧
        (stat_size d - 2 < 2 ^ 16 → m 0 + 256 * m 1 = stat_size d - 2) ∧
        ∀ a, 2 ≤ a → m a = buf a) ∧
    (stat_size d ≤ nbuf →
      ∃ m, convD2M d buf nbuf = some (stat_size d, m) ∧
        (convD2M_strings nbuf
          ([d.name, d.uid, d.gid, d.muid].zip ([d.name, d.uid, d.gid, d.muid].map nsv_of))
          (convD2M_fixed d (PBIT BIT16SZ buf 0 (stat_size d - BIT16SZ)) BIT16SZ).2
          (convD2M_fixed d (PBIT BIT16SZ buf 0 (stat_size d - BIT16SZ)) BIT16SZ).1).1
          = some (stat_size d) ∧
        m 0 = (stat_size d - 2) % 256 ∧ m 1 = (stat_size d - 2) / 256 % 256 ∧
        (stat_size d - 2 < 2 ^ 16 → m 0 + 256 * m 1 = stat_size d - 2)) := by
  have hsz := stat_size_eq d
  have hS : STATFIXLEN = 49 := rfl
  have hB : BIT16SZ = 2 := rfl
  have hcount := convD2M_count_eq [d.name, d.uid, d.gid, d.muid] 0 (by omega)
  rw [Nat.zero_add] at hcount
  have hss : STATFIXLEN + ([d.name, d.uid, d.gid, d.muid].map nsv_of).sum ≤ INT_MAX := by
    omega
  obtain ⟨hb0, hb1, hbrest, hbexact⟩ := PBIT16_zero buf (stat_size d - 2)
  refine ⟨hS, rfl, ?_, ?_, ?_, ?_⟩
  · have h1 := sizeD2M_loop_eq [d.name, d.uid, d.gid, d.muid] 0 (by omega)
    rw [Nat.zero_add] at h1
    simp only [sizeD2M, h1, hss, if_true, hsz]
  · intro h
    have h2 : nbuf < BIT16SZ := by omega
    simp only [convD2M, h2, if_true]
  · intro h2 hlt
    have h3 : ¬ nbuf < BIT16SZ := by omega
    have h4 : STATFIXLEN + ([d.name, d.uid, d.gid, d.muid].map nsv_of).sum > nbuf := by
      omega
    refine ⟨PBIT BIT16SZ buf 0 (stat_size d - 2), ?_, hb0, hb1, hbexact, hbrest⟩
    have h5 : ¬ nbuf < 2 := by omega
    simp only [convD2M, h3, if_false, hcount, hss, h4, if_true, hsz, hB, h5]
  · intro hle
    have h3 : ¬ nbuf < BIT16SZ := by omega
    have h4 : ¬ STATFIXLEN + ([d.name, d.uid, d.gid, d.muid].map nsv_of).sum > nbuf := by
      omega
    obtain ⟨hf2, hf1⟩ := convD2M_fixed_eq d (PBIT BIT16SZ buf 0 (stat_size d - BIT16SZ))
      BIT16SZ
    have hz := zip_lengths_sum d
    obtain ⟨hs1, hs2⟩ := convD2M_strings_eq nbuf
      ([d.name, d.uid, d.gid, d.muid].zip ([d.name, d.uid, d.gid, d.muid].map nsv_of))
      (convD2M_fixed d (PBIT BIT16SZ buf 0 (stat_size d - BIT16SZ)) BIT16SZ).2
      (convD2M_fixed d (PBIT BIT16SZ buf 0 (stat_size d - BIT16SZ)) BIT16SZ).1
      (by rw [hf2, hz]; omega)
    have hend : (convD2M_fixed d (PBIT BIT16SZ buf 0 (stat_size d - BIT16SZ)) BIT16SZ).2
        + ((([d.name, d.uid, d.gid, d.muid].zip
            ([d.name, d.uid, d.gid, d.muid].map nsv_of)).map
          (fun x => x.2 + BIT16SZ)).sum) = stat_size d := by
      rw [hf2, hz]; omega
    rw [hend] at hs1
    refine ⟨(convD2M_strings nbuf
      ([d.name, d.uid, d.gid, d.muid].zip ([d.name, d.uid, d.gid, d.muid].map nsv_of))
      (convD2M_fixed d (PBIT BIT16SZ buf 0 (stat_size d - BIT16SZ)) BIT16SZ).2
      (convD2M_fixed d (PBIT BIT16SZ buf 0 (stat_size d - BIT16SZ)) BIT16SZ).1).2,
      ?_, hs1, ?_, ?_, ?_⟩
    · simp only [convD2M, h3, if_false, hcount, hss, h4, if_true]
      rw [← hsz]
      generalize hres : convD2M_strings nbuf
        ([d.name, d.uid, d.gid, d.muid].zip ([d.name, d.uid, d.gid, d.muid].map nsv_of))
        (convD2M_fixed d (PBIT BIT16SZ buf 0 (stat_size d - BIT16SZ)) BIT16SZ).2
        (convD2M_fixed d (PBIT BIT16SZ buf 0 (stat_size d - BIT16SZ)) BIT16SZ).1 = res
        at hs1 ⊢
      obtain ⟨r1, r2⟩ := res
      simp only at hs1
      subst hs1
      simp
    · rw [hs2 0 (by rw [hf2]; omega), hf1 0 (by omega)]
      exact hb0
    · rw [hs2 1 (by rw [hf2]; omega), hf1 1 (by omega)]
      exact hb1
    · intro hv
      rw [hs2 0 (by rw [hf2]; omega), hf1 0 (by omega), hs2 1 (by rw [hf2]; omega),
        hf1 1 (by omega)]
      exact hbexact hv

/-- Instance of `convD2M_spec` at the example dir, whose size is 52, with a
zeroed buffer and `nbuf` = 1, 51 and 52. -/
theorem convD2M_spec_witness :
    stat_size demo_dir ≤ INT_MAX ∧ stat_size demo_dir = 52 ∧
    sizeD2M demo_dir = some 52 ∧
    convD2M demo_dir (fun _ => 0) 1 = some (0, fun _ => 0) ∧
    (∃ m, convD2M demo_dir (fun _ => 0) 51 = some (2, m) ∧ m 0 = 50 ∧ m 1 = 0) ∧
    (∃ m, convD2M demo_dir (fun _ => 0) 52 = some (52, m) ∧ m 0 = 50 ∧ m 1 = 0) := by
  have hsz : stat_size demo_dir = 52 := by decide
  have hfit : stat_size demo_dir ≤ INT_MAX := by decide
  have h1 := convD2M_spec demo_dir (fun _ => 0) 1 hfit
  have h51 := convD2M_spec demo_dir (fun _ => 0) 51 hfit
  have h52 := convD2M_spec demo_dir (fun _ => 0) 52 hfit
  rw [hsz] at h1 h51 h52
  refine ⟨hfit, hsz, h1.2.2.1, h1.2.2.2.1 (by decide), ?_, ?_⟩
  · obtain ⟨m, hm, h0, h1, _⟩ := h51.2.2.2.2.1 (by decide) (by decide)
    exact ⟨m, hm, h0, h1⟩
  · obtain ⟨m, hm, _, h0, h1, _⟩ := h52.2.2.2.2.2 (by decide)
    exact ⟨m, hm, h0, h1⟩

/-- C21, as amended: a call of `vmm_init` that finds a session active returns
-1 with the state, `current_vm` included, as before the call.  A call that
finds none and whose `SYS_vmm_setup` does not answer `nr_gpcs`, or that gets
no memory for the `gths` array, returns -1 with `current_vm` left on its
argument and nothing else changed.  Whenever a call that found no session
returns -1 (for one of these two reasons or for a failed creation),
`current_vm` is left on its argument, so differs from before the call, and
every later call returns -1 with the state untouched. -/
theorem vmm_init_failure_spec (stksz : Nat) (s : sched_state) (c : vmm_init_call) :
    (∀ v, s.current_vm = some v →
      vmm_init stksz s c = some { ret := -1, s := s, gths := none }) ∧
    (s.current_vm = none → c.sysret ≠ (c.nr_gpcs : Int) →
      vmm_init stksz s c
        = some { ret := -1, s := { s with current_vm := some c.vm }, gths := none }) ∧
    (s.current_vm = none → c.sysret = (c.nr_gpcs : Int) → c.gths_mem = none →
      vmm_init stksz s c
        = some { ret := -1, s := { s with current_vm := some c.vm }, gths := none }) ∧
    (s.current_vm = none → ∀ r, vmm_init stksz s c = some r → r.ret = -1 →
      r.s.current_vm = some c.vm ∧ r.s.current_vm ≠ s.current_vm ∧
      ∀ c2, vmm_init stksz r.s c2 = some { ret := -1, s := r.s, gths := none }) := by
  obtain ⟨h1, h2⟩ := vmm_init_current_vm stksz s c
  refine ⟨h1, ?_, ?_, ?_⟩
  · intro hn hsys
    simp only [vmm_init, hn, hsys, ne_eq, not_false_eq_true, if_true]
  · intro hn hsys hmem
    simp only [vmm_init, hn, hsys, hmem, ne_eq, not_true_eq_false, if_false]
  · intro hn r hr _
    have hcv := h2 hn r hr
    refine ⟨hcv, ?_, ?_⟩
    · rw [hcv, hn]
      simp
    · intro c2
      exact (vmm_init_current_vm stksz r.s c2).1 c.vm hcv

/-- Instance of `vmm_init_failure_spec`: from the initial state the example
call without memory for the controller's stack returns -1 and leaves
`current_vm` on 77, after which the example call that would have succeeded
returns -1. -/
theorem vmm_init_failure_spec_witness :
    (static_init (fun _ => zeroed_thread none TASK) 1).current_vm = none ∧
    ∃ r, vmm_init 4096 (static_init (fun _ => zeroed_thread none TASK) 1)
        demo_vmm_init_no_stack = some r ∧ r.ret = -1 ∧
      r.s.current_vm = some 77 ∧
      vmm_init 4096 r.s demo_vmm_init_call = some { ret := -1, s := r.s, gths := none } := by
  have hsome : (vmm_init 4096 (static_init (fun _ => zeroed_thread none TASK) 1)
      demo_vmm_init_no_stack).isSome = true := by decide
  obtain ⟨r, hr⟩ := Option.isSome_iff_exists.mp hsome
  have hmap : (vmm_init 4096 (static_init (fun _ => zeroed_thread none TASK) 1)
      demo_vmm_init_no_stack).map (fun r => r.ret) = some (-1) := by decide
  have hret : r.ret = -1 := by
    rw [hr] at hmap
    simpa using hmap
  have h := (vmm_init_failure_spec 4096 (static_init (fun _ => zeroed_thread none TASK) 1)
    demo_vmm_init_no_stack).2.2.2 rfl r hr hret
  exact ⟨rfl, r, hr, hret, h.1, h.2.2 demo_vmm_init_call⟩

end Vmm
